import Mathlib

/-!
# tpm_sealdata: the sealing pipeline of `src/cmds/tpm_sealdata.c`

A shallow embedding of `parse` and `main` of `tpm_sealdata.c`.

* The trust anchor (the TSS wrappers `contextCreate`, `tpmGetRandom`, `dataSeal`, ...),
  the input stream and the output sink are collaborators: their answers are given
  by an `Env` record, one field per call site of the source, and every call `main`
  makes is recorded, with its actual arguments, in a trace.
* The constants of `tpm_seal.h` (the marker strings, the secret, the IV) are a
  parameter (`SealConsts`): that header is not among the sources.
* The OpenSSL primitives that `main` drives (`EVP_EncryptUpdate`, `EVP_EncryptFinal`,
  the base64 filter BIO) are modelled after their libcrypto algorithms; the AES
  block function is a parameter.
-/

namespace TpmSealdata

abbrev Byte := Nat

abbrev Handle := Nat

/-! ## libcrypto: base64 encoder (`EVP_EncodeBlock`, `EVP_EncodeUpdate`, `EVP_EncodeFinal`) -/

/-- The base64 alphabet `data_bin2ascii` of libcrypto. -/
def data_bin2ascii : List Char :=
  "ABCDEFGHIJKLMNOPQRSTUVWXYZabcdefghijklmnopqrstuvwxyz0123456789+/".toList

/-- The macro `conv_bin2ascii(a) = data_bin2ascii[(a) & 0x3f]`. -/
def conv_bin2ascii (a : Nat) : Byte :=
  (data_bin2ascii.getD (a % 64) 'A').toNat

/-- `EVP_EncodeBlock`: three input bytes give four characters; a last group of
one or two bytes is padded with `=`. -/
def EVP_EncodeBlock : List Byte → List Byte
  | a :: b :: c :: rest =>
      let l := a * 65536 + b * 256 + c
      [conv_bin2ascii (l / 262144), conv_bin2ascii (l / 4096),
       conv_bin2ascii (l / 64), conv_bin2ascii l] ++ EVP_EncodeBlock rest
  | [a, b] =>
      let l := a * 65536 + b * 256
      [conv_bin2ascii (l / 262144), conv_bin2ascii (l / 4096),
       conv_bin2ascii (l / 64), 61]
  | [a] =>
      let l := a * 65536
      [conv_bin2ascii (l / 262144), conv_bin2ascii (l / 4096), 61, 61]
  | [] => []

/-- The encoder emits one text line per `B64_LINE = 48` input bytes
(`ctx->length` of `EVP_EncodeInit`). -/
def B64_LINE : Nat := 48

/-- The first `n` complete lines of `l`: each is `EVP_EncodeBlock` of 48 bytes
followed by a newline. -/
def encodeLines : Nat → List Byte → List Byte
  | 0, _ => []
  | n + 1, l => EVP_EncodeBlock (l.take B64_LINE) ++ [10] ++ encodeLines n (l.drop B64_LINE)

/-- `EVP_EncodeUpdate` on an encoder holding the pending bytes `pend` (`ctx->enc_data`,
`ctx->num = pend.length < 48`): the bytes are appended to the pending ones, every
complete line is emitted and the rest stays pending. Returns the text emitted and
the new pending bytes. -/
def EVP_EncodeUpdate (pend inp : List Byte) : List Byte × List Byte :=
  if inp.length = 0 then ([], pend)
  else if pend.length + inp.length < B64_LINE then ([], pend ++ inp)
  else
    let all := pend ++ inp
    let n := all.length / B64_LINE
    (encodeLines n all, all.drop (B64_LINE * n))

/-- `EVP_EncodeFinal`: a non-empty pending group is encoded and terminated by a
newline; nothing is emitted when nothing is pending. -/
def EVP_EncodeFinal (pend : List Byte) : List Byte :=
  if pend.length = 0 then [] else EVP_EncodeBlock pend ++ [10]

/-- Specification side: the base64 text of a whole byte string, as one value
(lines of 48 input bytes, the last one possibly shorter). -/
def base64 (data : List Byte) : List Byte :=
  encodeLines (data.length / B64_LINE) data ++
    EVP_EncodeFinal (data.drop (B64_LINE * (data.length / B64_LINE)))

/-! ## libcrypto: AES-256-CBC through the EVP layer -/

/-- `EVP_CIPHER_block_size(EVP_aes_256_cbc())`. -/
def BLOCK_SIZE : Nat := 16

/-- `EVP_CIPHER_key_length(EVP_aes_256_cbc())`. -/
def KEY_LENGTH : Nat := 32

/-- A cipher block: 16 bytes. -/
abbrev Block := { l : List Byte // l.length = BLOCK_SIZE }

/-- The raw block function of the cipher (AES-256 encryption or decryption of one
block under a key). -/
abbrev BlockFn := List Byte → Block → Block

/-- The 16 bytes found at a buffer address, as a block. -/
def toBlock (l : List Byte) : Block :=
  ⟨(l ++ List.replicate BLOCK_SIZE 0).take BLOCK_SIZE, by simp [BLOCK_SIZE]⟩

/-- Bytewise exclusive or of two blocks. -/
def xorBlock (a b : Block) : Block :=
  ⟨List.zipWith (· ^^^ ·) a.1 b.1, by simp [a.2, b.2]⟩

/-- CBC encryption of `n` blocks of `inp` (the `do_cipher` of `EVP_aes_256_cbc`):
each block is xored with the chaining value and encrypted; the ciphertext block is
the next chaining value. Returns the ciphertext and the final chaining value. -/
def cbc_encrypt (E : BlockFn) (key : List Byte) : Block → Nat → List Byte → List Byte × Block
  | iv, 0, _ => ([], iv)
  | iv, n + 1, inp =>
      let c := E key (xorBlock (toBlock (inp.take BLOCK_SIZE)) iv)
      let r := cbc_encrypt E key c n (inp.drop BLOCK_SIZE)
      (c.1 ++ r.1, r.2)

/-- The cipher context `EVP_CIPHER_CTX`: key, chaining value (`ctx->iv`) and the
buffered partial block (`ctx->buf`, `ctx->buf_len = buf.length`). -/
structure EVP_CIPHER_CTX where
  key : List Byte
  iv : Block
  buf : List Byte

/-- `EVP_EncryptInit(&ctx, EVP_aes_256_cbc(), key, iv)`. -/
def EVP_EncryptInit (key iv : List Byte) : EVP_CIPHER_CTX :=
  { key := key, iv := toBlock iv, buf := [] }

/-- `EVP_EncryptUpdate(&ctx, out, &outl, in, inl)` with `in = inp`, `inl = inp.length`.
Returns the bytes stored to `out`, the value stored to `outl`, and the new context. -/
def EVP_EncryptUpdate (E : BlockFn) (ctx : EVP_CIPHER_CTX) (inp : List Byte) :
    List Byte × Nat × EVP_CIPHER_CTX :=
  let inl := inp.length
  if inl = 0 then ([], 0, ctx)
  else if ctx.buf.length = 0 ∧ inl % BLOCK_SIZE = 0 then
    -- whole blocks and nothing buffered: encrypt in place
    let r := cbc_encrypt E ctx.key ctx.iv (inl / BLOCK_SIZE) inp
    (r.1, inl, { ctx with iv := r.2 })
  else
    let i := ctx.buf.length
    let bl := BLOCK_SIZE
    if i ≠ 0 ∧ bl - i > inl then
      -- the input still fits into the partial block
      ([], 0, { ctx with buf := ctx.buf ++ inp })
    else
      -- complete the buffered block first, if there is one
      let j := if i ≠ 0 then bl - i else 0
      let r1 := if i ≠ 0 then cbc_encrypt E ctx.key ctx.iv 1 (ctx.buf ++ inp.take j)
                else ([], ctx.iv)
      let outl1 := if i ≠ 0 then bl else 0
      let rest := inp.drop j
      let i2 := rest.length % bl
      let inl2 := rest.length - i2
      let r2 := cbc_encrypt E ctx.key r1.2 (inl2 / bl) rest
      (r1.1 ++ r2.1, outl1 + inl2, { ctx with iv := r2.2, buf := rest.drop inl2 })

/-- `EVP_EncryptFinal(&ctx, out, &outl)`: the buffered bytes are padded with
`n = 16 - buf_len` bytes of value `n` and the block is encrypted; `outl = 16`. -/
def EVP_EncryptFinal (E : BlockFn) (ctx : EVP_CIPHER_CTX) : List Byte × Nat :=
  let b := BLOCK_SIZE
  let n := b - ctx.buf.length
  let r := cbc_encrypt E ctx.key ctx.iv 1 (ctx.buf ++ List.replicate n n)
  (r.1, b)

/-- Specification side: standard block padding. A payload of length `L` is followed
by `16 - L mod 16` bytes, each of that value. -/
def spec_pad (p : List Byte) : List Byte :=
  p ++ List.replicate (BLOCK_SIZE - p.length % BLOCK_SIZE) (BLOCK_SIZE - p.length % BLOCK_SIZE)

/-- Specification side: one-shot CBC encryption of a whole payload under a key and
an IV, with standard block padding. -/
def spec_cbc_encrypt (E : BlockFn) (key iv : List Byte) (p : List Byte) : List Byte :=
  (cbc_encrypt E key (toBlock iv) ((spec_pad p).length / BLOCK_SIZE) (spec_pad p)).1

/-- CBC decryption of `n` blocks with the block decryption function `D`. -/
def cbc_decrypt (D : BlockFn) (key : List Byte) : Block → Nat → List Byte → List Byte
  | _, 0, _ => []
  | iv, n + 1, c =>
      let cb := toBlock (c.take BLOCK_SIZE)
      (xorBlock (D key cb) iv).1 ++ cbc_decrypt D key cb n (c.drop BLOCK_SIZE)

/-- Specification side: padding removal; the last byte tells how many bytes to drop. -/
def spec_unpad (p : List Byte) : List Byte :=
  p.take (p.length - p.getLast?.getD 0)

/-- Specification side: CBC decryption of a whole ciphertext followed by padding
removal. -/
def spec_cbc_decrypt (D : BlockFn) (key iv : List Byte) (c : List Byte) : List Byte :=
  spec_unpad (cbc_decrypt D key (toBlock iv) (c.length / BLOCK_SIZE) c)

/-! ## Constants of `tpm_seal.h` and of the TSS headers -/

/-- The marker strings written by `BIO_puts`. -/
inductive Marker where
  | HDR | TSS | EVP | KEYTYPE_SYM | CIPHER_AES256CBC | ENC | FTR
  deriving DecidableEq

/-- The string constants of `tpm_seal.h`, as bytes without the terminating NUL.
The header is not among the sources, so they are a parameter. -/
structure SealConsts where
  TPMSEAL_HDR_STRING : List Byte
  TPMSEAL_FTR_STRING : List Byte
  TPMSEAL_TSS_STRING : List Byte
  TPMSEAL_EVP_STRING : List Byte
  TPMSEAL_ENC_STRING : List Byte
  TPMSEAL_KEYTYPE_SYM : List Byte
  TPMSEAL_CIPHER_AES256CBC : List Byte
  TPMSEAL_SECRET : List Byte
  TPMSEAL_IV : List Byte

/-- The text of a marker. -/
def SealConsts.text (K : SealConsts) : Marker → List Byte
  | .HDR => K.TPMSEAL_HDR_STRING
  | .TSS => K.TPMSEAL_TSS_STRING
  | .EVP => K.TPMSEAL_EVP_STRING
  | .KEYTYPE_SYM => K.TPMSEAL_KEYTYPE_SYM
  | .CIPHER_AES256CBC => K.TPMSEAL_CIPHER_AES256CBC
  | .ENC => K.TPMSEAL_ENC_STRING
  | .FTR => K.TPMSEAL_FTR_STRING

/-- The null PCR composite handle `NULL_HPCRS`. -/
def NULL_HPCRS : Handle := 0

/-- `PATH_MAX` of `limits.h`. -/
def PATH_MAX : Nat := 4096

/-- Object types of `Tspi_Context_CreateObject`. -/
inductive ObjType where
  | TSS_OBJECT_TYPE_PCRS | TSS_OBJECT_TYPE_RSAKEY | TSS_OBJECT_TYPE_POLICY
  | TSS_OBJECT_TYPE_ENCDATA
  deriving DecidableEq

/-- Creation flags; `keyFlags` is the bitwise or of the first five. -/
inductive TssFlag where
  | TSS_KEY_TYPE_STORAGE | TSS_KEY_SIZE_2048 | TSS_KEY_VOLATILE | TSS_KEY_AUTHORIZATION
  | TSS_KEY_NOT_MIGRATABLE | TSS_POLICY_USAGE | TSS_ENCDATA_SEAL
  deriving DecidableEq

/-- The flags of the wrapping key, `keyFlags` of `main`. -/
def keyFlags : List TssFlag :=
  [.TSS_KEY_TYPE_STORAGE, .TSS_KEY_SIZE_2048, .TSS_KEY_VOLATILE, .TSS_KEY_AUTHORIZATION,
   .TSS_KEY_NOT_MIGRATABLE]

/-- The attribute asked of `getAttribData`. -/
inductive Attrib where
  | ENCDATA_BLOB   -- TSS_TSPATTRIB_ENCDATA_BLOB, TSS_TSPATTRIB_ENCDATABLOB_BLOB
  | KEY_BLOB       -- TSS_TSPATTRIB_KEY_BLOB, TSS_TSPATTRIB_KEYBLOB_BLOB
  deriving DecidableEq

/-- The three BIO objects of `main`, each named after the variable that receives it
from `BIO_new`: the input BIO (`bin`), the output file BIO (first held by `bdata`)
and the base64 filter (`b64`). -/
inductive BioVar where
  | bin | bdata | b64
  deriving DecidableEq

/-! ## Calls, events and the collaborators' answers -/

/-- A call made by `parse` or `main`, with its actual arguments (and, for the
cipher and the reads, its results). -/
inductive Call where
  | contextCreate
  | contextConnect (hContext : Handle)
  | contextGetTpm (hContext : Handle)
  | genericOptHandler
  | Tspi_Context_CreateObject (hContext : Handle) (type : ObjType)
  | Tspi_TPM_PcrRead (hTpm : Handle) (pcr_idx : Nat)
  | Tspi_PcrComposite_SetPcrValue (hPcrs : Handle) (pcr_idx : Nat) (pcr_siz : Nat)
      (pcr_idx_val : List Byte)
  | BIO_new (v : BioVar)
  | BIO_read_filename (name : List Char)
  | BIO_write_filename (name : List Char)
  | tpmGetRandom (hTpm : Handle) (size : Nat)
  | keyLoadKeyByUUID (hContext : Handle)
  | policyGet (hSrk : Handle)
  | policySetSecret (hPolicy : Handle) (secret : List Byte)
  | contextCreateObject (hContext : Handle) (type : ObjType) (flags : List TssFlag)
  | policyAssign (hPolicy : Handle) (hObject : Handle)
  | keyCreateKey (hKey : Handle) (hSrk : Handle) (hPcrs : Handle)
  | keyLoadKey (hKey : Handle) (hSrk : Handle)
  | dataSeal (hEncdata : Handle) (hKey : Handle) (len : Nat) (data : Option (List Byte))
      (hPcrs : Handle)
  | getAttribData (h : Handle) (attrib : Attrib)
  | BIO_puts (m : Marker)
  | BIO_push
  | BIO_pop
  | BIO_write (data : List Byte)
  | BIO_flush
  | EVP_EncryptInit (key : Option (List Byte)) (iv : List Byte)
  | BIO_read (lineLen : Int)
  | EVP_EncryptUpdate (inl : Nat) (out : List Byte) (outl : Nat)
  | EVP_EncryptFinal (out : List Byte) (outl : Nat)
  | contextClose (hContext : Handle)
  | BIO_free (v : BioVar)
  deriving DecidableEq

/-- A call together with whether it reported success. The clean-up calls, whose
results play no role, are logged with `true`; a second `BIO_free` of the same BIO is
told by `doubleFree`. -/
structure Event where
  call : Call
  ok : Bool
  deriving DecidableEq

/-- What one `BIO_read(bin, line, sizeof(line))` gives: some bytes, end of input,
or an error. -/
inductive ReadResult where
  | data (bytes : List Byte)
  | eof
  | error
  deriving DecidableEq

/-- The answers of the collaborators, one field per call site of the source, in
program order. `none`/`false` is a failure. -/
structure Env where
  /-- the options of the command line, as `getopt_long` hands them out -/
  opts : List (Char × Option (List Char))
  contextCreate : Option Handle
  contextConnect : Bool
  contextGetTpm : Option Handle
  /-- `Tspi_Context_CreateObject(.., TSS_OBJECT_TYPE_PCRS, ..)` in `parse` -/
  createPcrs : Option Handle
  /-- `Tspi_TPM_PcrRead`: the value of a register, if it can be read -/
  pcrRead : Nat → Option (List Byte)
  /-- `Tspi_PcrComposite_SetPcrValue`, by register index -/
  setPcrValue : Nat → Bool
  BIO_new_bin : Bool
  BIO_read_filename : Bool
  tpmGetRandom : Option (List Byte)
  keyLoadKeyByUUID : Option Handle
  policyGet : Option Handle
  policySetSecret_srk : Bool
  createKey : Option Handle
  createKeyPolicy : Option Handle
  policySetSecret_key : Bool
  policyAssign_key : Bool
  keyCreateKey : Bool
  keyLoadKey : Bool
  createEncdata : Option Handle
  createEncPolicy : Option Handle
  policySetSecret_enc : Bool
  policyAssign_enc : Bool
  dataSeal : Bool
  getAttribData_enc : Option (List Byte)
  getAttribData_key : Option (List Byte)
  BIO_new_b64 : Bool
  BIO_new_bdata : Bool
  BIO_write_filename : Bool
  /-- whether the write of each marker succeeds -/
  puts : Marker → Bool
  write_sealKey : Bool
  flush_sealKey : Bool
  write_encKey : Bool
  flush_encKey : Bool
  /-- the successive results of `BIO_read`; after the last one the input is at its end -/
  reads : List ReadResult
  /-- whether the `BIO_write` of the loop succeeds, by iteration -/
  write_data : Nat → Bool
  write_final : Bool
  flush_data : Bool
  /-- the chars found in memory after the array `out_filename`, up to the first NUL -/
  beyond : List Char

/-! ## Program state -/

/-- Where the variable `bdata` points: nowhere, at the file sink, or at the base64
filter pushed on top of the file sink. -/
inductive BioPtr where
  | null | file | b64chain
  deriving DecidableEq

/-- The file-scope variables of `tpm_sealdata.c`, the locals of `main`, the state
of the output chain, and the trace of calls. -/
structure St where
  /-- the chars of the array `in_filename[PATH_MAX]` before its first NUL; all
  `PATH_MAX` of them when the array holds no NUL -/
  in_filename : List Char := []
  /-- the chars of the array `out_filename[PATH_MAX]`, likewise -/
  out_filename : List Char := []
  hPcrs : Handle := NULL_HPCRS
  hContext : Handle := 0
  hTpm : Handle := 0
  hSrk : Handle := 0
  hKey : Handle := 0
  hEncdata : Handle := 0
  hPolicy : Handle := 0
  hSrkPolicy : Handle := 0
  iRc : Int := -1
  line : List Byte := []
  lineLen : Int := 0
  encData : List Byte := []
  encDataLen : Nat := 0
  encKey : List Byte := []
  randKey : Option (List Byte) := none
  sealKey : List Byte := []
  bin : Bool := false
  bdata : BioPtr := .null
  b64 : Bool := false
  ctx : EVP_CIPHER_CTX := { key := [], iv := toBlock [], buf := [] }
  /-- the contents of the PCR composite object `hPcrs` -/
  pcrs : List (Nat × List Byte) := []
  /-- the pending bytes of the base64 filter -/
  enc_data : List Byte := []
  /-- the bytes received by the output file -/
  out : List Byte := []
  trace : List Event := []

/-- Record a call and its result. -/
def St.log (s : St) (c : Call) (ok : Bool) : St :=
  { s with trace := s.trace ++ [⟨c, ok⟩] }

/-! ## `parse` -/

/-- `isspace` in the C locale: the space and the characters `\t \n \v \f \r`
(codes 9 to 13). -/
def isspace (c : Char) : Bool :=
  c.toNat = 32 || (9 ≤ c.toNat && c.toNat ≤ 13)

/-- `LONG_MAX` for a 64-bit `long`. -/
def LONG_MAX : Int := 9223372036854775807

/-- `LONG_MIN` for a 64-bit `long`. -/
def LONG_MIN : Int := -9223372036854775808

/-- The digits of `strtol`: the decimal value of the leading digits. -/
def atoiDigits : Nat → List Char → Nat
  | acc, c :: cs => if c.isDigit then atoiDigits (acc * 10 + (c.toNat - 48)) cs else acc
  | acc, [] => acc

/-- `strtol(nptr, NULL, 10)` of the C library: leading white space, an optional
sign, then decimal digits up to the first other character; a value outside the range
of `long` is replaced by `LONG_MAX` or `LONG_MIN`. -/
def strtol (a : List Char) : Int :=
  match a.dropWhile isspace with
  | '-' :: cs => max LONG_MIN (- (atoiDigits 0 cs : Int))
  | '+' :: cs => min LONG_MAX (atoiDigits 0 cs : Int)
  | cs => min LONG_MAX (atoiDigits 0 cs : Int)

/-- The conversion of a `long` to `int`: the low 32 bits, in two's complement. -/
def toInt (l : Int) : Int := (l + 2147483648) % 4294967296 - 2147483648

/-- The function `atoi` of the C library, `(int) strtol(nptr, NULL, 10)`. -/
def atoi (a : List Char) : Int := toInt (strtol a)

/-- The conversion of an `int` to `UINT32`. -/
def toUINT32 (i : Int) : Nat := (i % 4294967296).toNat

/-- Specification side: a decimal numeral, a non-empty string of digits. -/
def spec_isNumeral (a : List Char) : Bool := !a.isEmpty && a.all Char.isDigit

/-- Specification side: the number a decimal numeral denotes. -/
def spec_numeral (a : List Char) : Nat := a.foldl (fun n c => 10 * n + (c.toNat - 48)) 0

/-- `INT_MAX`. -/
def INT_MAX : Nat := 2147483647

/-- `Tspi_PcrComposite_SetPcrValue` on the contents of the composite: the index is
bound to the value, replacing an earlier binding of the same index. -/
def setPcr (m : List (Nat × List Byte)) (idx : Nat) (val : List Byte) :
    List (Nat × List Byte) :=
  m.filter (fun p => p.1 ≠ idx) ++ [(idx, val)]

/-- The option callback `parse(aOpt, aArg)`; returns the new state and `rc`.
`strncpy(dst, aArg, PATH_MAX)` copies at most `PATH_MAX` chars and adds a NUL only
if the argument is shorter than that. -/
def parse (env : Env) (aOpt : Char) (aArg : Option (List Char)) (s : St) : St × Int :=
  if aOpt = 'i' then
    match aArg with
    | some a => ({ s with in_filename := a.take PATH_MAX }, 0)
    | none => (s, -1)
  else if aOpt = 'o' then
    match aArg with
    | some a => ({ s with out_filename := a.take PATH_MAX }, 0)
    | none => (s, -1)
  else if aOpt = 'p' then
    match aArg with
    | none => (s, -1)
    | some a =>
      -- if (hPcrs == NULL_HPCRS) create the composite object
      let c : St × Bool :=
        if s.hPcrs = NULL_HPCRS then
          match env.createPcrs with
          | some h =>
              ({ s with hPcrs := h }.log
                (.Tspi_Context_CreateObject s.hContext .TSS_OBJECT_TYPE_PCRS) true, true)
          | none =>
              (s.log (.Tspi_Context_CreateObject s.hContext .TSS_OBJECT_TYPE_PCRS) false,
               false)
        else (s, true)
      if c.2 = false then (c.1, -1)
      else
        let s1 := c.1
        let pcr_idx := toUINT32 (atoi a)
        match env.pcrRead pcr_idx with
        | none => (s1.log (.Tspi_TPM_PcrRead s1.hTpm pcr_idx) false, -1)
        | some val =>
          let s2 := s1.log (.Tspi_TPM_PcrRead s1.hTpm pcr_idx) true
          let set := Call.Tspi_PcrComposite_SetPcrValue s2.hPcrs pcr_idx val.length val
          if env.setPcrValue pcr_idx then
            ({ s2 with pcrs := setPcr s2.pcrs pcr_idx val }.log set true, 0)
          else (s2.log set false, -1)
  else (s, -1)

/-- Modelled from the spec: `genericOptHandler` of `lib/tpm_utils.c` is not among
the sources. It hands each option of the command line, in order, to the
callback and fails as soon as the callback does ("repeatable platform-register
option", "non-zero on any failure"). -/
def genericOptHandler (env : Env) : List (Char × Option (List Char)) → St → St × Int
  | [], s => (s, 0)
  | (o, a) :: rest, s =>
      let r := parse env o a s
      if r.2 ≠ 0 then r else genericOptHandler env rest r.1

/-! ## The output chain -/

/-- The effect of handing `data` to the BIO `bdata` points at: the file sink
appends the bytes; the base64 filter encodes them (`EVP_EncodeUpdate`) and passes
the text on to the file sink. A failed operation transfers nothing. -/
def bioSend (data : List Byte) (ok : Bool) (s : St) : St :=
  if ok then
    match s.bdata with
    | .file => { s with out := s.out ++ data }
    | .b64chain =>
        let r := EVP_EncodeUpdate s.enc_data data
        { s with out := s.out ++ r.1, enc_data := r.2 }
    | .null => s
  else s

/-- `BIO_puts(bdata, marker)`; the result is not looked at by `main`. -/
def BIO_puts (K : SealConsts) (env : Env) (m : Marker) (s : St) : St :=
  (bioSend (K.text m) (env.puts m) s).log (.BIO_puts m) (env.puts m)

/-- `BIO_write(bdata, data, len)`; the result is not looked at by `main`. -/
def BIO_write (data : List Byte) (ok : Bool) (s : St) : St :=
  (bioSend data ok s).log (.BIO_write data) ok

/-- `BIO_flush(bdata)`: the base64 filter encodes its pending group
(`EVP_EncodeFinal`) and passes it on. Returns the state and whether the result was 1. -/
def BIO_flush (ok : Bool) (s : St) : St × Bool :=
  if ok then
    match s.bdata with
    | .b64chain =>
        ({ s with out := s.out ++ EVP_EncodeFinal s.enc_data, enc_data := [] }.log
          .BIO_flush true, true)
    | _ => (s.log .BIO_flush true, true)
  else (s.log .BIO_flush false, false)

/-- `bdata = BIO_push(b64, bdata)`. -/
def BIO_push (s : St) : St := { s with bdata := .b64chain }.log .BIO_push true

/-- `bdata = BIO_pop(b64)`. -/
def BIO_pop (s : St) : St := { s with bdata := .file }.log .BIO_pop true

/-! ## `main` -/

/-- Where control goes after a statement: on to the next one, or to one of the
two labels. -/
inductive Ctl where
  | next | out_close | out
  deriving DecidableEq

/-- A statement of `main`. -/
abbrev Step := St → St × Ctl

/-- A call whose failure is checked (`if (f(..) != TSS_SUCCESS) goto label`), storing
a result on success. -/
def callVal {α : Type} (c : St → Call) (res : Option α) (store : α → St → St)
    (label : Ctl) : Step := fun s =>
  match res with
  | some v => (store v (s.log (c s) true), .next)
  | none => (s.log (c s) false, label)

/-- A call whose failure is checked and that stores nothing. -/
def callChk (c : St → Call) (res : Bool) (label : Ctl) : Step := fun s =>
  if res then (s.log (c s) true, .next) else (s.log (c s) false, label)

/-- A statement that cannot branch to a label. -/
def act (f : St → St) : Step := fun s => (f s, .next)

/-- `if (BIO_flush(bdata) != 1) goto out_close`. -/
def flushChk (ok : Bool) : Step := fun s =>
  let r := BIO_flush ok s
  if r.2 then (r.1, .next) else (r.1, .out_close)

/-- Run statements in sequence up to the first branch to a label. -/
def runSteps : List Step → St → St × Ctl
  | [], s => (s, .next)
  | f :: fs, s =>
      match f s with
      | (s1, .next) => runSteps fs s1
      | r => r

/-- The string read at `out_filename`: the chars of the array up to its NUL; if the
array holds no NUL the string runs on into the memory behind it. -/
def outName (env : Env) (s : St) : List Char :=
  if s.out_filename.length < PATH_MAX then s.out_filename else s.out_filename ++ env.beyond

/-- The string read at `in_filename`: the chars of the array up to its NUL; if the
array holds no NUL the string runs on into `out_filename`, which follows it in
memory. -/
def inName (env : Env) (s : St) : List Char :=
  if s.in_filename.length < PATH_MAX then s.in_filename else s.in_filename ++ outName env s

/-- The size of the input buffer, `sizeof(line)` (line 108): sixteen cipher blocks. -/
def LINE_SIZE : Nat := BLOCK_SIZE * 16

/-- The size of the output buffer, `sizeof(encData)` (line 110): `sizeof(line)` plus
one block. -/
def ENCDATA_SIZE : Nat := LINE_SIZE + BLOCK_SIZE

/-- The value of `lineLen` for a read. -/
def ReadResult.lineLen : ReadResult → Int
  | .data bytes => bytes.length
  | .eof => 0
  | .error => -1

/-- The bytes a read leaves in `line`. -/
def ReadResult.bytes : ReadResult → List Byte
  | .data bytes => bytes
  | _ => []

/-- The loop `while ((lineLen = BIO_read(bin, line, sizeof(line))) > 0)` with its body
`EVP_EncryptUpdate(&ctx, encData, &encDataLen, line, lineLen);
 BIO_write(bdata, encData, encDataLen)`; `i` counts the iterations. -/
def encryptLoop (E : BlockFn) (env : Env) : Nat → List ReadResult → St → St
  | _, [], s => { s with lineLen := 0 }.log (.BIO_read 0) true
  | i, r :: rs, s =>
      let s1 := { s with lineLen := r.lineLen }.log (.BIO_read r.lineLen) (0 ≤ r.lineLen)
      if s1.lineLen > 0 then
        let s2 := { s1 with line := r.bytes }
        let u := EVP_EncryptUpdate E s2.ctx s2.line
        let s3 := { s2 with encData := u.1, encDataLen := u.2.1, ctx := u.2.2 }.log
          (.EVP_EncryptUpdate s2.line.length u.1 u.2.1) true
        let s4 := BIO_write (s3.encData.take s3.encDataLen) (env.write_data i) s3
        encryptLoop E env (i + 1) rs s4
      else s1

/-- The statements of `main` from `contextCreate` to the opening of the output file
(lines 126-256), in source order. -/
def setupSteps (K : SealConsts) (env : Env) : List Step :=
  [ -- lines 126-133
    callVal (fun _ => .contextCreate) env.contextCreate
      (fun h s => { s with hContext := h }) .out,
    callChk (fun s => .contextConnect s.hContext) env.contextConnect .out_close,
    callVal (fun s => .contextGetTpm s.hContext) env.contextGetTpm
      (fun h s => { s with hTpm := h }) .out_close,
    -- lines 135-140
    (fun s =>
      let r := genericOptHandler env env.opts s
      if r.2 ≠ 0 then (r.1.log .genericOptHandler false, .out_close)
      else (r.1.log .genericOptHandler true, .next)),
    -- lines 143-155
    callVal (fun _ => .BIO_new .bin) (if env.BIO_new_bin then some () else none)
      (fun _ s => { s with bin := true }) .out_close,
    (fun s =>
      if s.in_filename.length = 0 then (s, .next)
      else callChk (fun s => .BIO_read_filename (inName env s)) env.BIO_read_filename
        .out_close s),
    -- lines 157-161
    callVal (fun s => .tpmGetRandom s.hTpm KEY_LENGTH) env.tpmGetRandom
      (fun k s => { s with randKey := some k }) .out_close,
    -- lines 163-173
    callVal (fun s => .keyLoadKeyByUUID s.hContext) env.keyLoadKeyByUUID
      (fun h s => { s with hSrk := h }) .out_close,
    callVal (fun s => .policyGet s.hSrk) env.policyGet
      (fun h s => { s with hSrkPolicy := h }) .out_close,
    callChk (fun s => .policySetSecret s.hSrkPolicy []) env.policySetSecret_srk .out_close,
    -- lines 175-192
    callVal (fun s => .contextCreateObject s.hContext .TSS_OBJECT_TYPE_RSAKEY keyFlags)
      env.createKey (fun h s => { s with hKey := h }) .out_close,
    callVal
      (fun s => .contextCreateObject s.hContext .TSS_OBJECT_TYPE_POLICY [.TSS_POLICY_USAGE])
      env.createKeyPolicy (fun h s => { s with hPolicy := h }) .out_close,
    callChk (fun s => .policySetSecret s.hPolicy K.TPMSEAL_SECRET) env.policySetSecret_key
      .out_close,
    callChk (fun s => .policyAssign s.hPolicy s.hKey) env.policyAssign_key .out_close,
    -- lines 194-200
    callChk (fun s => .keyCreateKey s.hKey s.hSrk NULL_HPCRS) env.keyCreateKey .out_close,
    callChk (fun s => .keyLoadKey s.hKey s.hSrk) env.keyLoadKey .out_close,
    -- lines 202-219
    callVal
      (fun s => .contextCreateObject s.hContext .TSS_OBJECT_TYPE_ENCDATA [.TSS_ENCDATA_SEAL])
      env.createEncdata (fun h s => { s with hEncdata := h }) .out_close,
    callVal
      (fun s => .contextCreateObject s.hContext .TSS_OBJECT_TYPE_POLICY [.TSS_POLICY_USAGE])
      env.createEncPolicy (fun h s => { s with hPolicy := h }) .out_close,
    callChk (fun s => .policySetSecret s.hPolicy K.TPMSEAL_SECRET) env.policySetSecret_enc
      .out_close,
    callChk (fun s => .policyAssign s.hPolicy s.hEncdata) env.policyAssign_enc .out_close,
    -- lines 221-235
    callChk (fun s => .dataSeal s.hEncdata s.hKey KEY_LENGTH s.randKey s.hPcrs) env.dataSeal
      .out_close,
    callVal (fun s => .getAttribData s.hEncdata .ENCDATA_BLOB) env.getAttribData_enc
      (fun b s => { s with encKey := b }) .out_close,
    callVal (fun s => .getAttribData s.hKey .KEY_BLOB) env.getAttribData_key
      (fun b s => { s with sealKey := b }) .out_close,
    -- lines 237-256
    callVal (fun _ => .BIO_new .b64) (if env.BIO_new_b64 then some () else none)
      (fun _ s => { s with b64 := true }) .out_close,
    callVal (fun _ => .BIO_new .bdata) (if env.BIO_new_bdata then some () else none)
      (fun _ s => { s with bdata := .file }) .out_close,
    (fun s =>
      if s.out_filename.length = 0 then (s, .next)
      else callChk (fun s => .BIO_write_filename (outName env s)) env.BIO_write_filename
        .out_close s) ]

/-- The statements of `main` that write the envelope up to the end of the data
section (lines 258-302), in source order. -/
def outputSteps (K : SealConsts) (E : BlockFn) (env : Env) : List Step :=
  [ -- lines 258-269
    act (BIO_puts K env .HDR),
    act (BIO_puts K env .TSS),
    act BIO_push,
    act (fun s => BIO_write s.sealKey env.write_sealKey s),
    flushChk env.flush_sealKey,
    act BIO_pop,
    -- lines 271-281
    act (BIO_puts K env .EVP),
    act (BIO_puts K env .KEYTYPE_SYM),
    act (BIO_puts K env .CIPHER_AES256CBC),
    act BIO_push,
    act (fun s => BIO_write s.encKey env.write_encKey s),
    flushChk env.flush_encKey,
    act BIO_pop,
    -- lines 283-288
    act (BIO_puts K env .ENC),
    act BIO_push,
    act (fun s =>
      { s with ctx := EVP_EncryptInit (s.randKey.getD []) K.TPMSEAL_IV }.log
        (.EVP_EncryptInit s.randKey K.TPMSEAL_IV) true),
    -- lines 290-294
    act (encryptLoop E env 0 env.reads),
    -- lines 296-302
    act (fun s =>
      let f := EVP_EncryptFinal E s.ctx
      { s with encData := f.1, encDataLen := f.2 }.log (.EVP_EncryptFinal f.1 f.2) true),
    act (fun s => BIO_write (s.encData.take s.encDataLen) env.write_final s),
    flushChk env.flush_data,
    act BIO_pop ]

/-- The last statements of `main` before the labels (lines 304-307): the footer
marker and `iRc = 0`. -/
def finishSteps (K : SealConsts) (env : Env) : List Step :=
  [ act (BIO_puts K env .FTR),
    act (fun s => { s with iRc := 0 }) ]

/-- The labels `out_close:` and `out:` (lines 309-319): close the context unless
control came to `out` directly, then `BIO_free` on each of the three variables that
is not NULL. `BIO_free(bdata)` frees the BIO that `bdata` points at: the output file
BIO, or the base64 filter when `bdata` still holds the result of `BIO_push` (then
`BIO_free(b64)` frees the filter a second time and the file BIO is not freed). -/
def cleanup (r : St × Ctl) : St :=
  let s0 := if r.2 = .out then r.1 else r.1.log (.contextClose r.1.hContext) true
  let s1 := if s0.bin then s0.log (.BIO_free .bin) true else s0
  let s2 :=
    match s1.bdata with
    | .null => s1
    | .file => s1.log (.BIO_free .bdata) true
    | .b64chain => s1.log (.BIO_free .b64) true
  if s2.b64 then s2.log (.BIO_free .b64) true else s2

/-- The statements of `main` from `contextCreate` to `iRc = 0`. -/
def mainSteps (K : SealConsts) (E : BlockFn) (env : Env) : List Step :=
  setupSteps K env ++ (outputSteps K E env ++ finishSteps K env)

/-- The function `main`: the state after the clean-up. `iRc` is the value `main`
returns, unless the clean-up has freed a BIO twice (see `returned`). -/
def main (K : SealConsts) (E : BlockFn) (env : Env) : St :=
  cleanup (runSteps (mainSteps K E env) {})

/-! ## Notions used to state the properties -/

/-- The bytes read by the loop: those of the reads up to the first one that does
not return a positive count. -/
def payload : List ReadResult → List Byte
  | [] => []
  | r :: rs => if r.lineLen > 0 then r.bytes ++ payload rs else []

/-- The chunks read by the loop, one per iteration. -/
def chunks : List ReadResult → List (List Byte)
  | [] => []
  | r :: rs => if r.lineLen > 0 then r.bytes :: chunks rs else []

/-- The ciphertext pieces of a run: what each `EVP_EncryptUpdate` and the
`EVP_EncryptFinal` left in `encData[0 .. encDataLen)`. -/
def cipherPieces (tr : List Event) : List (List Byte) :=
  tr.filterMap (fun e =>
    match e.call with
    | .EVP_EncryptUpdate _ out outl => some (out.take outl)
    | .EVP_EncryptFinal out outl => some (out.take outl)
    | _ => none)

/-- The byte counts `encDataLen` reported by the cipher calls of a run. -/
def cipherLens (tr : List Event) : List Nat :=
  tr.filterMap (fun e =>
    match e.call with
    | .EVP_EncryptUpdate _ _ outl => some outl
    | .EVP_EncryptFinal _ outl => some outl
    | _ => none)

/-- The data handed to `BIO_write` from the start of the data section on, that is
after `EVP_EncryptInit`. -/
def dataWrites (tr : List Event) : List (List Byte) :=
  (tr.dropWhile (fun e =>
    match e.call with
    | .EVP_EncryptInit _ _ => false
    | _ => true)).filterMap (fun e =>
      match e.call with
      | .BIO_write data => some data
      | _ => none)

/-- The calls whose result `main` (or `parse`) tests. -/
def Call.checked : Call → Bool
  | .BIO_puts _ => false
  | .BIO_push => false
  | .BIO_pop => false
  | .BIO_write _ => false
  | .EVP_EncryptInit _ _ => false
  | .BIO_read _ => false
  | .EVP_EncryptUpdate _ _ _ => false
  | .EVP_EncryptFinal _ _ => false
  | .contextClose _ => false
  | .BIO_free _ => false
  | _ => true

/-- The anchor operations from the random-number request to the blob extraction. -/
def Call.isAnchorOp : Call → Bool
  | .tpmGetRandom _ _ => true
  | .keyLoadKeyByUUID _ => true
  | .policyGet _ => true
  | .policySetSecret _ _ => true
  | .contextCreateObject _ _ _ => true
  | .policyAssign _ _ => true
  | .keyCreateKey _ _ _ => true
  | .keyLoadKey _ _ => true
  | .dataSeal _ _ _ _ _ => true
  | .getAttribData _ _ => true
  | _ => false

/-- The calls made by `parse`. -/
def Call.isParseCall : Call → Bool
  | .Tspi_Context_CreateObject _ _ => true
  | .Tspi_TPM_PcrRead _ _ => true
  | .Tspi_PcrComposite_SetPcrValue _ _ _ _ => true
  | _ => false

/-- The clean-up calls made at the labels. -/
def Call.isCleanup : Call → Bool
  | .contextClose _ => true
  | .BIO_free _ => true
  | _ => false

/-- The trace `tr2` is `tr1` followed by events that all satisfy `P`. -/
def Extends (P : Event → Prop) (tr1 tr2 : List Event) : Prop :=
  ∃ evs, tr2 = tr1 ++ evs ∧ ∀ e ∈ evs, P e

/-- The state without the fields that option handling may change. -/
def St.sansOpts (s : St) : St :=
  { s with in_filename := [], out_filename := [], hPcrs := 0, pcrs := [], trace := [] }

/-- The state of the base64 filter after it has been given the bytes `t` in all:
the text emitted and the bytes pending. -/
def b64State (t : List Byte) : List Byte × List Byte :=
  (encodeLines (t.length / B64_LINE) t, t.drop (B64_LINE * (t.length / B64_LINE)))

/-- The cipher context after the plaintext `t` has been fed to a context initialised
with key `key` and chaining value `iv0`. -/
def CtxAfter (E : BlockFn) (key : List Byte) (iv0 : Block) (t : List Byte)
    (ctx : EVP_CIPHER_CTX) : Prop :=
  ctx.key = key ∧
  ctx.iv = (cbc_encrypt E key iv0 (t.length / BLOCK_SIZE) t).2 ∧
  ctx.buf = t.drop (BLOCK_SIZE * (t.length / BLOCK_SIZE))

/-! ## Notions used to state and prove the properties of `main` -/

/-- An event of a checked call that succeeded. -/
def okChecked (e : Event) : Bool := e.call.checked && e.ok

/-- An event of a checked call. -/
def isChecked (e : Event) : Bool := e.call.checked

/-- The request for the random key. -/
def isRand (e : Event) : Bool :=
  match e.call with
  | .tpmGetRandom _ _ => true
  | _ => false

/-- An event that is not a successful request for the random key, unless the anchor
does return a key. -/
def randOk (env : Env) (e : Event) : Bool :=
  !(isRand e && e.ok) || env.tpmGetRandom.isSome

/-- The variable `randKey` holds what the anchor returned, once it has been asked,
and the request is logged as successful only if the anchor returned a key. -/
def RandInv (env : Env) (s : St) : Prop :=
  (s.randKey = if s.trace.any isRand then env.tpmGetRandom else none) ∧
  s.trace.all (randOk env) = true

/-- The trace ends with a checked call that failed. -/
def lastFailed (tr : List Event) : Prop :=
  ∃ pre c, tr = pre ++ [⟨c, false⟩] ∧ c.checked = true

/-- What holds of the state while the set-up statements run (no failure so far). -/
def SetupI (env : Env) (s : St) : Prop :=
  s.out = [] ∧ s.iRc = -1 ∧ s.trace.all okChecked = true ∧ RandInv env s

/-- What holds of the state when a set-up statement has branched to a label. -/
def SetupA (env : Env) (s : St) (c : Ctl) : Prop :=
  s.out = [] ∧ s.iRc = -1 ∧ s.trace.all isChecked = true ∧ lastFailed s.trace ∧
    RandInv env s ∧ c = .out_close

/-- A statement that keeps `SetupI`, or ends in `SetupA`. -/
def SetupStep (env : Env) (f : Step) : Prop :=
  ∀ s, SetupI env s →
    ((f s).2 = .next → SetupI env (f s).1) ∧ ((f s).2 ≠ .next → SetupA env (f s).1 (f s).2)

/-- A store into variables other than `out`, `iRc`, `randKey` and the trace. -/
def Inert (g : St → St) : Prop :=
  ∀ s, (g s).out = s.out ∧ (g s).iRc = s.iRc ∧ (g s).randKey = s.randKey ∧ (g s).trace = s.trace

/-- The footer marker write. -/
def isFtr (e : Event) : Bool :=
  match e.call with
  | .BIO_puts .FTR => true
  | _ => false

/-- An event that is not a failed anchor operation. -/
def anchorOk (e : Event) : Bool := !e.call.isAnchorOp || e.ok

/-- An event that may occur before the footer is written without control having
left for a label: no failed checked call, no footer write, no clean-up call. -/
def bodyOk (e : Event) : Bool :=
  (!e.call.checked || e.ok) && !isFtr e && !e.call.isCleanup

/-- An event of an unchecked call of the output section before the footer. -/
def bodyEv (e : Event) : Bool :=
  !e.call.checked && !isFtr e && !e.call.isCleanup && !isRand e

/-- Neither the footer write nor a clean-up call. -/
def preFooter (e : Event) : Bool := !isFtr e && !e.call.isCleanup

/-- What holds of the state while the statements of the output section run. -/
def BodyI (env : Env) (s : St) : Prop :=
  s.iRc = -1 ∧ s.trace.all bodyOk = true ∧ RandInv env s

/-- What holds of the state when a statement of the output section has branched to
a label. -/
def BodyA (env : Env) (s : St) (c : Ctl) : Prop :=
  s.iRc = -1 ∧ lastFailed s.trace ∧ s.trace.all preFooter = true ∧
    s.trace.all anchorOk = true ∧ RandInv env s ∧ c = .out_close

/-- A statement that keeps `BodyI`, or ends in `BodyA`. -/
def BodyStep (env : Env) (f : Step) : Prop :=
  ∀ s, BodyI env s →
    ((f s).2 = .next → BodyI env (f s).1) ∧ ((f s).2 ≠ .next → BodyA env (f s).1 (f s).2)

/-- A state change of the output section that cannot fail the run. -/
def BodyG (g : St → St) : Prop :=
  ∀ s, (g s).iRc = s.iRc ∧ (g s).randKey = s.randKey ∧
    Extends (fun e => bodyEv e = true) s.trace (g s).trace

/-- The BIO that `BIO_free(bdata)` frees, if `bdata` is not NULL. -/
def bdataFrees (b : BioPtr) : List Event :=
  match b with
  | .null => []
  | .file => [⟨.BIO_free .bdata, true⟩]
  | .b64chain => [⟨.BIO_free .b64, true⟩]

/-- A statement after which `bdata` does not hold the base64 filter unless it did
before. -/
def KeepFile (f : Step) : Prop := ∀ s, s.bdata ≠ .b64chain → (f s).1.bdata ≠ .b64chain

/-- The events logged at the labels: `contextClose` unless control came to `out`,
then one `BIO_free` per variable that is not NULL. -/
def cleanupEvents (r : St × Ctl) : List Event :=
  (if r.2 = .out then [] else [⟨.contextClose r.1.hContext, true⟩]) ++
  (if r.1.bin then [⟨.BIO_free .bin, true⟩] else []) ++
  bdataFrees r.1.bdata ++
  (if r.1.b64 then [⟨.BIO_free .b64, true⟩] else [])

/-- The BIOs freed in a trace, in order. -/
def freesOf (tr : List Event) : List BioVar :=
  tr.filterMap (fun e =>
    match e.call with
    | .BIO_free v => some v
    | _ => none)

/-- A BIO is freed twice in the trace: the behaviour of the second `BIO_free` is
undefined, and the run does not go on to `return iRc`. -/
def doubleFree (tr : List Event) : Bool := !(freesOf tr).Nodup

/-- The value `main` returns, if the run gets to `return iRc`. -/
def returned (s : St) : Option Int := if doubleFree s.trace then none else some s.iRc

/-- Sample constants for concrete runs (one byte per marker). -/
def sampleConsts : SealConsts :=
  { TPMSEAL_HDR_STRING := [72], TPMSEAL_FTR_STRING := [70], TPMSEAL_TSS_STRING := [84],
    TPMSEAL_EVP_STRING := [69], TPMSEAL_ENC_STRING := [68], TPMSEAL_KEYTYPE_SYM := [83],
    TPMSEAL_CIPHER_AES256CBC := [65], TPMSEAL_SECRET := [112],
    TPMSEAL_IV := List.replicate 16 7 }

/-- A sample block function for concrete runs: the block reversed. -/
def sampleCipher : BlockFn := fun _ b => ⟨b.1.reverse, by rw [List.length_reverse]; exact b.2⟩

/-- A sample run in which every collaborator succeeds: two register options, and
the ten bytes of "helloworld" delivered by two reads. -/
def sampleEnv : Env :=
  { opts := [('p', some ['0']), ('p', some ['4'])],
    contextCreate := some 1, contextConnect := true, contextGetTpm := some 2,
    createPcrs := some 3, pcrRead := fun i => if i < 24 then some [i] else none,
    setPcrValue := fun _ => true,
    BIO_new_bin := true, BIO_read_filename := true,
    tpmGetRandom := some (List.replicate 32 9),
    keyLoadKeyByUUID := some 4, policyGet := some 5, policySetSecret_srk := true,
    createKey := some 6, createKeyPolicy := some 7, policySetSecret_key := true,
    policyAssign_key := true, keyCreateKey := true, keyLoadKey := true,
    createEncdata := some 8, createEncPolicy := some 9, policySetSecret_enc := true,
    policyAssign_enc := true, dataSeal := true,
    getAttribData_enc := some [1, 2, 3], getAttribData_key := some [4, 5],
    BIO_new_b64 := true, BIO_new_bdata := true, BIO_write_filename := true,
    puts := fun _ => true, write_sealKey := true, flush_sealKey := true,
    write_encKey := true, flush_encKey := true,
    reads := [.data [104, 101, 108, 108, 111], .data [119, 111, 114, 108, 100]],
    write_data := fun _ => true, write_final := true, flush_data := true,
    beyond := [] }

/-- The state after the footer has been written and `iRc` set to 0. -/
def finish (K : SealConsts) (env : Env) (s : St) : St :=
  { BIO_puts K env .FTR s with iRc := 0 }

/-- The arguments of the platform-register options of a command line. -/
def pcrArgs : List (Char × Option (List Char)) → List (List Char)
  | [] => []
  | (o, a) :: rest =>
      if o = 'p' then
        match a with
        | some arg => arg :: pcrArgs rest
        | none => pcrArgs rest
      else pcrArgs rest

/-- The creations of a PCR composite object recorded in a trace. -/
def createCalls (tr : List Event) : List Event :=
  tr.filter (fun e =>
    match e.call with
    | .Tspi_Context_CreateObject _ .TSS_OBJECT_TYPE_PCRS => true
    | _ => false)

/-- The `Tspi_PcrComposite_SetPcrValue` calls recorded in a trace: composite handle,
register index and value. -/
def setCalls (tr : List Event) : List (Handle × Nat × List Byte) :=
  tr.filterMap (fun e =>
    match e.call with
    | .Tspi_PcrComposite_SetPcrValue h i _ v => some (h, i, v)
    | _ => none)

/-- The bindings handed to the seal primitive in a trace. -/
def sealBindings (tr : List Event) : List Handle :=
  tr.filterMap (fun e =>
    match e.call with
    | .dataSeal _ _ _ _ hp => some hp
    | _ => none)

/-- The bindings handed to the creation of the wrapping key in a trace. -/
def keyCreateBindings (tr : List Event) : List Handle :=
  tr.filterMap (fun e =>
    match e.call with
    | .keyCreateKey _ _ hp => some hp
    | _ => none)

/-- What one register option does to the measurement set: the register `atoi(arg)`
is bound to its current value. -/
def bindArg (env : Env) (m : List (Nat × List Byte)) (arg : List Char) :
    List (Nat × List Byte) :=
  setPcr m (toUINT32 (atoi arg)) ((env.pcrRead (toUINT32 (atoi arg))).getD [])

/-- What the args of the register options contribute to the `SetPcrValue` calls. -/
def setCallsOf (env : Env) (h : Handle) (args : List (List Char)) :
    List (Handle × Nat × List Byte) :=
  args.map (fun arg =>
    (h, toUINT32 (atoi arg), (env.pcrRead (toUINT32 (atoi arg))).getD []))

/-- An event that may follow the option handling: no call of `parse`, a seal with
the binding `h`, a key creation with the null binding. -/
def postOpt (h : Handle) (e : Event) : Bool :=
  match e.call with
  | .Tspi_Context_CreateObject _ _ => false
  | .Tspi_TPM_PcrRead _ _ => false
  | .Tspi_PcrComposite_SetPcrValue _ _ _ _ => false
  | .dataSeal _ _ _ _ hp => hp == h
  | .keyCreateKey _ _ hp => hp == NULL_HPCRS
  | _ => true

/-- A statement that follows the option handling: it leaves `hPcrs` and the
measurement set alone and adds only events allowed by `postOpt`. -/
def PostStep (f : Step) : Prop :=
  ∀ s, (f s).1.hPcrs = s.hPcrs ∧ (f s).1.pcrs = s.pcrs ∧
    Extends (fun e => postOpt s.hPcrs e = true) s.trace (f s).1.trace

/-- The state without the variables that the output section may change. -/
def St.sansOut (s : St) : St :=
  { s with line := [], lineLen := 0, encData := [], encDataLen := 0,
           ctx := { key := [], iv := toBlock [], buf := [] }, enc_data := [], out := [],
           trace := [], bdata := .null, iRc := 0 }

/-- A state change that touches only the variables of the output section. -/
def OutFrame (g : St → St) : Prop := ∀ s, (g s).sansOut = s.sansOut

/-- What a successful set-up leaves behind. -/
structure SetupPost (env : Env) (s : St) : Prop where
  out : s.out = []
  enc_data : s.enc_data = []
  bdata : s.bdata = .file
  key : ∃ k, env.tpmGetRandom = some k ∧ s.randKey = some k
  sealKey : ∃ hKey b, env.createKey = some hKey ∧ env.getAttribData_key = some b ∧
    s.sealKey = b ∧ (⟨.getAttribData hKey .KEY_BLOB, true⟩ : Event) ∈ s.trace
  encKey : ∃ hEncdata b, env.createEncdata = some hEncdata ∧ env.getAttribData_enc = some b ∧
    s.encKey = b ∧ (⟨.getAttribData hEncdata .ENCDATA_BLOB, true⟩ : Event) ∈ s.trace

/-- The statements of the output section before the cipher is initialised. -/
def outA (K : SealConsts) (E : BlockFn) (env : Env) : List Step := (outputSteps K E env).take 15

/-- The statements of the output section from the initialisation of the cipher on. -/
def outB (K : SealConsts) (E : BlockFn) (env : Env) : List Step := (outputSteps K E env).drop 15

/-- The ciphertext pieces the loop produces from a cipher context and the reads. -/
def loopPieces (E : BlockFn) : EVP_CIPHER_CTX → List ReadResult → List (List Byte)
  | _, [] => []
  | ctx, r :: rs =>
      if r.lineLen > 0 then
        ((EVP_EncryptUpdate E ctx r.bytes).1.take (EVP_EncryptUpdate E ctx r.bytes).2.1) ::
          loopPieces E (EVP_EncryptUpdate E ctx r.bytes).2.2 rs
      else []

/-- The byte counts the loop reports. -/
def loopLens (E : BlockFn) : EVP_CIPHER_CTX → List ReadResult → List Nat
  | _, [] => []
  | ctx, r :: rs =>
      if r.lineLen > 0 then
        (EVP_EncryptUpdate E ctx r.bytes).2.1 ::
          loopLens E (EVP_EncryptUpdate E ctx r.bytes).2.2 rs
      else []

/-- The cipher context the loop ends with. -/
def loopCtx (E : BlockFn) : EVP_CIPHER_CTX → List ReadResult → EVP_CIPHER_CTX
  | ctx, [] => ctx
  | ctx, r :: rs =>
      if r.lineLen > 0 then loopCtx E (EVP_EncryptUpdate E ctx r.bytes).2.2 rs else ctx

/-- The data handed to `BIO_write` in a trace. -/
def writesOf (tr : List Event) : List (List Byte) :=
  tr.filterMap (fun e =>
    match e.call with
    | .BIO_write data => some data
    | _ => none)

/-- The initialisation of the cipher. -/
def isInit (e : Event) : Bool :=
  match e.call with
  | .EVP_EncryptInit _ _ => true
  | _ => false

/-- A statement that only adds events satisfying `P` to the trace and leaves `iRc`
alone. -/
def ExtStep (P : Event → Prop) (f : Step) : Prop :=
  ∀ s, Extends P s.trace (f s).1.trace ∧ (f s).1.iRc = s.iRc

/-- An event of one of the BIO calls that write the envelope. -/
def bioEv (e : Event) : Bool :=
  match e.call with
  | .BIO_puts _ => true
  | .BIO_push => true
  | .BIO_pop => true
  | .BIO_write _ => true
  | .BIO_flush => true
  | _ => false

/-- The state after lines 287-297: cipher initialised, loop run, final block
produced and handed to `BIO_write`. -/
def dataRun (K : SealConsts) (E : BlockFn) (env : Env) (s : St) : St :=
  let s1 := { s with ctx := EVP_EncryptInit (s.randKey.getD []) K.TPMSEAL_IV }.log
    (.EVP_EncryptInit s.randKey K.TPMSEAL_IV) true
  let s2 := encryptLoop E env 0 env.reads s1
  let s3 := { s2 with encData := (EVP_EncryptFinal E s2.ctx).1,
                      encDataLen := (EVP_EncryptFinal E s2.ctx).2 }.log
    (.EVP_EncryptFinal (EVP_EncryptFinal E s2.ctx).1 (EVP_EncryptFinal E s2.ctx).2) true
  BIO_write (s3.encData.take s3.encDataLen) env.write_final s3

/-- No cipher call. -/
def noEvp (e : Event) : Bool :=
  match e.call with
  | .EVP_EncryptInit _ _ => false
  | .EVP_EncryptUpdate _ _ _ => false
  | .EVP_EncryptFinal _ _ => false
  | _ => true

/-- The cipher context right after `EVP_EncryptInit` in state `s`. -/
def initCtx (K : SealConsts) (s : St) : EVP_CIPHER_CTX :=
  EVP_EncryptInit (s.randKey.getD []) K.TPMSEAL_IV

/-- The block that `EVP_EncryptFinal` leaves in `encData[0 .. encDataLen)` after the
loop has run from state `s`. -/
def finalPiece (K : SealConsts) (E : BlockFn) (env : Env) (s : St) : List Byte :=
  (EVP_EncryptFinal E (loopCtx E (initCtx K s) env.reads)).1.take
    (EVP_EncryptFinal E (loopCtx E (initCtx K s) env.reads)).2

/-- What a cipher call leaves in `encData` fits: an update emits at most the bytes
read plus fifteen, the final call exactly one block. -/
def encBound (e : Event) : Prop :=
  match e.call with
  | .EVP_EncryptUpdate inl out outl =>
      inl ≤ LINE_SIZE ∧ outl ≤ inl + (BLOCK_SIZE - 1) ∧ out.length = outl ∧
        out.length ≤ ENCDATA_SIZE
  | .EVP_EncryptFinal out outl =>
      outl = BLOCK_SIZE ∧ out.length = outl ∧ out.length ≤ ENCDATA_SIZE
  | _ => True

/-- One iteration of the loop of lines 290-294, for a read that returned a positive
count. -/
def loopBody (E : BlockFn) (env : Env) (i : Nat) (r : ReadResult) (s : St) : St :=
  let s1 := { s with lineLen := r.lineLen }.log (.BIO_read r.lineLen) (0 ≤ r.lineLen)
  let s2 := { s1 with line := r.bytes }
  let u := EVP_EncryptUpdate E s2.ctx s2.line
  let s3 := { s2 with encData := u.1, encDataLen := u.2.1, ctx := u.2.2 }.log
    (.EVP_EncryptUpdate s2.line.length u.1 u.2.1) true
  BIO_write (s3.encData.take s3.encDataLen) (env.write_data i) s3

/-! ## Facts about the libcrypto primitives -/

theorem cbc_encrypt_length (E : BlockFn) (key : List Byte) (n : Nat) :
    ∀ (iv : Block) (inp : List Byte), (cbc_encrypt E key iv n inp).1.length = BLOCK_SIZE * n := by
  induction n with
  | zero => intro iv inp; simp [cbc_encrypt]
  | succ n ih =>
    intro iv inp
    simp only [cbc_encrypt, List.length_append, ih]
    rw [(E key _).2]
    ring

theorem toBlock_take_append (l x : List Byte) (h : BLOCK_SIZE ≤ l.length) :
    toBlock ((l ++ x).take BLOCK_SIZE) = toBlock (l.take BLOCK_SIZE) := by
  rw [List.take_append_of_le_length h]

/-- Only the first `16 * n` bytes of the input matter. -/
theorem cbc_encrypt_append_right (E : BlockFn) (key : List Byte) (n : Nat) :
    ∀ (iv : Block) (l x : List Byte), BLOCK_SIZE * n ≤ l.length →
      cbc_encrypt E key iv n (l ++ x) = cbc_encrypt E key iv n l := by
  induction n with
  | zero => intro iv l x _; simp [cbc_encrypt]
  | succ n ih =>
    intro iv l x h
    have h16 : BLOCK_SIZE ≤ l.length := by
      have : BLOCK_SIZE * (n + 1) = BLOCK_SIZE * n + BLOCK_SIZE := by ring
      omega
    simp only [cbc_encrypt]
    rw [List.take_append_of_le_length h16, List.drop_append_of_le_length h16]
    rw [ih _ _ _ (by simp only [List.length_drop]; have : BLOCK_SIZE * (n + 1) = BLOCK_SIZE * n + BLOCK_SIZE := by ring
                     omega)]

/-- Encrypting `m + n` blocks is encrypting `m` blocks and then `n` more, chained. -/
theorem cbc_encrypt_add (E : BlockFn) (key : List Byte) (m n : Nat) :
    ∀ (iv : Block) (inp : List Byte),
      cbc_encrypt E key iv (m + n) inp =
        ((cbc_encrypt E key iv m inp).1 ++
          (cbc_encrypt E key (cbc_encrypt E key iv m inp).2 n (inp.drop (BLOCK_SIZE * m))).1,
         (cbc_encrypt E key (cbc_encrypt E key iv m inp).2 n (inp.drop (BLOCK_SIZE * m))).2) := by
  induction m with
  | zero => intro iv inp; simp [cbc_encrypt]
  | succ m ih =>
    intro iv inp
    have e : m + 1 + n = (m + n) + 1 := by omega
    rw [e]
    simp only [cbc_encrypt]
    rw [ih]
    simp only [List.append_assoc, List.drop_drop]
    have e2 : BLOCK_SIZE + BLOCK_SIZE * m = BLOCK_SIZE * (m + 1) := by ring
    have e3 : BLOCK_SIZE * m + BLOCK_SIZE = BLOCK_SIZE * (m + 1) := by ring
    simp only [e2, e3]

/-- What `EVP_EncryptUpdate` amounts to: the buffered bytes and the input together
are encrypted up to the last complete block; the rest is buffered. -/
theorem EVP_EncryptUpdate_eq (E : BlockFn) (ctx : EVP_CIPHER_CTX) (inp : List Byte)
    (hb : ctx.buf.length < BLOCK_SIZE) :
    EVP_EncryptUpdate E ctx inp =
      ((cbc_encrypt E ctx.key ctx.iv ((ctx.buf ++ inp).length / BLOCK_SIZE) (ctx.buf ++ inp)).1,
       BLOCK_SIZE * ((ctx.buf ++ inp).length / BLOCK_SIZE),
       { ctx with
         iv := (cbc_encrypt E ctx.key ctx.iv ((ctx.buf ++ inp).length / BLOCK_SIZE)
                 (ctx.buf ++ inp)).2,
         buf := (ctx.buf ++ inp).drop (BLOCK_SIZE * ((ctx.buf ++ inp).length / BLOCK_SIZE)) }) := by
  obtain ⟨key, iv, buf⟩ := ctx
  simp only [BLOCK_SIZE] at hb ⊢
  unfold EVP_EncryptUpdate
  simp only [BLOCK_SIZE]
  by_cases h0 : inp.length = 0
  · have : inp = [] := List.length_eq_zero.mp h0
    subst this
    have hn : buf.length / 16 = 0 := by omega
    simp [hn, cbc_encrypt]
  · rw [if_neg h0]
    by_cases h1 : buf.length = 0 ∧ inp.length % 16 = 0
    · rw [if_pos h1]
      have : buf = [] := List.length_eq_zero.mp h1.1
      subst this
      have e : 16 * (inp.length / 16) = inp.length := by omega
      simp [e]
    · rw [if_neg h1]
      by_cases h2 : buf.length ≠ 0 ∧ 16 - buf.length > inp.length
      · rw [if_pos h2]
        have hn : (buf.length + inp.length) / 16 = 0 := by omega
        simp [hn, cbc_encrypt]
      · rw [if_neg h2]
        by_cases hi : buf.length = 0
        · have : buf = [] := List.length_eq_zero.mp hi
          subst this
          have e : inp.length - inp.length % 16 = 16 * (inp.length / 16) := by omega
          have e2 : 16 * (inp.length / 16) / 16 = inp.length / 16 := by omega
          simp [e, e2]
        · have hj : 16 - buf.length ≤ inp.length := by omega
          simp only [hi, ne_eq, not_false_eq_true, if_true]
          have hlen : (buf ++ inp).length / 16 = 1 + (inp.length - (16 - buf.length)) / 16 := by
            simp only [List.length_append]; omega
          have hsplit : buf ++ inp = (buf ++ inp.take (16 - buf.length)) ++ inp.drop (16 - buf.length) := by
            simp
          have hl16 : (buf ++ inp.take (16 - buf.length)).length = 16 := by
            simp only [List.length_append, List.length_take]; omega
          have hdrop : (buf ++ inp).drop (BLOCK_SIZE * 1) = inp.drop (16 - buf.length) := by
            rw [hsplit]
            simp only [BLOCK_SIZE]
            rw [List.drop_append_of_le_length (by omega)]
            rw [List.drop_of_length_le (by omega)]
            simp
          have hfirst : cbc_encrypt E key iv 1 (buf ++ inp) = cbc_encrypt E key iv 1 (buf ++ inp.take (16 - buf.length)) := by
            conv_lhs => rw [hsplit]
            exact cbc_encrypt_append_right E key 1 iv _ _ (by simp only [BLOCK_SIZE]; omega)
          rw [hlen, cbc_encrypt_add, hdrop, hfirst]
          have e : (inp.drop (16 - buf.length)).length - (inp.drop (16 - buf.length)).length % 16
              = 16 * ((inp.length - (16 - buf.length)) / 16) := by
            simp only [List.length_drop]; omega
          have e2 : 16 * ((inp.length - (16 - buf.length)) / 16) / 16 = (inp.length - (16 - buf.length)) / 16 := by omega
          rw [e, e2]
          refine Prod.ext rfl (Prod.ext ?_ ?_)
          · simp only; omega
          · simp only [EVP_CIPHER_CTX.mk.injEq, true_and]
            rw [← hdrop, List.drop_drop]
            simp only [BLOCK_SIZE]
            congr 1
            omega

theorem CtxAfter_init (E : BlockFn) (key iv : List Byte) :
    CtxAfter E key (toBlock iv) [] (EVP_EncryptInit key iv) := by
  simp [CtxAfter, EVP_EncryptInit, cbc_encrypt]

theorem CtxAfter_buf_lt {E : BlockFn} {key : List Byte} {iv0 : Block} {t : List Byte}
    {ctx : EVP_CIPHER_CTX} (h : CtxAfter E key iv0 t ctx) : ctx.buf.length < BLOCK_SIZE := by
  rw [h.2.2]
  simp only [List.length_drop, BLOCK_SIZE]
  omega

/-- One `EVP_EncryptUpdate` on a context that has seen `t`: the ciphertext so far
grows to that of `t ++ x`, and the context has seen `t ++ x`. -/
theorem EVP_EncryptUpdate_stream (E : BlockFn) (key : List Byte) (iv0 : Block)
    (t x : List Byte) (ctx : EVP_CIPHER_CTX) (h : CtxAfter E key iv0 t ctx) :
    (cbc_encrypt E key iv0 (t.length / BLOCK_SIZE) t).1 ++ (EVP_EncryptUpdate E ctx x).1
      = (cbc_encrypt E key iv0 ((t ++ x).length / BLOCK_SIZE) (t ++ x)).1 ∧
    CtxAfter E key iv0 (t ++ x) (EVP_EncryptUpdate E ctx x).2.2 ∧
    (EVP_EncryptUpdate E ctx x).2.1 = (EVP_EncryptUpdate E ctx x).1.length ∧
    (EVP_EncryptUpdate E ctx x).2.1 =
      BLOCK_SIZE * ((ctx.buf.length + x.length) / BLOCK_SIZE) := by
  have hb := CtxAfter_buf_lt h
  obtain ⟨hk, hiv, hbuf⟩ := h
  rw [EVP_EncryptUpdate_eq E ctx x hb]
  have hm : BLOCK_SIZE * (t.length / BLOCK_SIZE) ≤ t.length := Nat.mul_div_le _ _
  have hdrop : (t ++ x).drop (BLOCK_SIZE * (t.length / BLOCK_SIZE)) = ctx.buf ++ x := by
    rw [hbuf]; exact List.drop_append_of_le_length hm
  have hlen : (t ++ x).length / BLOCK_SIZE
      = t.length / BLOCK_SIZE + (ctx.buf ++ x).length / BLOCK_SIZE := by
    rw [hbuf]
    simp only [List.length_append, List.length_drop, BLOCK_SIZE]
    omega
  have hbig : cbc_encrypt E key iv0 ((t ++ x).length / BLOCK_SIZE) (t ++ x) =
      ((cbc_encrypt E key iv0 (t.length / BLOCK_SIZE) t).1 ++
        (cbc_encrypt E ctx.key ctx.iv ((ctx.buf ++ x).length / BLOCK_SIZE) (ctx.buf ++ x)).1,
       (cbc_encrypt E ctx.key ctx.iv ((ctx.buf ++ x).length / BLOCK_SIZE) (ctx.buf ++ x)).2) := by
    rw [hlen, cbc_encrypt_add, hdrop, cbc_encrypt_append_right _ _ _ _ _ _ hm, hk, hiv]
  refine ⟨?_, ⟨?_, ?_, ?_⟩, ?_, ?_⟩
  · rw [hbig]
  · exact hk
  · rw [hbig]
  · simp only
    rw [hlen, Nat.mul_add, ← List.drop_drop, hdrop]
  · simp only
    rw [cbc_encrypt_length]
  · simp only [List.length_append]

/-- The final block: after `EVP_EncryptFinal` the ciphertext is that of the padded
plaintext. -/
theorem EVP_EncryptFinal_stream (E : BlockFn) (key iv : List Byte)
    (t : List Byte) (ctx : EVP_CIPHER_CTX) (h : CtxAfter E key (toBlock iv) t ctx) :
    (cbc_encrypt E key (toBlock iv) (t.length / BLOCK_SIZE) t).1 ++ (EVP_EncryptFinal E ctx).1
      = spec_cbc_encrypt E key iv t ∧
    (EVP_EncryptFinal E ctx).2 = BLOCK_SIZE ∧
    (EVP_EncryptFinal E ctx).1.length = BLOCK_SIZE := by
  have hb := CtxAfter_buf_lt h
  obtain ⟨hk, hiv, hbuf⟩ := h
  have hm : BLOCK_SIZE * (t.length / BLOCK_SIZE) ≤ t.length := Nat.mul_div_le _ _
  have hbl : ctx.buf.length = t.length % BLOCK_SIZE := by
    rw [hbuf]; simp only [List.length_drop, BLOCK_SIZE]; omega
  refine ⟨?_, rfl, ?_⟩
  · unfold spec_cbc_encrypt spec_pad EVP_EncryptFinal
    simp only
    have hlen : (t ++ List.replicate (BLOCK_SIZE - t.length % BLOCK_SIZE)
        (BLOCK_SIZE - t.length % BLOCK_SIZE)).length / BLOCK_SIZE = t.length / BLOCK_SIZE + 1 := by
      simp only [List.length_append, List.length_replicate, BLOCK_SIZE]
      omega
    rw [hlen, cbc_encrypt_add, List.drop_append_of_le_length hm,
      cbc_encrypt_append_right _ _ _ _ _ _ hm, hk, hiv, hbl, ← hbuf]
  · unfold EVP_EncryptFinal
    simp only
    rw [cbc_encrypt_length, Nat.mul_one]

theorem toBlock_val (b : Block) : toBlock b.1 = b := by
  apply Subtype.ext
  simp only [toBlock]
  rw [List.take_append_of_le_length (by rw [b.2])]
  rw [List.take_of_length_le (by rw [b.2])]

theorem toBlock_of_length {l : List Byte} (h : l.length = BLOCK_SIZE) : (toBlock l).1 = l := by
  simp only [toBlock]
  rw [List.take_append_of_le_length (by rw [h])]
  rw [List.take_of_length_le (by rw [h])]

theorem zipWith_xor_cancel : ∀ (a b : List Byte), a.length = b.length →
    List.zipWith (· ^^^ ·) (List.zipWith (· ^^^ ·) a b) b = a
  | [], [], _ => rfl
  | x :: a, y :: b, h => by
      simp only [List.zipWith_cons_cons, List.cons.injEq]
      exact ⟨Nat.xor_cancel_right y x, zipWith_xor_cancel a b (by simpa using h)⟩
  | [], _ :: _, h => by simp at h
  | _ :: _, [], h => by simp at h

theorem xorBlock_cancel (a b : Block) : xorBlock (xorBlock a b) b = a := by
  apply Subtype.ext
  simp only [xorBlock]
  exact zipWith_xor_cancel a.1 b.1 (by rw [a.2, b.2])

/-- CBC decryption undoes CBC encryption on whole blocks. -/
theorem cbc_decrypt_encrypt (E D : BlockFn) (hD : ∀ k b, D k (E k b) = b) (key : List Byte)
    (n : Nat) : ∀ (iv : Block) (p : List Byte), p.length = BLOCK_SIZE * n →
      cbc_decrypt D key iv n (cbc_encrypt E key iv n p).1 = p := by
  induction n with
  | zero =>
    intro iv p h
    have : p = [] := List.length_eq_zero.mp (by simpa using h)
    simp [cbc_decrypt, cbc_encrypt, this]
  | succ n ih =>
    intro iv p h
    have e : BLOCK_SIZE * (n + 1) = BLOCK_SIZE * n + BLOCK_SIZE := by ring
    have h16 : (p.take BLOCK_SIZE).length = BLOCK_SIZE := by
      simp only [List.length_take]; omega
    simp only [cbc_encrypt, cbc_decrypt]
    have hc : ∀ (c : Block) (r : List Byte), (c.1 ++ r).take BLOCK_SIZE = c.1 := by
      intro c r
      rw [List.take_append_of_le_length (by rw [c.2])]
      exact List.take_of_length_le (by rw [c.2])
    have hd : ∀ (c : Block) (r : List Byte), (c.1 ++ r).drop BLOCK_SIZE = r := by
      intro c r
      rw [List.drop_append_of_le_length (by rw [c.2])]
      rw [List.drop_of_length_le (by rw [c.2])]
      rfl
    rw [hc, hd, toBlock_val, hD, xorBlock_cancel, toBlock_of_length h16]
    rw [ih _ _ (by simp only [List.length_drop]; omega)]
    exact List.take_append_drop _ _

theorem spec_pad_length (p : List Byte) :
    (spec_pad p).length = p.length + BLOCK_SIZE - p.length % BLOCK_SIZE := by
  simp only [spec_pad, List.length_append, List.length_replicate, BLOCK_SIZE]
  omega

theorem spec_pad_length_div (p : List Byte) :
    BLOCK_SIZE * ((spec_pad p).length / BLOCK_SIZE) = (spec_pad p).length := by
  rw [spec_pad_length]
  simp only [BLOCK_SIZE]
  omega

theorem spec_unpad_pad (p : List Byte) : spec_unpad (spec_pad p) = p := by
  have hpos : 0 < BLOCK_SIZE - p.length % BLOCK_SIZE := by
    simp only [BLOCK_SIZE]; omega
  have hne : List.replicate (BLOCK_SIZE - p.length % BLOCK_SIZE)
      (BLOCK_SIZE - p.length % BLOCK_SIZE) ≠ [] := by
    intro h
    have := congrArg List.length h
    simp only [List.length_replicate, List.length_nil] at this
    omega
  have hlast : (spec_pad p).getLast? = some (BLOCK_SIZE - p.length % BLOCK_SIZE) := by
    simp only [spec_pad]
    rw [List.getLast?_append_of_ne_nil _ hne]
    rw [List.getLast?_eq_getLast _ hne]
    simp
  unfold spec_unpad
  rw [hlast]
  simp only [Option.getD_some, spec_pad, List.length_append, List.length_replicate]
  rw [Nat.add_sub_cancel]
  simp

theorem spec_cbc_encrypt_length (E : BlockFn) (key iv p : List Byte) :
    (spec_cbc_encrypt E key iv p).length = p.length + BLOCK_SIZE - p.length % BLOCK_SIZE := by
  unfold spec_cbc_encrypt
  rw [cbc_encrypt_length, spec_pad_length_div, spec_pad_length]

/-- Decryption and padding removal recover the payload from its one-shot encryption. -/
theorem spec_cbc_decrypt_encrypt (E D : BlockFn) (hD : ∀ k b, D k (E k b) = b)
    (key iv p : List Byte) :
    spec_cbc_decrypt D key iv (spec_cbc_encrypt E key iv p) = p := by
  unfold spec_cbc_decrypt
  have hl : (spec_cbc_encrypt E key iv p).length / BLOCK_SIZE = (spec_pad p).length / BLOCK_SIZE := by
    rw [spec_cbc_encrypt_length, spec_pad_length]
  rw [hl]
  unfold spec_cbc_encrypt
  rw [cbc_decrypt_encrypt E D hD key _ _ _ (spec_pad_length_div p).symm]
  exact spec_unpad_pad p

theorem encodeLines_append_right (n : Nat) :
    ∀ (l x : List Byte), B64_LINE * n ≤ l.length → encodeLines n (l ++ x) = encodeLines n l := by
  induction n with
  | zero => intro l x _; simp [encodeLines]
  | succ n ih =>
    intro l x h
    have e : B64_LINE * (n + 1) = B64_LINE * n + B64_LINE := by ring
    have h48 : B64_LINE ≤ l.length := by omega
    simp only [encodeLines]
    rw [List.take_append_of_le_length h48, List.drop_append_of_le_length h48]
    rw [ih _ _ (by simp only [List.length_drop]; omega)]

theorem encodeLines_add (m n : Nat) :
    ∀ (l : List Byte),
      encodeLines (m + n) l = encodeLines m l ++ encodeLines n (l.drop (B64_LINE * m)) := by
  induction m with
  | zero => intro l; simp [encodeLines]
  | succ m ih =>
    intro l
    have e : m + 1 + n = (m + n) + 1 := by omega
    rw [e]
    simp only [encodeLines]
    rw [ih]
    simp only [List.append_assoc, List.drop_drop]
    have e2 : B64_LINE + B64_LINE * m = B64_LINE * (m + 1) := by ring
    simp only [e2]

/-- What `EVP_EncodeUpdate` amounts to. -/
theorem EVP_EncodeUpdate_eq (pend inp : List Byte) (hp : pend.length < B64_LINE) :
    EVP_EncodeUpdate pend inp =
      (encodeLines ((pend ++ inp).length / B64_LINE) (pend ++ inp),
       (pend ++ inp).drop (B64_LINE * ((pend ++ inp).length / B64_LINE))) := by
  unfold EVP_EncodeUpdate
  simp only [B64_LINE] at hp ⊢
  by_cases h0 : inp.length = 0
  · have : inp = [] := List.length_eq_zero.mp h0
    subst this
    have hn : pend.length / 48 = 0 := by omega
    simp [hn, encodeLines]
  · rw [if_neg h0]
    by_cases h1 : pend.length + inp.length < 48
    · rw [if_pos h1]
      have hn : (pend.length + inp.length) / 48 = 0 := by omega
      simp [hn, encodeLines]
    · rw [if_neg h1]

theorem b64State_pend_lt (t : List Byte) : (b64State t).2.length < B64_LINE := by
  simp only [b64State, List.length_drop, B64_LINE]
  omega

theorem b64State_nil : b64State [] = ([], []) := by
  simp [b64State, encodeLines]

/-- Feeding more bytes to the filter: the text emitted so far grows to that of the
longer input. -/
theorem EVP_EncodeUpdate_stream (t x : List Byte) :
    (b64State t).1 ++ (EVP_EncodeUpdate (b64State t).2 x).1 = (b64State (t ++ x)).1 ∧
    (EVP_EncodeUpdate (b64State t).2 x).2 = (b64State (t ++ x)).2 := by
  rw [EVP_EncodeUpdate_eq _ _ (b64State_pend_lt t)]
  simp only [b64State]
  have hm : B64_LINE * (t.length / B64_LINE) ≤ t.length := Nat.mul_div_le _ _
  have hdrop : (t ++ x).drop (B64_LINE * (t.length / B64_LINE))
      = t.drop (B64_LINE * (t.length / B64_LINE)) ++ x := List.drop_append_of_le_length hm
  have hlen : (t ++ x).length / B64_LINE
      = t.length / B64_LINE + (t.drop (B64_LINE * (t.length / B64_LINE)) ++ x).length / B64_LINE := by
    simp only [List.length_append, List.length_drop, B64_LINE]
    omega
  constructor
  · rw [hlen, encodeLines_add, hdrop, encodeLines_append_right _ _ _ hm]
  · rw [hlen, Nat.mul_add, ← List.drop_drop, hdrop]

theorem base64_eq (t : List Byte) :
    base64 t = (b64State t).1 ++ EVP_EncodeFinal (b64State t).2 := rfl

/-! ## Sequences of statements, traces, and option handling -/

theorem runSteps_append (a b : List Step) : ∀ s,
    runSteps (a ++ b) s =
      match runSteps a s with
      | (s1, .next) => runSteps b s1
      | r => r := by
  induction a with
  | nil => intro s; simp [runSteps]
  | cons f fs ih =>
    intro s
    simp only [List.cons_append, runSteps]
    rcases hf : f s with ⟨s1, c⟩
    cases c <;> simp [ih]

/-- Invariant rule for a sequence of statements: `I` holds while control goes on,
`A` holds where control leaves for a label. -/
theorem runSteps_inv (I : St → Prop) (A : St → Ctl → Prop) (steps : List Step)
    (hstep : ∀ f ∈ steps, ∀ s, I s →
      ((f s).2 = .next → I (f s).1) ∧ ((f s).2 ≠ .next → A (f s).1 (f s).2)) :
    ∀ s, I s → ((runSteps steps s).2 = .next → I (runSteps steps s).1) ∧
               ((runSteps steps s).2 ≠ .next → A (runSteps steps s).1 (runSteps steps s).2) := by
  induction steps with
  | nil => intro s hs; simp [runSteps, hs]
  | cons f fs ih =>
    intro s hs
    have hf := hstep f (List.mem_cons_self _ _) s hs
    simp only [runSteps]
    rcases hfs : f s with ⟨s1, c⟩
    rw [hfs] at hf
    cases c
    · simp only
      exact ih (fun g hg => hstep g (List.mem_cons_of_mem _ hg)) s1 (hf.1 rfl)
    · exact ⟨fun h => (by cases h), fun _ => hf.2 (by simp)⟩
    · exact ⟨fun h => (by cases h), fun _ => hf.2 (by simp)⟩

theorem Extends.refl (P : Event → Prop) (tr : List Event) : Extends P tr tr :=
  ⟨[], by simp⟩

theorem Extends.snoc {P : Event → Prop} {tr1 tr2 : List Event} {e : Event}
    (h : Extends P tr1 tr2) (he : P e) : Extends P tr1 (tr2 ++ [e]) := by
  obtain ⟨evs, rfl, hall⟩ := h
  refine ⟨evs ++ [e], by simp, ?_⟩
  intro x hx
  rcases List.mem_append.mp hx with hx | hx
  · exact hall x hx
  · simp only [List.mem_singleton] at hx
    exact hx ▸ he

theorem Extends.trans {P : Event → Prop} {tr1 tr2 tr3 : List Event}
    (h1 : Extends P tr1 tr2) (h2 : Extends P tr2 tr3) : Extends P tr1 tr3 := by
  obtain ⟨e1, rfl, ha1⟩ := h1
  obtain ⟨e2, rfl, ha2⟩ := h2
  refine ⟨e1 ++ e2, by simp, ?_⟩
  intro x hx
  rcases List.mem_append.mp hx with hx | hx
  · exact ha1 x hx
  · exact ha2 x hx

theorem Extends.mono {P Q : Event → Prop} {tr1 tr2 : List Event}
    (h : Extends P tr1 tr2) (hpq : ∀ e, P e → Q e) : Extends Q tr1 tr2 := by
  obtain ⟨evs, rfl, hall⟩ := h
  exact ⟨evs, rfl, fun e he => hpq e (hall e he)⟩

theorem Extends.forall {P : Event → Prop} {tr1 tr2 : List Event}
    (h : Extends P tr1 tr2) (h1 : ∀ e ∈ tr1, P e) : ∀ e ∈ tr2, P e := by
  obtain ⟨evs, rfl, hall⟩ := h
  intro e he
  rcases List.mem_append.mp he with he | he
  · exact h1 e he
  · exact hall e he

theorem Extends.log {P : Event → Prop} {tr : List Event} {s : St} {c : Call} {ok : Bool}
    (h : Extends P tr s.trace) (he : P ⟨c, ok⟩) : Extends P tr (s.log c ok).trace :=
  Extends.snoc h he

@[simp] theorem log_in_filename (s : St) (c : Call) (ok : Bool) : (s.log c ok).in_filename = s.in_filename := rfl
@[simp] theorem log_out_filename (s : St) (c : Call) (ok : Bool) : (s.log c ok).out_filename = s.out_filename := rfl
@[simp] theorem log_hPcrs (s : St) (c : Call) (ok : Bool) : (s.log c ok).hPcrs = s.hPcrs := rfl
@[simp] theorem log_hContext (s : St) (c : Call) (ok : Bool) : (s.log c ok).hContext = s.hContext := rfl
@[simp] theorem log_hTpm (s : St) (c : Call) (ok : Bool) : (s.log c ok).hTpm = s.hTpm := rfl
@[simp] theorem log_hSrk (s : St) (c : Call) (ok : Bool) : (s.log c ok).hSrk = s.hSrk := rfl
@[simp] theorem log_hKey (s : St) (c : Call) (ok : Bool) : (s.log c ok).hKey = s.hKey := rfl
@[simp] theorem log_hEncdata (s : St) (c : Call) (ok : Bool) : (s.log c ok).hEncdata = s.hEncdata := rfl
@[simp] theorem log_hPolicy (s : St) (c : Call) (ok : Bool) : (s.log c ok).hPolicy = s.hPolicy := rfl
@[simp] theorem log_hSrkPolicy (s : St) (c : Call) (ok : Bool) : (s.log c ok).hSrkPolicy = s.hSrkPolicy := rfl
@[simp] theorem log_iRc (s : St) (c : Call) (ok : Bool) : (s.log c ok).iRc = s.iRc := rfl
@[simp] theorem log_line (s : St) (c : Call) (ok : Bool) : (s.log c ok).line = s.line := rfl
@[simp] theorem log_lineLen (s : St) (c : Call) (ok : Bool) : (s.log c ok).lineLen = s.lineLen := rfl
@[simp] theorem log_encData (s : St) (c : Call) (ok : Bool) : (s.log c ok).encData = s.encData := rfl
@[simp] theorem log_encDataLen (s : St) (c : Call) (ok : Bool) : (s.log c ok).encDataLen = s.encDataLen := rfl
@[simp] theorem log_encKey (s : St) (c : Call) (ok : Bool) : (s.log c ok).encKey = s.encKey := rfl
@[simp] theorem log_randKey (s : St) (c : Call) (ok : Bool) : (s.log c ok).randKey = s.randKey := rfl
@[simp] theorem log_sealKey (s : St) (c : Call) (ok : Bool) : (s.log c ok).sealKey = s.sealKey := rfl
@[simp] theorem log_bin (s : St) (c : Call) (ok : Bool) : (s.log c ok).bin = s.bin := rfl
@[simp] theorem log_bdata (s : St) (c : Call) (ok : Bool) : (s.log c ok).bdata = s.bdata := rfl
@[simp] theorem log_b64 (s : St) (c : Call) (ok : Bool) : (s.log c ok).b64 = s.b64 := rfl
@[simp] theorem log_ctx (s : St) (c : Call) (ok : Bool) : (s.log c ok).ctx = s.ctx := rfl
@[simp] theorem log_pcrs (s : St) (c : Call) (ok : Bool) : (s.log c ok).pcrs = s.pcrs := rfl
@[simp] theorem log_enc_data (s : St) (c : Call) (ok : Bool) : (s.log c ok).enc_data = s.enc_data := rfl
@[simp] theorem log_out (s : St) (c : Call) (ok : Bool) : (s.log c ok).out = s.out := rfl
@[simp] theorem log_trace (s : St) (c : Call) (ok : Bool) :
    (s.log c ok).trace = s.trace ++ [⟨c, ok⟩] := rfl

theorem all_log (p : Event → Bool) (s : St) (c : Call) (ok : Bool) :
    (s.log c ok).trace.all p = (s.trace.all p && p ⟨c, ok⟩) := by
  simp [List.all_append]

theorem Extends.all {p : Event → Bool} {tr1 tr2 : List Event}
    (h : Extends (fun e => p e = true) tr1 tr2) (h1 : tr1.all p = true) : tr2.all p = true := by
  rw [List.all_eq_true] at h1 ⊢
  exact h.forall h1

theorem parse_frame (env : Env) (o : Char) (a : Option (List Char)) (s : St) :
    (parse env o a s).1.sansOpts = s.sansOpts := by
  unfold parse
  split
  · cases a <;> simp [St.sansOpts]
  · split
    · cases a <;> simp [St.sansOpts]
    · split
      · cases a with
        | none => simp [St.sansOpts]
        | some a =>
          simp only
          split <;> (try split) <;> (try split) <;> (try split) <;> (try split) <;> simp_all [St.sansOpts, St.log]
      · rfl

theorem parse_trace (env : Env) (o : Char) (a : Option (List Char)) (s : St) :
    Extends (fun e => e.call.isParseCall = true ∧ ((parse env o a s).2 = 0 → e.ok = true))
      s.trace (parse env o a s).1.trace := by
  unfold parse
  split
  · cases a <;> exact Extends.refl _ _
  · split
    · cases a <;> exact Extends.refl _ _
    · split
      · cases a with
        | none => exact Extends.refl _ _
        | some a =>
          by_cases hn : s.hPcrs = NULL_HPCRS
          · cases hc : env.createPcrs with
            | none =>
              simp only [hn, hc, if_true]
              exact (Extends.refl _ _).log (by simp [Call.isParseCall])
            | some h =>
              cases hr : env.pcrRead (toUINT32 (atoi a)) with
              | none =>
                simp only [hn, hc, hr, if_true]
                exact ((Extends.refl _ _).log (by simp [Call.isParseCall])).log
                  (by simp [Call.isParseCall])
              | some v =>
                cases hs : env.setPcrValue (toUINT32 (atoi a)) with
                | false =>
                  simp only [hn, hc, hr, hs, if_true]
                  exact (((Extends.refl _ _).log (by simp [Call.isParseCall])).log
                    (by simp [Call.isParseCall])).log (by simp [Call.isParseCall])
                | true =>
                  simp only [hn, hc, hr, hs, if_true]
                  exact (((Extends.refl _ _).log (by simp [Call.isParseCall])).log
                    (by simp [Call.isParseCall])).log (by simp [Call.isParseCall])
          · cases hr : env.pcrRead (toUINT32 (atoi a)) with
            | none =>
              simp only [hn, hr, if_false]
              exact (Extends.refl _ _).log (by simp [Call.isParseCall])
            | some v =>
              cases hs : env.setPcrValue (toUINT32 (atoi a)) with
              | false =>
                simp only [hn, hr, hs, if_false]
                exact ((Extends.refl _ _).log (by simp [Call.isParseCall])).log
                  (by simp [Call.isParseCall])
              | true =>
                simp only [hn, hr, hs, if_false]
                exact ((Extends.refl _ _).log (by simp [Call.isParseCall])).log
                  (by simp [Call.isParseCall])
      · exact Extends.refl _ _

theorem genericOptHandler_frame (env : Env) : ∀ (opts : List (Char × Option (List Char)))
    (s : St), (genericOptHandler env opts s).1.sansOpts = s.sansOpts
  | [], s => rfl
  | (o, a) :: rest, s => by
      simp only [genericOptHandler]
      split
      · exact parse_frame env o a s
      · rw [genericOptHandler_frame env rest]
        exact parse_frame env o a s

theorem genericOptHandler_trace (env : Env) : ∀ (opts : List (Char × Option (List Char)))
    (s : St),
    Extends (fun e => e.call.isParseCall = true ∧
        ((genericOptHandler env opts s).2 = 0 → e.ok = true))
      s.trace (genericOptHandler env opts s).1.trace
  | [], s => Extends.refl _ _
  | (o, a) :: rest, s => by
      simp only [genericOptHandler]
      split
      · rename_i h
        exact (parse_trace env o a s).mono (fun e he => ⟨he.1, fun h0 => absurd h0 h⟩)
      · rename_i h
        have h0 : (parse env o a s).2 = 0 := by simpa using h
        exact ((parse_trace env o a s).mono (fun e he => ⟨he.1, fun _ => he.2 h0⟩)).trans
          (genericOptHandler_trace env rest _)

/-! ## Invariants of the run of main -/

theorem Extends.any_eq {p : Event → Bool} {tr1 tr2 : List Event}
    (h : Extends (fun e => p e = false) tr1 tr2) : tr2.any p = tr1.any p := by
  obtain ⟨evs, rfl, hall⟩ := h
  rw [List.any_append]
  have : evs.any p = false := by
    rw [List.any_eq_false]
    intro x hx
    simp [hall x hx]
  simp [this]

theorem RandInv_extends {env : Env} {s t : St} (h : RandInv env s)
    (hk : t.randKey = s.randKey) (ht : Extends (fun e => isRand e = false) s.trace t.trace) :
    RandInv env t := by
  obtain ⟨h1, h2⟩ := h
  refine ⟨?_, ?_⟩
  · rw [hk, ht.any_eq, h1]
  · exact (ht.mono (fun e he => by simp [randOk, he])).all h2

theorem RandInv_log {env : Env} {s : St} (h : RandInv env s) (c : Call) (ok : Bool)
    (hc : isRand ⟨c, ok⟩ = false) : RandInv env (s.log c ok) :=
  RandInv_extends h rfl ((Extends.refl _ _).snoc hc)

theorem isParseCall_checked (e : Event) (h : e.call.isParseCall = true) :
    isChecked e = true ∧ isRand e = false := by
  obtain ⟨c, ok⟩ := e
  cases c <;> simp_all [Call.isParseCall, isChecked, Call.checked, isRand]

theorem lastFailed_snoc (tr : List Event) (c : Call) (h : c.checked = true) :
    lastFailed (tr ++ [⟨c, false⟩]) := ⟨tr, c, rfl, h⟩

theorem okChecked_isChecked {tr : List Event} (h : tr.all okChecked = true) :
    tr.all isChecked = true := by
  rw [List.all_eq_true] at h ⊢
  intro e he
  have := h e he
  simp only [okChecked, Bool.and_eq_true] at this
  exact this.1

theorem setupStep_log_ok {env : Env} {s : St} {c : Call} (hs : SetupI env s)
    (hc : c.checked = true) (hr : isRand ⟨c, true⟩ = false) :
    SetupI env (s.log c true) := by
  obtain ⟨h1, h2, h3, h4⟩ := hs
  refine ⟨h1, h2, ?_, RandInv_log h4 c true hr⟩
  simp [List.all_append, h3, okChecked, hc]

theorem setupStep_log_fail {env : Env} {s : St} {c : Call} (hs : SetupI env s)
    (hc : c.checked = true) (hr : isRand ⟨c, false⟩ = false) :
    SetupA env (s.log c false) .out_close := by
  obtain ⟨h1, h2, h3, h4⟩ := hs
  refine ⟨h1, h2, ?_, lastFailed_snoc _ _ hc, RandInv_log h4 c false hr, rfl⟩
  simp [List.all_append, okChecked_isChecked h3, isChecked, hc]

theorem SetupI_inert {env : Env} {s : St} {g : St → St} (hg : Inert g) (hs : SetupI env s) :
    SetupI env (g s) := by
  obtain ⟨h1, h2, h3, h4⟩ := hs
  obtain ⟨g1, g2, g3, g4⟩ := hg s
  refine ⟨by rw [g1, h1], by rw [g2, h2], by rw [g4, h3], ?_⟩
  exact RandInv_extends h4 g3 (by rw [g4]; exact Extends.refl _ _)

theorem setupStep_callVal {α : Type} (env : Env) (c : St → Call) (res : Option α)
    (store : α → St → St) (hstore : ∀ v, Inert (store v))
    (hc : ∀ s, (c s).checked = true) (hr : ∀ s ok, isRand ⟨c s, ok⟩ = false) :
    SetupStep env (callVal c res store .out_close) := by
  intro s hs
  cases res with
  | none =>
    refine ⟨fun h => (by cases h), fun _ => ?_⟩
    exact setupStep_log_fail hs (hc s) (hr s false)
  | some v =>
    refine ⟨fun _ => ?_, fun h => absurd rfl h⟩
    exact SetupI_inert (hstore v) (setupStep_log_ok hs (hc s) (hr s true))

theorem setupStep_callChk (env : Env) (c : St → Call) (res : Bool)
    (hc : ∀ s, (c s).checked = true) (hr : ∀ s ok, isRand ⟨c s, ok⟩ = false) :
    SetupStep env (callChk c res .out_close) := by
  intro s hs
  cases res with
  | false =>
    refine ⟨fun h => (by cases h), fun _ => ?_⟩
    exact setupStep_log_fail hs (hc s) (hr s false)
  | true =>
    refine ⟨fun _ => ?_, fun h => absurd rfl h⟩
    exact setupStep_log_ok hs (hc s) (hr s true)

theorem setupStep_cond (env : Env) (p : St → Prop) [DecidablePred p] (f : Step)
    (hf : SetupStep env f) :
    SetupStep env (fun s => if p s then (s, .next) else f s) := by
  intro s hs
  by_cases h : p s
  · simp only [h, if_true]
    exact ⟨fun _ => hs, fun h => absurd rfl h⟩
  · simp only [h, if_false]
    exact hf s hs

theorem setupStep_tpmGetRandom (env : Env) :
    SetupStep env (callVal (fun s => .tpmGetRandom s.hTpm KEY_LENGTH) env.tpmGetRandom
      (fun k s => { s with randKey := some k }) .out_close) := by
  intro s hs
  obtain ⟨h1, h2, h3, h4, h4b⟩ := hs
  cases hres : env.tpmGetRandom with
  | none =>
    refine ⟨fun h => (by cases h), fun _ => ?_⟩
    refine ⟨h1, h2, ?_, lastFailed_snoc _ _ rfl, ⟨?_, ?_⟩, rfl⟩
    · simp [callVal, List.all_append, okChecked_isChecked h3, isChecked, Call.checked]
    · simp [callVal, List.any_append, isRand, h4, hres]
    · simp [callVal, List.all_append, h4b, randOk]
  | some k =>
    refine ⟨fun _ => ⟨h1, h2, ?_, ?_, ?_⟩, fun h => absurd rfl h⟩
    · simp [callVal, List.all_append, h3, okChecked, Call.checked]
    · simp [callVal, List.any_append, isRand, hres]
    · simp [callVal, List.all_append, h4b, randOk, hres]

theorem setupStep_genericOptHandler (env : Env) :
    SetupStep env (fun s =>
      let r := genericOptHandler env env.opts s
      if r.2 ≠ 0 then (r.1.log .genericOptHandler false, .out_close)
      else (r.1.log .genericOptHandler true, .next)) := by
  intro s hs
  obtain ⟨h1, h2, h3, h4⟩ := hs
  have h5 := okChecked_isChecked h3
  have hfr := genericOptHandler_frame env env.opts s
  have htr := genericOptHandler_trace env env.opts s
  have ho : (genericOptHandler env env.opts s).1.out = s.out := by
    simpa [St.sansOpts] using congrArg St.out hfr
  have hi : (genericOptHandler env env.opts s).1.iRc = s.iRc := by
    simpa [St.sansOpts] using congrArg St.iRc hfr
  have hr : (genericOptHandler env env.opts s).1.randKey = s.randKey := by
    simpa [St.sansOpts] using congrArg St.randKey hfr
  have hchk := (htr.mono (Q := fun e => isChecked e = true)
    (fun e he => (isParseCall_checked e he.1).1)).all h5
  have hR : RandInv env (genericOptHandler env env.opts s).1 :=
    RandInv_extends h4 hr (htr.mono (fun e he => (isParseCall_checked e he.1).2))
  simp only
  split
  · rename_i hrc
    refine ⟨fun h => (by cases h), fun _ => ⟨?_, ?_, ?_, lastFailed_snoc _ _ rfl,
      RandInv_log hR _ _ rfl, rfl⟩⟩
    · simp [ho, h1]
    · simp [hi, h2]
    · simp [List.all_append, hchk, isChecked, Call.checked]
  · rename_i hrc
    have hrc0 : (genericOptHandler env env.opts s).2 = 0 := by simpa using hrc
    have hok := (htr.mono (Q := fun e => okChecked e = true)
      (fun e he => by
        have h1 := (isParseCall_checked e he.1).1
        have h2 := he.2 hrc0
        simp only [isChecked] at h1
        simp [okChecked, h1, h2])).all h3
    refine ⟨fun _ => ⟨?_, ?_, ?_, RandInv_log hR _ _ rfl⟩, fun h => absurd rfl h⟩
    · simp [ho, h1]
    · simp [hi, h2]
    · simp [List.all_append, hok, okChecked, Call.checked]

theorem setup_inv (K : SealConsts) (env : Env) :
    ∀ f ∈ (setupSteps K env).tail, SetupStep env f := by
  intro f hf
  simp only [setupSteps, List.tail_cons, List.mem_cons, List.mem_singleton, List.not_mem_nil,
    or_false] at hf
  rcases hf with rfl | rfl | rfl | rfl | rfl | rfl | rfl | rfl | rfl | rfl | rfl | rfl | rfl
    | rfl | rfl | rfl | rfl | rfl | rfl | rfl | rfl | rfl | rfl | rfl | rfl
  all_goals
    first
    | exact setupStep_callVal env _ _ _ (fun _ _ => ⟨rfl, rfl, rfl, rfl⟩) (fun _ => rfl)
        (fun _ _ => rfl)
    | exact setupStep_callChk env _ _ (fun _ => rfl) (fun _ _ => rfl)
    | exact setupStep_cond env _ _
        (setupStep_callChk env _ _ (fun _ => rfl) (fun _ _ => rfl))
    | exact setupStep_tpmGetRandom env
    | exact setupStep_genericOptHandler env

theorem bodyEv_bodyOk (e : Event) (h : bodyEv e = true) : bodyOk e = true := by
  simp only [bodyEv, bodyOk, Bool.and_eq_true, Bool.not_eq_true', Bool.or_eq_true] at h ⊢
  exact ⟨⟨Or.inl h.1.1.1, h.1.1.2⟩, h.1.2⟩

theorem okChecked_bodyOk (e : Event) (h : okChecked e = true) : bodyOk e = true := by
  obtain ⟨c, ok⟩ := e
  simp only [okChecked, Bool.and_eq_true] at h
  cases c <;> simp_all [bodyOk, isFtr, Call.isCleanup, Call.checked]

theorem bodyOk_preFooter (e : Event) (h : bodyOk e = true) : preFooter e = true := by
  simp only [bodyOk, preFooter, Bool.and_eq_true] at h ⊢
  exact ⟨h.1.2, h.2⟩

theorem bodyOk_anchorOk (e : Event) (h : bodyOk e = true) : anchorOk e = true := by
  obtain ⟨c, ok⟩ := e
  cases c <;> simp_all [bodyOk, anchorOk, Call.isAnchorOp, Call.checked]

theorem all_imp {p q : Event → Bool} (hpq : ∀ e, p e = true → q e = true) {tr : List Event}
    (h : tr.all p = true) : tr.all q = true := by
  rw [List.all_eq_true] at h ⊢
  exact fun e he => hpq e (h e he)

theorem bodyEv_not_rand (e : Event) (h : bodyEv e = true) : isRand e = false := by
  simp only [bodyEv, Bool.and_eq_true, Bool.not_eq_true'] at h
  exact h.2

theorem BodyI_of_BodyG {env : Env} {g : St → St} (hg : BodyG g) {s : St} (hs : BodyI env s) :
    BodyI env (g s) := by
  obtain ⟨h1, h2, h3⟩ := hs
  obtain ⟨g1, g2, g3⟩ := hg s
  exact ⟨by rw [g1, h1], (g3.mono bodyEv_bodyOk).all h2,
    RandInv_extends h3 g2 (g3.mono bodyEv_not_rand)⟩

theorem bodyStep_act (env : Env) (g : St → St) (hg : BodyG g) : BodyStep env (act g) := by
  intro s hs
  exact ⟨fun _ => BodyI_of_BodyG hg hs, fun h => absurd rfl h⟩

@[simp] theorem bioSend_iRc (d : List Byte) (ok : Bool) (s : St) :
    (bioSend d ok s).iRc = s.iRc := by
  unfold bioSend; split <;> (try split) <;> rfl

@[simp] theorem bioSend_randKey (d : List Byte) (ok : Bool) (s : St) :
    (bioSend d ok s).randKey = s.randKey := by
  unfold bioSend; split <;> (try split) <;> rfl

@[simp] theorem bioSend_trace (d : List Byte) (ok : Bool) (s : St) :
    (bioSend d ok s).trace = s.trace := by
  unfold bioSend; split <;> (try split) <;> rfl

@[simp] theorem bioSend_ctx (d : List Byte) (ok : Bool) (s : St) :
    (bioSend d ok s).ctx = s.ctx := by
  unfold bioSend; split <;> (try split) <;> rfl

@[simp] theorem bioSend_bdata (d : List Byte) (ok : Bool) (s : St) :
    (bioSend d ok s).bdata = s.bdata := by
  unfold bioSend; split <;> (try split) <;> rfl

theorem BodyG_log (g : St → St) (c : St → Call) (ok : St → Bool)
    (h1 : ∀ s, (g s).iRc = s.iRc) (h2 : ∀ s, (g s).randKey = s.randKey)
    (h3 : ∀ s, (g s).trace = s.trace) (hc : ∀ s, bodyEv ⟨c s, ok s⟩ = true) :
    BodyG (fun s => (g s).log (c s) (ok s)) := by
  intro s
  refine ⟨h1 s, h2 s, ?_⟩
  have : Extends (fun e => bodyEv e = true) s.trace (g s).trace := by
    rw [h3 s]; exact Extends.refl _ _
  exact this.log (hc s)

theorem BodyG_BIO_puts (K : SealConsts) (env : Env) (m : Marker) (hm : m ≠ .FTR) :
    BodyG (BIO_puts K env m) :=
  BodyG_log (bioSend (K.text m) (env.puts m)) (fun _ => .BIO_puts m) (fun _ => env.puts m)
    (fun _ => bioSend_iRc _ _ _) (fun _ => bioSend_randKey _ _ _) (fun _ => bioSend_trace _ _ _)
    (fun _ => by cases m <;> simp_all [bodyEv, Call.checked, isFtr, Call.isCleanup, isRand])

theorem BodyG_BIO_write (d : St → List Byte) (ok : Bool) :
    BodyG (fun s => BIO_write (d s) ok s) := by
  intro s
  refine ⟨by simp [BIO_write], by simp [BIO_write], ?_⟩
  have : Extends (fun e => bodyEv e = true) s.trace (bioSend (d s) ok s).trace := by
    rw [bioSend_trace]; exact Extends.refl _ _
  exact this.log rfl

theorem BodyG_BIO_push : BodyG BIO_push := by
  intro s
  exact ⟨rfl, rfl, (Extends.refl (fun e => bodyEv e = true) s.trace).snoc (by rfl)⟩

theorem BodyG_BIO_pop : BodyG BIO_pop := by
  intro s
  exact ⟨rfl, rfl, (Extends.refl (fun e => bodyEv e = true) s.trace).snoc (by rfl)⟩

theorem BodyG_encryptLoop (E : BlockFn) (env : Env) :
    ∀ (rs : List ReadResult) (i : Nat), BodyG (encryptLoop E env i rs)
  | [], i => by
      intro s
      exact ⟨rfl, rfl, (Extends.refl (fun e => bodyEv e = true) s.trace).snoc (by rfl)⟩
  | r :: rs, i => by
      intro s
      simp only [encryptLoop]
      split
      · obtain ⟨a1, a2, a3⟩ := BodyG_encryptLoop E env rs (i + 1)
          (BIO_write
            (List.take
              (EVP_EncryptUpdate E ({ s with lineLen := r.lineLen }.log (.BIO_read r.lineLen)
                (decide (0 ≤ r.lineLen))).ctx r.bytes).2.1
              (EVP_EncryptUpdate E ({ s with lineLen := r.lineLen }.log (.BIO_read r.lineLen)
                (decide (0 ≤ r.lineLen))).ctx r.bytes).1)
            (env.write_data i) _)
        refine ⟨a1.trans ?_, a2.trans ?_, Extends.trans ?_ a3⟩
        · simp [BIO_write]
        · simp [BIO_write]
        · simp only [BIO_write, log_trace, bioSend_trace]
          exact (((Extends.refl (fun e => bodyEv e = true) s.trace).snoc (by rfl)).snoc (by rfl)).snoc (by rfl)
      · exact ⟨rfl, rfl, (Extends.refl (fun e => bodyEv e = true) s.trace).snoc (by rfl)⟩

theorem BIO_flush_ok (ok : Bool) (s : St) : (BIO_flush ok s).2 = ok := by
  unfold BIO_flush
  cases ok
  · rfl
  · simp only [if_true]; split <;> rfl

@[simp] theorem BIO_flush_iRc (ok : Bool) (s : St) : (BIO_flush ok s).1.iRc = s.iRc := by
  unfold BIO_flush
  cases ok
  · rfl
  · simp only [if_true]; split <;> rfl

@[simp] theorem BIO_flush_randKey (ok : Bool) (s : St) :
    (BIO_flush ok s).1.randKey = s.randKey := by
  unfold BIO_flush
  cases ok
  · rfl
  · simp only [if_true]; split <;> rfl

@[simp] theorem BIO_flush_trace (ok : Bool) (s : St) :
    (BIO_flush ok s).1.trace = s.trace ++ [⟨.BIO_flush, ok⟩] := by
  unfold BIO_flush
  cases ok
  · rfl
  · simp only [if_true]; split <;> rfl

theorem flushChk_eq (ok : Bool) (s : St) :
    flushChk ok s = ((BIO_flush ok s).1, if ok then .next else .out_close) := by
  unfold flushChk
  simp only [BIO_flush_ok]
  cases ok <;> rfl

theorem bodyStep_flushChk (env : Env) (ok : Bool) : BodyStep env (flushChk ok) := by
  intro s hs
  obtain ⟨h1, h2, h3⟩ := hs
  have hR : RandInv env (BIO_flush ok s).1 :=
    RandInv_extends h3 (BIO_flush_randKey ok s)
      (by rw [BIO_flush_trace]; exact (Extends.refl _ _).snoc (by rfl))
  rw [flushChk_eq]
  cases ok with
  | false =>
    refine ⟨fun h => (by cases h), fun _ => ⟨?_, ?_, ?_, ?_, hR, rfl⟩⟩
    · simp [h1]
    · simp only [BIO_flush_trace]
      exact lastFailed_snoc _ _ rfl
    · simp [List.all_append, all_imp bodyOk_preFooter h2, preFooter, isFtr, Call.isCleanup]
    · simp [List.all_append, all_imp bodyOk_anchorOk h2, anchorOk, Call.isAnchorOp]
  | true =>
    refine ⟨fun _ => ⟨?_, ?_, hR⟩, fun h => absurd rfl h⟩
    · simp [h1]
    · simp [List.all_append, h2, bodyOk, isFtr, Call.isCleanup]

theorem body_inv (K : SealConsts) (E : BlockFn) (env : Env) :
    ∀ f ∈ outputSteps K E env, BodyStep env f := by
  intro f hf
  simp only [outputSteps, List.mem_cons, List.mem_singleton, List.not_mem_nil, or_false] at hf
  rcases hf with rfl | rfl | rfl | rfl | rfl | rfl | rfl | rfl | rfl | rfl | rfl | rfl | rfl
    | rfl | rfl | rfl | rfl | rfl | rfl | rfl | rfl
  all_goals
    first
    | exact bodyStep_flushChk env _
    | exact bodyStep_act env _ (BodyG_BIO_puts K env _ (by decide))
    | exact bodyStep_act env _ BodyG_BIO_push
    | exact bodyStep_act env _ BodyG_BIO_pop
    | exact bodyStep_act env _ (BodyG_BIO_write _ _)
    | exact bodyStep_act env _ (BodyG_encryptLoop E env _ _)
    | exact bodyStep_act env _
        (fun s => ⟨rfl, rfl, (Extends.refl (fun e => bodyEv e = true) s.trace).snoc (by rfl)⟩)

theorem cleanup_trace (r : St × Ctl) : (cleanup r).trace = r.1.trace ++ cleanupEvents r := by
  obtain ⟨s, c⟩ := r
  unfold cleanup cleanupEvents
  simp only
  by_cases h0 : c = .out <;> by_cases h1 : s.bin = true <;> cases h2 : s.bdata <;>
    by_cases h3 : s.b64 = true <;> simp [h0, h1, h2, h3, bdataFrees]

theorem cleanup_out (r : St × Ctl) : (cleanup r).out = r.1.out := by
  obtain ⟨s, c⟩ := r
  unfold cleanup
  simp only
  by_cases h0 : c = .out <;> by_cases h1 : s.bin = true <;> cases h2 : s.bdata <;>
    by_cases h3 : s.b64 = true <;> simp [h0, h1, h2, h3, bdataFrees]

theorem cleanup_iRc (r : St × Ctl) : (cleanup r).iRc = r.1.iRc := by
  obtain ⟨s, c⟩ := r
  unfold cleanup
  simp only
  by_cases h0 : c = .out <;> by_cases h1 : s.bin = true <;> cases h2 : s.bdata <;>
    by_cases h3 : s.b64 = true <;> simp [h0, h1, h2, h3, bdataFrees]

theorem cleanup_randKey (r : St × Ctl) : (cleanup r).randKey = r.1.randKey := by
  obtain ⟨s, c⟩ := r
  unfold cleanup
  simp only
  by_cases h0 : c = .out <;> by_cases h1 : s.bin = true <;> cases h2 : s.bdata <;>
    by_cases h3 : s.b64 = true <;> simp [h0, h1, h2, h3, bdataFrees]

theorem cleanupEvents_all (r : St × Ctl) :
    ∀ e ∈ cleanupEvents r, e.call.isCleanup = true ∧ e.ok = true := by
  obtain ⟨s, c⟩ := r
  unfold cleanupEvents
  intro e he
  simp only [List.mem_append] at he
  rcases he with ((he | he) | he) | he
  · split at he <;> simp at he; subst he; exact ⟨rfl, rfl⟩
  · split at he <;> simp at he; subst he; exact ⟨rfl, rfl⟩
  · cases hb : s.bdata <;> rw [hb] at he <;> simp [bdataFrees] at he <;>
      (subst he; exact ⟨rfl, rfl⟩)
  · split at he <;> simp at he; subst he; exact ⟨rfl, rfl⟩

theorem callVal_some {α : Type} (c : St → Call) (v : α) (store : α → St → St) (l : Ctl)
    (s : St) : callVal c (some v) store l s = (store v (s.log (c s) true), .next) := rfl

theorem callVal_none {α : Type} (c : St → Call) (store : α → St → St) (l : Ctl) (s : St) :
    callVal c none store l s = (s.log (c s) false, l) := rfl

/-- The ways `main` can run: `contextCreate` fails; a later statement of the set-up
fails; a flush of the output section fails; or control reaches the footer. -/
theorem main_cases (K : SealConsts) (E : BlockFn) (env : Env) :
    (env.contextCreate = none ∧ main K E env = ({} : St).log .contextCreate false) ∨
    (∃ s, SetupA env s .out_close ∧ main K E env = cleanup (s, .out_close)) ∨
    (∃ s, BodyA env s .out_close ∧ main K E env = cleanup (s, .out_close)) ∨
    (∃ s, BodyI env s ∧
      main K E env = cleanup ({ BIO_puts K env .FTR s with iRc := 0 }, .next)) := by
  have hsplit : setupSteps K env =
      callVal (fun _ => .contextCreate) env.contextCreate
        (fun h s => { s with hContext := h }) .out :: (setupSteps K env).tail := rfl
  cases hc : env.contextCreate with
  | none =>
    left
    refine ⟨rfl, ?_⟩
    unfold main mainSteps
    rw [hsplit, List.cons_append, hc]
    rfl
  | some h =>
    right
    obtain ⟨s0, hs0, hI0⟩ : ∃ s0 : St, s0 = { ({} : St).log .contextCreate true with hContext := h }
        ∧ SetupI env s0 := by
      exact ⟨_, rfl, rfl, rfl, rfl, rfl, rfl⟩
    have hmain : main K E env = cleanup (runSteps ((setupSteps K env).tail ++
        (outputSteps K E env ++ finishSteps K env)) s0) := by
      unfold main mainSteps
      rw [hsplit, List.cons_append, hc, hs0]
      rfl
    rw [hmain]
    have hsetup := runSteps_inv (SetupI env) (SetupA env) _ (setup_inv K env) _ hI0
    rw [runSteps_append]
    rcases hr : runSteps (setupSteps K env).tail s0 with ⟨s1, c1⟩
    rw [hr] at hsetup
    cases c1 with
    | out =>
      have := (hsetup.2 (by simp)).2.2.2.2.2
      cases this
    | out_close =>
      left
      exact ⟨s1, hsetup.2 (by simp), rfl⟩
    | next =>
      right
      simp only
      obtain ⟨a1, a2, a3, a4⟩ := hsetup.1 rfl
      have hB1 : BodyI env s1 := ⟨a2, all_imp okChecked_bodyOk a3, a4⟩
      have hbody := runSteps_inv (BodyI env) (BodyA env) _ (body_inv K E env) _ hB1
      rw [runSteps_append]
      rcases hr2 : runSteps (outputSteps K E env) s1 with ⟨s2, c2⟩
      rw [hr2] at hbody
      cases c2 with
      | out =>
        have := (hbody.2 (by simp)).2.2.2.2.2
        cases this
      | out_close =>
        left
        exact ⟨s2, hbody.2 (by simp), rfl⟩
      | next =>
        right
        exact ⟨s2, hbody.1 rfl, rfl⟩

theorem isCleanup_not_checked (e : Event) (h : e.call.isCleanup = true) :
    e.call.checked = false := by
  obtain ⟨c, ok⟩ := e
  cases c <;> simp_all [Call.isCleanup, Call.checked]

theorem runSteps_keepFile (steps : List Step) (h : ∀ f ∈ steps, KeepFile f) :
    ∀ s, s.bdata ≠ .b64chain → (runSteps steps s).1.bdata ≠ .b64chain := by
  induction steps with
  | nil => intro s hs; exact hs
  | cons f fs ih =>
    intro s hs
    have hf := h f (List.mem_cons_self _ _) s hs
    simp only [runSteps]
    rcases hfs : f s with ⟨s1, c⟩
    rw [hfs] at hf
    cases c
    · exact ih (fun g hg => h g (List.mem_cons_of_mem _ hg)) s1 hf
    · exact hf
    · exact hf

theorem keepFile_callVal {α : Type} (c : St → Call) (res : Option α) (store : α → St → St)
    (l : Ctl) (hstore : ∀ v s, s.bdata ≠ .b64chain → (store v s).bdata ≠ .b64chain) :
    KeepFile (callVal c res store l) := by
  intro s hs
  cases res with
  | none => exact hs
  | some v => exact hstore v (s.log (c s) true) hs

theorem keepFile_callChk (c : St → Call) (res : Bool) (l : Ctl) :
    KeepFile (callChk c res l) := by
  intro s hs
  cases res <;> exact hs

theorem keepFile_cond (p : St → Prop) [DecidablePred p] (f : Step) (hf : KeepFile f) :
    KeepFile (fun s => if p s then (s, .next) else f s) := by
  intro s hs
  by_cases h : p s
  · dsimp only
    rw [if_pos h]
    exact hs
  · dsimp only
    rw [if_neg h]
    exact hf s hs

theorem keepFile_opt (env : Env) :
    KeepFile (fun s =>
      let r := genericOptHandler env env.opts s
      if r.2 ≠ 0 then (r.1.log .genericOptHandler false, .out_close)
      else (r.1.log .genericOptHandler true, .next)) := by
  intro s hs
  have hb : (genericOptHandler env env.opts s).1.bdata = s.bdata := by
    simpa [St.sansOpts] using congrArg St.bdata (genericOptHandler_frame env env.opts s)
  dsimp only
  split
  · rw [log_bdata, hb]; exact hs
  · rw [log_bdata, hb]; exact hs

/-- No statement of the set-up makes `bdata` hold the base64 filter. -/
theorem setup_keepFile (K : SealConsts) (env : Env) : ∀ f ∈ setupSteps K env, KeepFile f := by
  intro f hf
  simp only [setupSteps, List.mem_cons, List.mem_singleton, List.not_mem_nil, or_false] at hf
  rcases hf with rfl | rfl | rfl | rfl | rfl | rfl | rfl | rfl | rfl | rfl | rfl | rfl | rfl | rfl
    | rfl | rfl | rfl | rfl | rfl | rfl | rfl | rfl | rfl | rfl | rfl | rfl
  all_goals
    first
    | exact keepFile_callVal _ _ _ _ (fun _ _ h => h)
    | exact keepFile_callVal _ _ _ _ (fun _ _ _ h => by cases h)
    | exact keepFile_callChk _ _ _
    | exact keepFile_cond _ _ (keepFile_callChk _ _ _)
    | exact keepFile_opt env

/-- The ways `main` can run, as in `main_cases`, with what `bdata` holds when a
statement of the set-up has failed. -/
theorem main_exits (K : SealConsts) (E : BlockFn) (env : Env) :
    (env.contextCreate = none ∧ main K E env = ({} : St).log .contextCreate false) ∨
    (∃ s, SetupA env s .out_close ∧ s.bdata ≠ .b64chain ∧
      main K E env = cleanup (s, .out_close)) ∨
    (∃ s, BodyA env s .out_close ∧ main K E env = cleanup (s, .out_close)) ∨
    (∃ s, BodyI env s ∧
      main K E env = cleanup ({ BIO_puts K env .FTR s with iRc := 0 }, .next)) := by
  have hsplit : setupSteps K env =
      callVal (fun _ => .contextCreate) env.contextCreate
        (fun h s => { s with hContext := h }) .out :: (setupSteps K env).tail := rfl
  cases hc : env.contextCreate with
  | none =>
    left
    refine ⟨rfl, ?_⟩
    unfold main mainSteps
    rw [hsplit, List.cons_append, hc]
    rfl
  | some h =>
    right
    obtain ⟨s0, hs0, hI0⟩ : ∃ s0 : St, s0 = { ({} : St).log .contextCreate true with hContext := h }
        ∧ SetupI env s0 := by
      exact ⟨_, rfl, rfl, rfl, rfl, rfl, rfl⟩
    have hb0 : s0.bdata ≠ .b64chain := by rw [hs0]; intro hh; cases hh
    have hmain : main K E env = cleanup (runSteps ((setupSteps K env).tail ++
        (outputSteps K E env ++ finishSteps K env)) s0) := by
      unfold main mainSteps
      rw [hsplit, List.cons_append, hc, hs0]
      rfl
    rw [hmain]
    have hsetup := runSteps_inv (SetupI env) (SetupA env) _ (setup_inv K env) _ hI0
    have hkeep := runSteps_keepFile (setupSteps K env).tail
      (fun f hf => setup_keepFile K env f (List.mem_of_mem_tail hf)) s0 hb0
    rw [runSteps_append]
    rcases hr : runSteps (setupSteps K env).tail s0 with ⟨s1, c1⟩
    rw [hr] at hsetup hkeep
    cases c1 with
    | out =>
      have := (hsetup.2 (by simp)).2.2.2.2.2
      cases this
    | out_close =>
      left
      exact ⟨s1, hsetup.2 (by simp), hkeep, rfl⟩
    | next =>
      right
      simp only
      obtain ⟨a1, a2, a3, a4⟩ := hsetup.1 rfl
      have hB1 : BodyI env s1 := ⟨a2, all_imp okChecked_bodyOk a3, a4⟩
      have hbody := runSteps_inv (BodyI env) (BodyA env) _ (body_inv K E env) _ hB1
      rw [runSteps_append]
      rcases hr2 : runSteps (outputSteps K E env) s1 with ⟨s2, c2⟩
      rw [hr2] at hbody
      cases c2 with
      | out =>
        have := (hbody.2 (by simp)).2.2.2.2.2
        cases this
      | out_close =>
        left
        exact ⟨s2, hbody.2 (by simp), rfl⟩
      | next =>
        right
        exact ⟨s2, hbody.1 rfl, rfl⟩

theorem freesOf_append (a b : List Event) : freesOf (a ++ b) = freesOf a ++ freesOf b := by
  simp [freesOf, List.filterMap_append]

theorem freesOf_one (e : Event) (h : e.call.isCleanup = false) : freesOf [e] = [] := by
  obtain ⟨c, ok⟩ := e
  cases c <;> first | rfl | cases h

theorem freesOf_nil : ∀ (tr : List Event), (∀ e ∈ tr, e.call.isCleanup = false) →
    freesOf tr = []
  | [], _ => rfl
  | e :: tr, h => by
      have := freesOf_append [e] tr
      rw [freesOf_one e (h e (List.mem_cons_self _ _)),
        freesOf_nil tr (fun x hx => h x (List.mem_cons_of_mem _ hx))] at this
      exact this

/-- When control reaches the labels without a clean-up call made before and with
`bdata` not holding the base64 filter, no BIO is freed twice and `main` returns
`iRc`. -/
theorem returned_cleanup (s : St) (c : Ctl) (hpre : ∀ e ∈ s.trace, e.call.isCleanup = false)
    (hb : s.bdata ≠ .b64chain) : returned (cleanup (s, c)) = some s.iRc := by
  unfold returned doubleFree
  rw [cleanup_trace, freesOf_append, freesOf_nil _ hpre, cleanup_iRc, List.nil_append]
  unfold cleanupEvents
  by_cases h0 : c = .out <;> by_cases h1 : s.bin = true <;> cases h2 : s.bdata <;>
    by_cases h3 : s.b64 = true <;>
    first
    | exact absurd h2 hb
    | simp [h0, h1, h2, h3, bdataFrees, freesOf]

/-- When control reaches the labels with `bdata` still holding the base64 filter,
the filter is freed twice. -/
theorem double_free_cleanup (s : St) (c : Ctl) (hb : s.bdata = .b64chain) (h64 : s.b64 = true) :
    returned (cleanup (s, c)) = none := by
  unfold returned doubleFree
  rw [cleanup_trace, freesOf_append]
  have : ¬ (freesOf s.trace ++ freesOf (cleanupEvents (s, c))).Nodup := by
    intro hn
    have h2 := (List.nodup_append.mp hn).2.1
    revert h2
    unfold cleanupEvents
    by_cases h0 : c = .out <;> by_cases h1 : s.bin = true <;>
      simp [h0, h1, hb, h64, bdataFrees, freesOf]
  simp [this]

theorem isChecked_not_cleanup (e : Event) (h : isChecked e = true) :
    e.call.isCleanup = false := by
  cases hc : e.call.isCleanup with
  | false => rfl
  | true =>
    have := isCleanup_not_checked e hc
    simp [isChecked, this] at h

/-! ## Sample run; failure behaviour of main (C4, C5, C6, C7) -/

theorem no_failed_of_all {p : Event → Bool} {tr : List Event} (h : tr.all p = true)
    {e : Event} (he : e ∈ tr) : p e = true :=
  List.all_eq_true.mp h e he

/-- C5: if the request for the random key, or any later anchor operation up to the
blob extraction, fails, `main` writes no byte to the output and returns a non-zero
status. -/
theorem C5_anchor_failure_writes_nothing (K : SealConsts) (E : BlockFn) (env : Env)
    (h : ∃ e ∈ (main K E env).trace, e.call.isAnchorOp = true ∧ e.ok = false) :
    (main K E env).out = [] ∧ (main K E env).iRc ≠ 0 ∧
      ∃ r, returned (main K E env) = some r ∧ r ≠ 0 := by
  obtain ⟨e, he, ha, hok⟩ := h
  have hbad : anchorOk e = false := by simp [anchorOk, ha, hok]
  rcases main_exits K E env with ⟨_, hm⟩ | ⟨s, hs, hb, hm⟩ | ⟨s, hs, hm⟩ | ⟨s, hs, hm⟩
  · rw [hm]
    exact ⟨rfl, by decide, -1, by decide, by decide⟩
  · obtain ⟨h1, h2, h3, -⟩ := hs
    have hpre : ∀ x ∈ s.trace, x.call.isCleanup = false :=
      fun x hx => isChecked_not_cleanup x (no_failed_of_all h3 hx)
    rw [hm, cleanup_out, cleanup_iRc, returned_cleanup s _ hpre hb]
    exact ⟨h1, by simp [h2], s.iRc, rfl, by simp [h2]⟩
  · exfalso
    obtain ⟨-, -, -, h4, -⟩ := hs
    rw [hm, cleanup_trace] at he
    rcases List.mem_append.mp he with he | he
    · have := no_failed_of_all h4 he
      simp [hbad] at this
    · have := (cleanupEvents_all _ e he).2
      simp [hok] at this
  · exfalso
    obtain ⟨-, h2, -⟩ := hs
    rw [hm, cleanup_trace] at he
    rcases List.mem_append.mp he with he | he
    · simp only [BIO_puts, log_trace, bioSend_trace] at he
      rcases List.mem_append.mp he with he | he
      · have := bodyOk_anchorOk e (no_failed_of_all h2 he)
        simp [hbad] at this
      · simp only [List.mem_singleton] at he
        subst he
        simp [Call.isAnchorOp] at ha
    · have := (cleanupEvents_all _ e he).2
      simp [hok] at this

theorem C5_witness :
    (∃ e ∈ (main sampleConsts sampleCipher { sampleEnv with tpmGetRandom := none }).trace,
        e.call.isAnchorOp = true ∧ e.ok = false) ∧
      ((main sampleConsts sampleCipher { sampleEnv with tpmGetRandom := none }).out = [] ∧
       (main sampleConsts sampleCipher { sampleEnv with tpmGetRandom := none }).iRc ≠ 0 ∧
       ∃ r, returned (main sampleConsts sampleCipher
          { sampleEnv with tpmGetRandom := none }) = some r ∧ r ≠ 0) :=
  ⟨⟨⟨.tpmGetRandom 2 32, false⟩, by decide, rfl, rfl⟩,
   C5_anchor_failure_writes_nothing _ _ _ ⟨⟨.tpmGetRandom 2 32, false⟩, by decide, rfl, rfl⟩⟩

theorem isChecked_not_ftr (e : Event) (h : isChecked e = true) : isFtr e = false := by
  obtain ⟨c, ok⟩ := e
  cases c <;> simp_all [isChecked, Call.checked, isFtr]

theorem isCleanup_not_ftr (e : Event) (h : e.call.isCleanup = true) : isFtr e = false := by
  obtain ⟨c, ok⟩ := e
  cases c <;> simp_all [Call.isCleanup, isFtr]

/-- C4 (amended): if any call whose result `main` tests fails (an anchor operation,
the option handling, the creation or opening of a BIO, a flush of an encoded
segment), the footer marker is not written. -/
theorem C4_footer_needs_checked_steps (K : SealConsts) (E : BlockFn) (env : Env)
    (h : ∃ e ∈ (main K E env).trace, e.call.checked = true ∧ e.ok = false) :
    ∀ ok, (⟨.BIO_puts .FTR, ok⟩ : Event) ∉ (main K E env).trace := by
  have key : ∀ tr : List Event, tr.all (fun e => !isFtr e) = true →
      ∀ ok, (⟨.BIO_puts .FTR, ok⟩ : Event) ∉ tr := by
    intro tr htr ok hmem
    have := no_failed_of_all htr hmem
    simp [isFtr] at this
  have hclean : ∀ r : St × Ctl, (cleanupEvents r).all (fun e => !isFtr e) = true := by
    intro r
    rw [List.all_eq_true]
    intro e he
    simp [isCleanup_not_ftr e (cleanupEvents_all r e he).1]
  rcases main_cases K E env with ⟨_, hm⟩ | ⟨s, hs, hm⟩ | ⟨s, hs, hm⟩ | ⟨s, hs, hm⟩
  · rw [hm]
    decide
  · obtain ⟨-, h2, h3, -⟩ := hs
    rw [hm, cleanup_trace]
    refine key _ ?_
    rw [List.all_append, hclean, all_imp (q := fun e => !isFtr e) _ h3]
    · rfl
    · intro e he
      simp [isChecked_not_ftr e he]
  · obtain ⟨h1, -, h3, -⟩ := hs
    rw [hm, cleanup_trace]
    refine key _ ?_
    rw [List.all_append, hclean, all_imp (q := fun e => !isFtr e) _ h3]
    · rfl
    · intro e he
      simp only [preFooter, Bool.and_eq_true] at he
      exact he.1
  · exfalso
    obtain ⟨e, he, hc, hok⟩ := h
    obtain ⟨-, h2, -⟩ := hs
    rw [hm, cleanup_trace] at he
    rcases List.mem_append.mp he with he | he
    · simp only [BIO_puts, log_trace, bioSend_trace] at he
      rcases List.mem_append.mp he with he | he
      · have := no_failed_of_all h2 he
        simp [bodyOk, hc, hok] at this
      · simp only [List.mem_singleton] at he
        subst he
        simp [Call.checked] at hc
    · have := (cleanupEvents_all _ e he).2
      simp [hok] at this

theorem C4_witness :
    (∃ e ∈ (main sampleConsts sampleCipher { sampleEnv with flush_encKey := false }).trace,
        e.call.checked = true ∧ e.ok = false) ∧
      (∀ ok, (⟨.BIO_puts .FTR, ok⟩ : Event) ∉
          (main sampleConsts sampleCipher { sampleEnv with flush_encKey := false }).trace) :=
  ⟨⟨⟨.BIO_flush, false⟩, by decide, rfl, rfl⟩,
   C4_footer_needs_checked_steps _ _ _ ⟨⟨.BIO_flush, false⟩, by decide, rfl, rfl⟩⟩

/-- C4 as stated fails: `main` does not test the result of `BIO_puts` or of
`BIO_write`. In the sample run with a failing write of the header marker, and in the
one with a failing write of the encoded key blob, the footer marker is written all
the same. -/
theorem C4_counterexample :
    ((⟨.BIO_puts .HDR, false⟩ : Event) ∈
        (main sampleConsts sampleCipher
          { sampleEnv with puts := fun m => decide (m ≠ .HDR) }).trace ∧
      (⟨.BIO_puts .FTR, true⟩ : Event) ∈
        (main sampleConsts sampleCipher
          { sampleEnv with puts := fun m => decide (m ≠ .HDR) }).trace) ∧
    ((⟨.BIO_write [4, 5], false⟩ : Event) ∈
        (main sampleConsts sampleCipher { sampleEnv with write_sealKey := false }).trace ∧
      (⟨.BIO_puts .FTR, true⟩ : Event) ∈
        (main sampleConsts sampleCipher { sampleEnv with write_sealKey := false }).trace) := by
  decide

/-- After a failed flush `bdata` still holds the base64 filter: the clean-up frees
the filter twice and never the output file BIO, and `main` does not return. -/
theorem failed_flush_frees_twice :
    freesOf (main sampleConsts sampleCipher { sampleEnv with flush_encKey := false }).trace =
        [.bin, .b64, .b64] ∧
      returned (main sampleConsts sampleCipher { sampleEnv with flush_encKey := false }) = none ∧
      freesOf (main sampleConsts sampleCipher sampleEnv).trace = [.bin, .bdata, .b64] ∧
      returned (main sampleConsts sampleCipher sampleEnv) = some 0 := by
  decide

/-- C6: the code at a failing input. The first read of the payload returns an error
(`BIO_read` gives -1); the loop ends as at the end of input, the footer is written
and `main` returns 0. -/
theorem C6_read_error_returns_zero :
    (⟨.BIO_read (-1), false⟩ : Event) ∈
        (main sampleConsts sampleCipher { sampleEnv with reads := [.error] }).trace ∧
      (⟨.BIO_puts .FTR, true⟩ : Event) ∈
        (main sampleConsts sampleCipher { sampleEnv with reads := [.error] }).trace ∧
      (main sampleConsts sampleCipher { sampleEnv with reads := [.error] }).iRc = 0 ∧
      returned (main sampleConsts sampleCipher { sampleEnv with reads := [.error] }) =
        some 0 := by
  decide

@[simp] theorem finish_trace (K : SealConsts) (env : Env) (s : St) :
    (finish K env s).trace = s.trace ++ [⟨.BIO_puts .FTR, env.puts .FTR⟩] := by
  simp [finish, BIO_puts]

@[simp] theorem finish_randKey (K : SealConsts) (env : Env) (s : St) :
    (finish K env s).randKey = s.randKey := by
  simp [finish, BIO_puts]

@[simp] theorem finish_iRc (K : SealConsts) (env : Env) (s : St) :
    (finish K env s).iRc = 0 := rfl

theorem lookup_filter_ne (idx : Nat) : ∀ (m : List (Nat × List Byte)),
    (m.filter (fun p => p.1 ≠ idx)).lookup idx = none
  | [] => rfl
  | (i, v) :: m => by
      by_cases h : i = idx
      · rw [List.filter_cons_of_neg (by simp [h])]
        exact lookup_filter_ne idx m
      · have h2 : (idx == i) = false := by
          simp only [beq_eq_false_iff_ne, ne_eq]
          exact fun e => h e.symm
        rw [List.filter_cons_of_pos (by simp [h])]
        simp only [List.lookup, h2]
        exact lookup_filter_ne idx m

theorem lookup_append_of_none {idx : Nat} {v : List Byte} : ∀ (m : List (Nat × List Byte)),
    m.lookup idx = none → (m ++ [(idx, v)]).lookup idx = some v
  | [], _ => by simp [List.lookup]
  | (i, w) :: m, h => by
      simp only [List.lookup] at h
      split at h
      · cases h
      · rename_i hne
        simp only [List.cons_append, List.lookup, hne]
        exact lookup_append_of_none m h

/-- After `setPcr` the index is bound to the value. -/
theorem lookup_setPcr (m : List (Nat × List Byte)) (idx : Nat) (v : List Byte) :
    (setPcr m idx v).lookup idx = some v :=
  lookup_append_of_none _ (lookup_filter_ne idx m)

/-- The register option for any argument: `parse('p', arg)` takes `atoi(arg)`,
converted to `UINT32`, as the register index. It returns -1 if the composite object
does not exist yet and cannot be created, if that register cannot be read, or if its
value cannot be stored into the composite; otherwise it returns 0 after binding the
index to the value just read. -/
theorem parse_pcr_atoi (env : Env) (a : List Char) (s : St) :
    ((parse env 'p' (some a) s).2 = 0 ∨ (parse env 'p' (some a) s).2 = -1) ∧
    ((parse env 'p' (some a) s).2 = 0 ↔
      (s.hPcrs ≠ NULL_HPCRS ∨ env.createPcrs.isSome = true) ∧
        (env.pcrRead (toUINT32 (atoi a))).isSome = true ∧
        env.setPcrValue (toUINT32 (atoi a)) = true) ∧
    ((parse env 'p' (some a) s).2 = 0 →
      ∃ v, env.pcrRead (toUINT32 (atoi a)) = some v ∧
        (parse env 'p' (some a) s).1.pcrs = setPcr s.pcrs (toUINT32 (atoi a)) v ∧
        (parse env 'p' (some a) s).1.pcrs.lookup (toUINT32 (atoi a)) = some v) ∧
    ((parse env 'p' (some a) s).2 ≠ 0 → (parse env 'p' (some a) s).1.pcrs = s.pcrs) := by
  have hp : parse env 'p' (some a) s =
      (let c : St × Bool :=
        if s.hPcrs = NULL_HPCRS then
          match env.createPcrs with
          | some h =>
              ({ s with hPcrs := h }.log
                (.Tspi_Context_CreateObject s.hContext .TSS_OBJECT_TYPE_PCRS) true, true)
          | none =>
              (s.log (.Tspi_Context_CreateObject s.hContext .TSS_OBJECT_TYPE_PCRS) false,
               false)
        else (s, true)
      if c.2 = false then (c.1, -1)
      else
        let s1 := c.1
        let pcr_idx := toUINT32 (atoi a)
        match env.pcrRead pcr_idx with
        | none => (s1.log (.Tspi_TPM_PcrRead s1.hTpm pcr_idx) false, -1)
        | some val =>
          let s2 := s1.log (.Tspi_TPM_PcrRead s1.hTpm pcr_idx) true
          let set := Call.Tspi_PcrComposite_SetPcrValue s2.hPcrs pcr_idx val.length val
          if env.setPcrValue pcr_idx then
            ({ s2 with pcrs := setPcr s2.pcrs pcr_idx val }.log set true, 0)
          else (s2.log set false, -1)) := by
    unfold parse
    rw [if_neg (by decide), if_neg (by decide), if_pos rfl]
    try rfl
  rw [hp]
  by_cases hn : s.hPcrs = NULL_HPCRS
  · cases hc : env.createPcrs with
    | none => simp [hn, hc]
    | some h =>
      cases hr : env.pcrRead (toUINT32 (atoi a)) with
      | none => simp [hn, hc, hr]
      | some v =>
        cases hs : env.setPcrValue (toUINT32 (atoi a)) with
        | false => simp [hn, hc, hr, hs]
        | true => simp [hn, hc, hr, hs, lookup_setPcr]
  · cases hr : env.pcrRead (toUINT32 (atoi a)) with
    | none => simp [hn, hr]
    | some v =>
      cases hs : env.setPcrValue (toUINT32 (atoi a)) with
      | false => simp [hn, hr, hs]
      | true => simp [hn, hr, hs, lookup_setPcr]

theorem isDigit_bounds (c : Char) (h : c.isDigit = true) : 48 ≤ c.toNat ∧ c.toNat ≤ 57 := by
  simp only [Char.isDigit, Bool.and_eq_true, decide_eq_true_eq] at h
  have h1 : (48 : UInt32) ≤ c.val := h.1
  have h2 : c.val ≤ (57 : UInt32) := h.2
  rw [UInt32.le_def] at h1 h2
  exact ⟨h1, h2⟩

theorem isDigit_not_space (c : Char) (h : c.isDigit = true) : isspace c = false := by
  have := isDigit_bounds c h
  simp only [isspace, Bool.or_eq_false_iff, decide_eq_false_iff_not, Bool.and_eq_false_imp,
    decide_eq_true_eq]
  omega

theorem atoiDigits_numeral : ∀ (a : List Char) (acc : Nat), a.all Char.isDigit = true →
    atoiDigits acc a = a.foldl (fun n c => 10 * n + (c.toNat - 48)) acc
  | [], _, _ => rfl
  | c :: cs, acc, h => by
      rw [List.all_cons, Bool.and_eq_true] at h
      simp only [atoiDigits, h.1, if_true, List.foldl_cons]
      rw [atoiDigits_numeral cs _ h.2, Nat.mul_comm]

theorem strtol_numeral (a : List Char) (h : spec_isNumeral a = true) :
    strtol a = min LONG_MAX (spec_numeral a : Int) := by
  cases a with
  | nil => simp [spec_isNumeral] at h
  | cons c cs =>
    simp only [spec_isNumeral, List.isEmpty_cons, Bool.not_false, Bool.true_and] at h
    have hc : c.isDigit = true := by
      rw [List.all_cons, Bool.and_eq_true] at h
      exact h.1
    have hdrop : (c :: cs).dropWhile isspace = c :: cs := by
      simp [List.dropWhile, isDigit_not_space c hc]
    have hd := atoiDigits_numeral (c :: cs) 0 h
    unfold strtol
    rw [hdrop]
    split
    · rename_i cs2 heq
      injection heq with h1 h2
      subst h1
      exact absurd hc (by decide)
    · rename_i cs2 heq
      injection heq with h1 h2
      subst h1
      exact absurd hc (by decide)
    · rw [hd]
      rfl

/-- On a decimal numeral whose value fits an `int`, `atoi` followed by the conversion
to `UINT32` gives the number the numeral denotes. -/
theorem atoi_numeral (a : List Char) (h : spec_isNumeral a = true)
    (hv : spec_numeral a ≤ INT_MAX) : toUINT32 (atoi a) = spec_numeral a := by
  unfold atoi
  rw [strtol_numeral a h]
  simp only [INT_MAX] at hv
  have h1 : min LONG_MAX (spec_numeral a : Int) = (spec_numeral a : Int) := by
    apply min_eq_right
    simp only [LONG_MAX]
    omega
  rw [h1]
  simp only [toInt, toUINT32]
  omega

/-- C8 (amended): for every argument that is a decimal numeral with a value of at
most `INT_MAX`, `parse('p', arg)` returns -1 if the composite object does not exist
yet and cannot be created, if the register the numeral denotes cannot be read from
the anchor, or if its value cannot be stored into the composite; otherwise it returns
0 after binding that index to the value just read. For every argument, the
measurement set changes only when `parse` returns 0. -/
theorem C8_parse_pcr (env : Env) (a : List Char) (s : St)
    (hnum : spec_isNumeral a = true) (hidx : spec_numeral a ≤ INT_MAX) :
    ((parse env 'p' (some a) s).2 = 0 ∨ (parse env 'p' (some a) s).2 = -1) ∧
    ((parse env 'p' (some a) s).2 = 0 ↔
      (s.hPcrs ≠ NULL_HPCRS ∨ env.createPcrs.isSome = true) ∧
        (env.pcrRead (spec_numeral a)).isSome = true ∧
        env.setPcrValue (spec_numeral a) = true) ∧
    ((parse env 'p' (some a) s).2 = 0 →
      ∃ v, env.pcrRead (spec_numeral a) = some v ∧
        (parse env 'p' (some a) s).1.pcrs = setPcr s.pcrs (spec_numeral a) v ∧
        (parse env 'p' (some a) s).1.pcrs.lookup (spec_numeral a) = some v) ∧
    (∀ b, (parse env 'p' (some b) s).2 ≠ 0 → (parse env 'p' (some b) s).1.pcrs = s.pcrs) := by
  have h := parse_pcr_atoi env a s
  rw [atoi_numeral a hnum hidx] at h
  exact ⟨h.1, h.2.1, h.2.2.1, fun b => (parse_pcr_atoi env b s).2.2.2⟩

theorem C8_witness :
    spec_isNumeral ['4'] = true ∧ spec_numeral ['4'] ≤ INT_MAX ∧
    (parse sampleEnv 'p' (some ['4']) {}).2 = 0 ∧
    (∃ v, sampleEnv.pcrRead (spec_numeral ['4']) = some v ∧
        (parse sampleEnv 'p' (some ['4']) {}).1.pcrs =
          setPcr ({} : St).pcrs (spec_numeral ['4']) v ∧
        (parse sampleEnv 'p' (some ['4']) {}).1.pcrs.lookup (spec_numeral ['4']) = some v) :=
  ⟨by decide, by decide, by decide,
    (C8_parse_pcr sampleEnv ['4'] {} (by decide) (by decide)).2.2.1 (by decide)⟩

/-- C8 as stated fails: the argument "0" denotes register 0, a valid index that can
be read, yet `parse('p', "0")` returns -1 when the composite object cannot be
created; the same happens when the value cannot be stored into the composite. -/
theorem C8_counterexample :
    spec_isNumeral ['0'] = true ∧ spec_numeral ['0'] = 0 ∧
      { sampleEnv with createPcrs := none }.pcrRead 0 = some [0] ∧
      (parse { sampleEnv with createPcrs := none } 'p' (some ['0']) {}).2 = -1 ∧
      { sampleEnv with setPcrValue := fun _ => false }.pcrRead 0 = some [0] ∧
      (parse { sampleEnv with setPcrValue := fun _ => false } 'p' (some ['0']) {}).2 = -1 := by
  decide

/-- The register index is what `atoi` makes of the argument: an argument without
digits denotes register 0, and `parse` binds that register. -/
theorem parse_nondigit_arg :
    (parse sampleEnv 'p' (some ['a', 'b', 'c']) {}).2 = 0 ∧
      (parse sampleEnv 'p' (some ['a', 'b', 'c']) {}).1.pcrs = [(0, [0])] := by
  decide

/-- What `atoi` makes of arguments that are not plain numerals: white space, the
vertical tab and the form feed included, is skipped; digits after other characters
are not read; a value beyond the range of `long` becomes `LONG_MAX`, so -1 as an
`int`. -/
theorem atoi_examples :
    atoi [Char.ofNat 11, '5'] = 5 ∧ atoi [Char.ofNat 12, '5'] = 5 ∧
      atoi [' ', '+', '7', 'x'] = 7 ∧ atoi ['a', 'b', 'c'] = 0 ∧ atoi ['-', '3'] = -3 ∧
      atoi (List.replicate 20 '9') = -1 ∧ toUINT32 (-1) = 4294967295 := by
  decide

/-- The name read at `in_filename` after `parse('i', arg)`: the argument itself if it
is shorter than `PATH_MAX`; otherwise its first `PATH_MAX` chars, left without a
terminating NUL by `strncpy`, followed by what is read at `out_filename`. -/
theorem inName_parse (env : Env) (a : List Char) (s : St) :
    (parse env 'i' (some a) s).2 = 0 ∧
    (a.length < PATH_MAX → inName env (parse env 'i' (some a) s).1 = a) ∧
    (PATH_MAX ≤ a.length →
      inName env (parse env 'i' (some a) s).1 = a.take PATH_MAX ++ outName env s) := by
  refine ⟨rfl, ?_, ?_⟩
  · intro h
    have ht : a.take PATH_MAX = a := List.take_of_length_le (Nat.le_of_lt h)
    simp [parse, inName, ht, h]
  · intro h
    have hl : (a.take PATH_MAX).length = PATH_MAX := by
      rw [List.length_take]; exact Nat.min_eq_left h
    simp [parse, inName, outName, hl]

/-! ## The platform binding of the seal (C9) -/

theorem parse_hContext (env : Env) (o : Char) (a : Option (List Char)) (s : St) :
    (parse env o a s).1.hContext = s.hContext := by
  simpa [St.sansOpts] using congrArg St.hContext (parse_frame env o a s)

/-- A successful call of `parse` for an option other than the register option
leaves the composite, the measurement set and the trace as they are. -/
theorem parse_ok_other (env : Env) (o : Char) (a : Option (List Char)) (s : St)
    (ho : o ≠ 'p') :
    (parse env o a s).1.hPcrs = s.hPcrs ∧ (parse env o a s).1.pcrs = s.pcrs ∧
      (parse env o a s).1.trace = s.trace := by
  unfold parse
  split
  · cases a <;> exact ⟨rfl, rfl, rfl⟩
  · split
    · cases a <;> exact ⟨rfl, rfl, rfl⟩
    · exact ⟨rfl, rfl, rfl⟩

/-- The body of `case 'p'` of `parse`. -/
theorem parse_pcr_eq (env : Env) (arg : List Char) (s : St) :
    parse env 'p' (some arg) s =
      (let c : St × Bool :=
        if s.hPcrs = NULL_HPCRS then
          match env.createPcrs with
          | some h =>
              ({ s with hPcrs := h }.log
                (.Tspi_Context_CreateObject s.hContext .TSS_OBJECT_TYPE_PCRS) true, true)
          | none =>
              (s.log (.Tspi_Context_CreateObject s.hContext .TSS_OBJECT_TYPE_PCRS) false,
               false)
        else (s, true)
      if c.2 = false then (c.1, -1)
      else
        let s1 := c.1
        let pcr_idx := toUINT32 (atoi arg)
        match env.pcrRead pcr_idx with
        | none => (s1.log (.Tspi_TPM_PcrRead s1.hTpm pcr_idx) false, -1)
        | some val =>
          let s2 := s1.log (.Tspi_TPM_PcrRead s1.hTpm pcr_idx) true
          let set := Call.Tspi_PcrComposite_SetPcrValue s2.hPcrs pcr_idx val.length val
          if env.setPcrValue pcr_idx then
            ({ s2 with pcrs := setPcr s2.pcrs pcr_idx val }.log set true, 0)
          else (s2.log set false, -1)) := by
  unfold parse
  rw [if_neg (by decide), if_neg (by decide), if_pos rfl]
  try rfl

/-- A successful call of `parse` for the register option. -/
theorem parse_ok_pcr (env : Env) (a : Option (List Char)) (s : St)
    (h0 : (parse env 'p' a s).2 = 0) :
    ∃ arg v, a = some arg ∧ env.pcrRead (toUINT32 (atoi arg)) = some v ∧
      (parse env 'p' a s).1.pcrs = bindArg env s.pcrs arg ∧
      ((s.hPcrs = NULL_HPCRS ∧ env.createPcrs = some (parse env 'p' a s).1.hPcrs ∧
          (parse env 'p' a s).1.trace = s.trace ++
            [⟨.Tspi_Context_CreateObject s.hContext .TSS_OBJECT_TYPE_PCRS, true⟩,
             ⟨.Tspi_TPM_PcrRead s.hTpm (toUINT32 (atoi arg)), true⟩,
             ⟨.Tspi_PcrComposite_SetPcrValue (parse env 'p' a s).1.hPcrs (toUINT32 (atoi arg))
                v.length v, true⟩]) ∨
       (s.hPcrs ≠ NULL_HPCRS ∧ (parse env 'p' a s).1.hPcrs = s.hPcrs ∧
          (parse env 'p' a s).1.trace = s.trace ++
            [⟨.Tspi_TPM_PcrRead s.hTpm (toUINT32 (atoi arg)), true⟩,
             ⟨.Tspi_PcrComposite_SetPcrValue s.hPcrs (toUINT32 (atoi arg)) v.length v, true⟩])) := by
  cases a with
  | none => simp [parse] at h0
  | some arg =>
    rw [parse_pcr_eq] at h0 ⊢
    by_cases hn : s.hPcrs = NULL_HPCRS
    · cases hc : env.createPcrs with
      | none => simp [hn, hc] at h0
      | some h =>
        cases hr : env.pcrRead (toUINT32 (atoi arg)) with
        | none => simp [hn, hc, hr] at h0
        | some v =>
          cases hs : env.setPcrValue (toUINT32 (atoi arg)) with
          | false => simp [hn, hc, hr, hs] at h0
          | true =>
            refine ⟨arg, v, rfl, hr, ?_, ?_⟩
            · simp [hn, hc, hr, hs, bindArg]
            · left
              simp [hn, hc, hr, hs]
    · cases hr : env.pcrRead (toUINT32 (atoi arg)) with
      | none => simp [hn, hr] at h0
      | some v =>
        cases hs : env.setPcrValue (toUINT32 (atoi arg)) with
        | false => simp [hn, hr, hs] at h0
        | true =>
          refine ⟨arg, v, rfl, hr, ?_, ?_⟩
          · simp [hn, hr, hs, bindArg]
          · right
            simp [hn, hr, hs]

theorem genericOptHandler_hContext (env : Env) (opts : List (Char × Option (List Char)))
    (s : St) : (genericOptHandler env opts s).1.hContext = s.hContext := by
  simpa [St.sansOpts] using congrArg St.hContext (genericOptHandler_frame env opts s)

/-- Successful option handling: the measurement set is the one built by the register
options, in order; the composite is created once, by the first register option, and
every value is stored into that same composite. -/
theorem genericOptHandler_ok (env : Env) (hvalid : env.createPcrs ≠ some NULL_HPCRS) :
    ∀ (opts : List (Char × Option (List Char))) (s : St),
      (genericOptHandler env opts s).2 = 0 →
      (genericOptHandler env opts s).1.pcrs = (pcrArgs opts).foldl (bindArg env) s.pcrs ∧
      ((s.hPcrs = NULL_HPCRS ∧ pcrArgs opts = [] ∧
          (genericOptHandler env opts s).1.hPcrs = NULL_HPCRS ∧
          createCalls (genericOptHandler env opts s).1.trace = createCalls s.trace) ∨
       (s.hPcrs = NULL_HPCRS ∧ pcrArgs opts ≠ [] ∧
          env.createPcrs = some (genericOptHandler env opts s).1.hPcrs ∧
          createCalls (genericOptHandler env opts s).1.trace = createCalls s.trace ++
            [⟨.Tspi_Context_CreateObject s.hContext .TSS_OBJECT_TYPE_PCRS, true⟩]) ∨
       (s.hPcrs ≠ NULL_HPCRS ∧ (genericOptHandler env opts s).1.hPcrs = s.hPcrs ∧
          createCalls (genericOptHandler env opts s).1.trace = createCalls s.trace)) ∧
      setCalls (genericOptHandler env opts s).1.trace = setCalls s.trace ++
        setCallsOf env (genericOptHandler env opts s).1.hPcrs (pcrArgs opts) ∧
      sealBindings (genericOptHandler env opts s).1.trace = sealBindings s.trace ∧
      keyCreateBindings (genericOptHandler env opts s).1.trace = keyCreateBindings s.trace
  | [], s, _ => by
      refine ⟨rfl, ?_, ?_, rfl, rfl⟩
      · by_cases hn : s.hPcrs = NULL_HPCRS
        · exact Or.inl ⟨hn, rfl, hn, rfl⟩
        · exact Or.inr (Or.inr ⟨hn, rfl, rfl⟩)
      · exact (List.append_nil _).symm
  | (o, a) :: rest, s, h0 => by
      have hp0 : (parse env o a s).2 = 0 := by
        by_contra hne
        simp only [genericOptHandler, ne_eq, hne, not_false_eq_true, if_true] at h0
      have hgo : genericOptHandler env ((o, a) :: rest) s =
          genericOptHandler env rest (parse env o a s).1 := by
        simp only [genericOptHandler, ne_eq, hp0, not_true_eq_false, if_false]
      rw [hgo] at h0 ⊢
      obtain ⟨ih1, ih2, ih3, ih4, ih5⟩ := genericOptHandler_ok env hvalid rest _ h0
      by_cases ho : o = 'p'
      · subst ho
        obtain ⟨arg, v, rfl, hv, hpc, hcase⟩ := parse_ok_pcr env a s hp0
        have hargs : pcrArgs (('p', some arg) :: rest) = arg :: pcrArgs rest := by
          simp [pcrArgs]
        rw [hargs]
        rcases hcase with ⟨hn, hcr, htr⟩ | ⟨hn, hh, htr⟩
        · have hne : (parse env 'p' (some arg) s).1.hPcrs ≠ NULL_HPCRS := by
            intro e
            rw [e] at hcr
            exact hvalid hcr
          rcases ih2 with ⟨hx, -⟩ | ⟨hx, -⟩ | ⟨-, hh2, hc2⟩
          · exact absurd hx hne
          · exact absurd hx hne
          · refine ⟨?_, Or.inr (Or.inl ⟨hn, by simp, ?_, ?_⟩), ?_, ?_, ?_⟩
            · rw [ih1, hpc]; rfl
            · rw [hh2]; exact hcr
            · rw [hc2, htr]
              simp [createCalls, List.filter_append, List.filter]
            · rw [ih3, htr, hh2]
              simp [setCalls, setCallsOf, List.filterMap_append, hv]
            · rw [ih4, htr]
              simp [sealBindings, List.filterMap_append]
            · rw [ih5, htr]
              simp [keyCreateBindings, List.filterMap_append]
        · rcases ih2 with ⟨hx, -⟩ | ⟨hx, -⟩ | ⟨-, hh2, hc2⟩
          · exact absurd (hh ▸ hx) hn
          · exact absurd (hh ▸ hx) hn
          · refine ⟨?_, Or.inr (Or.inr ⟨hn, by rw [hh2, hh], ?_⟩), ?_, ?_, ?_⟩
            · rw [ih1, hpc]; rfl
            · rw [hc2, htr]
              simp [createCalls, List.filter_append, List.filter]
            · rw [ih3, htr, hh2, hh]
              simp [setCalls, setCallsOf, List.filterMap_append, hv]
            · rw [ih4, htr]
              simp [sealBindings, List.filterMap_append]
            · rw [ih5, htr]
              simp [keyCreateBindings, List.filterMap_append]
      · obtain ⟨hh, hpc, htr⟩ := parse_ok_other env o a s ho
        have hargs : pcrArgs ((o, a) :: rest) = pcrArgs rest := by
          simp [pcrArgs, ho]
        rw [hargs]
        rw [hpc] at ih1
        rw [hh, htr, parse_hContext] at ih2
        rw [htr] at ih3 ih4 ih5
        exact ⟨ih1, ih2, ih3, ih4, ih5⟩

theorem runSteps_post (steps : List Step) (h : ∀ f ∈ steps, PostStep f) :
    ∀ s, (runSteps steps s).1.hPcrs = s.hPcrs ∧ (runSteps steps s).1.pcrs = s.pcrs ∧
      Extends (fun e => postOpt s.hPcrs e = true) s.trace (runSteps steps s).1.trace := by
  induction steps with
  | nil => intro s; exact ⟨rfl, rfl, Extends.refl _ _⟩
  | cons f fs ih =>
    intro s
    obtain ⟨f1, f2, f3⟩ := h f (List.mem_cons_self _ _) s
    simp only [runSteps]
    rcases hfs : f s with ⟨s1, c⟩
    rw [hfs] at f1 f2 f3
    simp only at f1 f2 f3
    cases c
    · obtain ⟨g1, g2, g3⟩ := ih (fun g hg => h g (List.mem_cons_of_mem _ hg)) s1
      rw [f1] at g3
      exact ⟨g1.trans f1, g2.trans f2, f3.trans g3⟩
    · exact ⟨f1, f2, f3⟩
    · exact ⟨f1, f2, f3⟩

theorem postStep_callVal {α : Type} (c : St → Call) (res : Option α) (store : α → St → St)
    (l : Ctl)
    (hstore : ∀ v s, (store v s).hPcrs = s.hPcrs ∧ (store v s).pcrs = s.pcrs ∧
      (store v s).trace = s.trace)
    (hc : ∀ s ok, postOpt s.hPcrs ⟨c s, ok⟩ = true) :
    PostStep (callVal c res store l) := by
  intro s
  cases res with
  | none => exact ⟨rfl, rfl, (Extends.refl _ _).snoc (hc s false)⟩
  | some v =>
    obtain ⟨a1, a2, a3⟩ := hstore v (s.log (c s) true)
    refine ⟨a1, a2, ?_⟩
    show Extends _ s.trace (store v (s.log (c s) true)).trace
    rw [a3]
    exact (Extends.refl _ _).snoc (hc s true)

theorem postStep_callChk (c : St → Call) (res : Bool) (l : Ctl)
    (hc : ∀ s ok, postOpt s.hPcrs ⟨c s, ok⟩ = true) :
    PostStep (callChk c res l) := by
  intro s
  cases res with
  | false => exact ⟨rfl, rfl, (Extends.refl _ _).snoc (hc s false)⟩
  | true => exact ⟨rfl, rfl, (Extends.refl _ _).snoc (hc s true)⟩

theorem postStep_cond (p : St → Prop) [DecidablePred p] (f : Step) (hf : PostStep f) :
    PostStep (fun s => if p s then (s, .next) else f s) := by
  intro s
  by_cases h : p s
  · dsimp only
    rw [if_pos h]
    exact ⟨rfl, rfl, Extends.refl _ _⟩
  · dsimp only
    rw [if_neg h]
    exact hf s

theorem postOpt_dataSeal (a b n : Nat) (d : Option (List Byte)) (h : Handle) (ok : Bool) :
    postOpt h ⟨.dataSeal a b n d h, ok⟩ = true := by
  simp [postOpt]

theorem setupTail_post (K : SealConsts) (env : Env) :
    ∀ f ∈ (setupSteps K env).drop 4, PostStep f := by
  intro f hf
  simp only [setupSteps, List.drop_succ_cons, List.drop_zero, List.mem_cons, List.mem_singleton,
    List.not_mem_nil, or_false] at hf
  rcases hf with rfl | rfl | rfl | rfl | rfl | rfl | rfl | rfl | rfl | rfl | rfl | rfl | rfl
    | rfl | rfl | rfl | rfl | rfl | rfl | rfl | rfl | rfl
  all_goals
    first
    | exact postStep_callVal _ _ _ _ (fun _ _ => ⟨rfl, rfl, rfl⟩) (fun _ _ => rfl)
    | exact postStep_callChk _ _ _ (fun _ _ => rfl)
    | exact postStep_callChk _ _ _ (fun _ _ => postOpt_dataSeal _ _ _ _ _ _)
    | exact postStep_cond _ _ (postStep_callChk _ _ _ (fun _ _ => rfl))

theorem bioSend_frame (d : List Byte) (ok : Bool) : OutFrame (bioSend d ok) := by
  intro s
  unfold bioSend
  split <;> (try split) <;> rfl

theorem OutFrame_BIO_puts (K : SealConsts) (env : Env) (m : Marker) :
    OutFrame (BIO_puts K env m) := fun s => bioSend_frame _ _ s

theorem OutFrame_BIO_write (d : St → List Byte) (ok : Bool) :
    OutFrame (fun s => BIO_write (d s) ok s) := fun s => bioSend_frame _ _ s

theorem OutFrame_encryptLoop (E : BlockFn) (env : Env) :
    ∀ (rs : List ReadResult) (i : Nat), OutFrame (encryptLoop E env i rs)
  | [], _ => fun _ => rfl
  | r :: rs, i => by
      intro s
      simp only [encryptLoop]
      split
      · rw [OutFrame_encryptLoop E env rs (i + 1)]
        exact bioSend_frame _ _ _
      · rfl

theorem bodyEv_postOpt (h : Handle) (e : Event) (he : bodyEv e = true) :
    postOpt h e = true := by
  obtain ⟨c, ok⟩ := e
  cases c <;> simp_all [bodyEv, postOpt, Call.checked]

theorem postStep_act (g : St → St) (hf : OutFrame g) (hg : BodyG g) : PostStep (act g) := by
  intro s
  have h := hf s
  refine ⟨?_, ?_, (hg s).2.2.mono (bodyEv_postOpt s.hPcrs)⟩
  · simpa [St.sansOut] using congrArg St.hPcrs h
  · simpa [St.sansOut] using congrArg St.pcrs h

theorem postStep_puts (K : SealConsts) (env : Env) (m : Marker) :
    PostStep (act (BIO_puts K env m)) := by
  intro s
  have h := OutFrame_BIO_puts K env m s
  refine ⟨?_, ?_, ?_⟩
  · simpa [St.sansOut] using congrArg St.hPcrs h
  · simpa [St.sansOut] using congrArg St.pcrs h
  · show Extends _ s.trace (BIO_puts K env m s).trace
    simp only [BIO_puts, log_trace, bioSend_trace]
    exact (Extends.refl _ _).snoc (by rfl)

theorem postStep_flushChk (ok : Bool) : PostStep (flushChk ok) := by
  intro s
  rw [flushChk_eq]
  refine ⟨?_, ?_, ?_⟩
  · unfold BIO_flush
    cases ok
    · rfl
    · simp only [if_true]; split <;> rfl
  · unfold BIO_flush
    cases ok
    · rfl
    · simp only [if_true]; split <;> rfl
  · simp only [BIO_flush_trace]
    exact (Extends.refl _ _).snoc (by rfl)

theorem output_post (K : SealConsts) (E : BlockFn) (env : Env) :
    ∀ f ∈ outputSteps K E env ++ finishSteps K env, PostStep f := by
  intro f hf
  simp only [outputSteps, finishSteps, List.cons_append, List.nil_append, List.mem_cons,
    List.mem_singleton, List.not_mem_nil, or_false] at hf
  rcases hf with rfl | rfl | rfl | rfl | rfl | rfl | rfl | rfl | rfl | rfl | rfl | rfl | rfl
    | rfl | rfl | rfl | rfl | rfl | rfl | rfl | rfl | rfl | rfl
  all_goals
    first
    | exact postStep_flushChk _
    | exact postStep_puts K env _
    | exact postStep_act _ (fun _ => rfl) BodyG_BIO_push
    | exact postStep_act _ (fun _ => rfl) BodyG_BIO_pop
    | exact postStep_act _ (OutFrame_BIO_write _ _) (BodyG_BIO_write _ _)
    | exact postStep_act _ (OutFrame_encryptLoop E env _ _) (BodyG_encryptLoop E env _ _)
    | exact postStep_act _ (fun _ => rfl)
        (fun s => ⟨rfl, rfl, (Extends.refl (fun e => bodyEv e = true) s.trace).snoc (by rfl)⟩)
    | exact (fun s => ⟨rfl, rfl, Extends.refl _ _⟩)

theorem cleanup_hPcrs (r : St × Ctl) : (cleanup r).hPcrs = r.1.hPcrs := by
  obtain ⟨s, c⟩ := r
  unfold cleanup
  simp only
  by_cases h0 : c = .out <;> by_cases h1 : s.bin = true <;> cases h2 : s.bdata <;>
    by_cases h3 : s.b64 = true <;> simp [h0, h1, h2, h3, bdataFrees]

theorem cleanup_pcrs (r : St × Ctl) : (cleanup r).pcrs = r.1.pcrs := by
  obtain ⟨s, c⟩ := r
  unfold cleanup
  simp only
  by_cases h0 : c = .out <;> by_cases h1 : s.bin = true <;> cases h2 : s.bdata <;>
    by_cases h3 : s.b64 = true <;> simp [h0, h1, h2, h3, bdataFrees]

theorem sealBindings_cleanup (r : St × Ctl) : sealBindings (cleanupEvents r) = [] := by
  unfold sealBindings
  rw [List.filterMap_eq_nil_iff]
  intro e he
  have := (cleanupEvents_all r e he).1
  obtain ⟨c, ok⟩ := e
  cases c <;> simp_all [Call.isCleanup]

theorem sealBindings_of_parse {tr1 tr2 : List Event}
    (h : Extends (fun e => e.call.isParseCall = true) tr1 tr2) :
    sealBindings tr2 = sealBindings tr1 := by
  obtain ⟨evs, rfl, hall⟩ := h
  have : sealBindings evs = [] := by
    unfold sealBindings
    rw [List.filterMap_eq_nil_iff]
    intro e he
    have := hall e he
    obtain ⟨c, ok⟩ := e
    cases c <;> simp_all [Call.isParseCall]
  simp only [sealBindings, List.filterMap_append] at this ⊢
  rw [this, List.append_nil]

/-- Either the seal primitive is never invoked, or the first three statements and
the option handling have succeeded and `main` goes on from the state they left. -/
theorem main_opt_cases (K : SealConsts) (E : BlockFn) (env : Env) :
    sealBindings (main K E env).trace = [] ∨
    ∃ s3 : St, s3.hPcrs = NULL_HPCRS ∧ s3.pcrs = [] ∧ createCalls s3.trace = [] ∧
      setCalls s3.trace = [] ∧ sealBindings s3.trace = [] ∧ keyCreateBindings s3.trace = [] ∧
      (genericOptHandler env env.opts s3).2 = 0 ∧
      main K E env = cleanup (runSteps
        ((setupSteps K env).drop 4 ++ (outputSteps K E env ++ finishSteps K env))
        ((genericOptHandler env env.opts s3).1.log .genericOptHandler true)) := by
  have hsplit : mainSteps K E env =
      callVal (fun _ => .contextCreate) env.contextCreate
        (fun h s => { s with hContext := h }) .out ::
      callChk (fun s => .contextConnect s.hContext) env.contextConnect .out_close ::
      callVal (fun s => .contextGetTpm s.hContext) env.contextGetTpm
        (fun h s => { s with hTpm := h }) .out_close ::
      (fun s =>
        let r := genericOptHandler env env.opts s
        if r.2 ≠ 0 then (r.1.log .genericOptHandler false, .out_close)
        else (r.1.log .genericOptHandler true, .next)) ::
      ((setupSteps K env).drop 4 ++ (outputSteps K E env ++ finishSteps K env)) := rfl
  unfold main
  rw [hsplit]
  cases h1 : env.contextCreate with
  | none => left; rfl
  | some hc =>
    cases h2 : env.contextConnect with
    | false =>
      left
      simp only [runSteps, callVal_some, callChk, h2]
      rw [cleanup_trace, sealBindings, List.filterMap_append]
      have := sealBindings_cleanup
      simp only [sealBindings] at this
      rw [this]
      rfl
    | true =>
      cases h3 : env.contextGetTpm with
      | none =>
        left
        simp only [runSteps, callVal_some, callVal_none, callChk, h2, if_true]
        rw [cleanup_trace, sealBindings, List.filterMap_append]
        have := sealBindings_cleanup
        simp only [sealBindings] at this
        rw [this]
        rfl
      | some ht =>
        obtain ⟨s3, hs3⟩ : ∃ s3 : St, s3 =
            { ({ (({} : St).log .contextCreate true) with hContext := hc }.log
              (.contextConnect hc) true).log (.contextGetTpm hc) true with hTpm := ht } :=
          ⟨_, rfl⟩
        have hs3' : s3.hPcrs = NULL_HPCRS ∧ s3.pcrs = [] ∧ createCalls s3.trace = [] ∧
            setCalls s3.trace = [] ∧ sealBindings s3.trace = [] ∧
            keyCreateBindings s3.trace = [] := by
          subst hs3
          exact ⟨rfl, rfl, rfl, rfl, rfl, rfl⟩
        by_cases hrc : (genericOptHandler env env.opts s3).2 = 0
        · right
          refine ⟨s3, hs3'.1, hs3'.2.1, hs3'.2.2.1, hs3'.2.2.2.1, hs3'.2.2.2.2.1, hs3'.2.2.2.2.2,
            hrc, ?_⟩
          have hrun : runSteps
              (callVal (fun _ => .contextCreate) (some hc)
                (fun h s => { s with hContext := h }) .out ::
              callChk (fun s => .contextConnect s.hContext) true .out_close ::
              callVal (fun s => .contextGetTpm s.hContext) (some ht)
                (fun h s => { s with hTpm := h }) .out_close ::
              (fun s =>
                let r := genericOptHandler env env.opts s
                if r.2 ≠ 0 then (r.1.log .genericOptHandler false, .out_close)
                else (r.1.log .genericOptHandler true, .next)) ::
              ((setupSteps K env).drop 4 ++ (outputSteps K E env ++ finishSteps K env))) {} =
              runSteps ((setupSteps K env).drop 4 ++ (outputSteps K E env ++ finishSteps K env))
                ((genericOptHandler env env.opts s3).1.log .genericOptHandler true) := by
            have e4 : (fun s =>
                let r := genericOptHandler env env.opts s
                if r.2 ≠ 0 then (r.1.log .genericOptHandler false, Ctl.out_close)
                else (r.1.log .genericOptHandler true, Ctl.next)) s3 =
                ((genericOptHandler env env.opts s3).1.log .genericOptHandler true, .next) := by
              simp only [ne_eq, hrc, not_true_eq_false, if_false]
            show (match (fun s =>
                let r := genericOptHandler env env.opts s
                if r.2 ≠ 0 then (r.1.log .genericOptHandler false, Ctl.out_close)
                else (r.1.log .genericOptHandler true, Ctl.next))
                  ({ ({ (({} : St).log .contextCreate true) with hContext := hc }.log
              (.contextConnect hc) true).log (.contextGetTpm hc) true with hTpm := ht }) with
              | (s1, .next) => runSteps _ s1
              | r => r) = _
            rw [← hs3, e4]
          rw [hrun]
        · left
          have hrun : runSteps
              (callVal (fun _ => .contextCreate) (some hc)
                (fun h s => { s with hContext := h }) .out ::
              callChk (fun s => .contextConnect s.hContext) true .out_close ::
              callVal (fun s => .contextGetTpm s.hContext) (some ht)
                (fun h s => { s with hTpm := h }) .out_close ::
              (fun s =>
                let r := genericOptHandler env env.opts s
                if r.2 ≠ 0 then (r.1.log .genericOptHandler false, .out_close)
                else (r.1.log .genericOptHandler true, .next)) ::
              ((setupSteps K env).drop 4 ++ (outputSteps K E env ++ finishSteps K env))) {} =
              ((genericOptHandler env env.opts s3).1.log .genericOptHandler false, .out_close) := by
            have e4 : (fun s =>
                let r := genericOptHandler env env.opts s
                if r.2 ≠ 0 then (r.1.log .genericOptHandler false, Ctl.out_close)
                else (r.1.log .genericOptHandler true, Ctl.next)) s3 =
                ((genericOptHandler env env.opts s3).1.log .genericOptHandler false,
                  .out_close) := by
              simp only [ne_eq, hrc, not_false_eq_true, if_true]
            show (match (fun s =>
                let r := genericOptHandler env env.opts s
                if r.2 ≠ 0 then (r.1.log .genericOptHandler false, Ctl.out_close)
                else (r.1.log .genericOptHandler true, Ctl.next))
                  ({ ({ (({} : St).log .contextCreate true) with hContext := hc }.log
              (.contextConnect hc) true).log (.contextGetTpm hc) true with hTpm := ht }) with
              | (s1, .next) => runSteps _ s1
              | r => r) = _
            rw [← hs3, e4]
          rw [hrun, cleanup_trace, sealBindings, List.filterMap_append]
          have := sealBindings_cleanup
          simp only [sealBindings] at this
          rw [this, List.append_nil, log_trace, List.filterMap_append]
          have h4 := sealBindings_of_parse
            ((genericOptHandler_trace env env.opts s3).mono (fun e he => he.1))
          simp only [sealBindings] at h4
          rw [h4]
          have h5 := hs3'.2.2.2.2.1
          simp only [sealBindings] at h5
          rw [h5]
          rfl

theorem postOpt_no_create (h : Handle) (e : Event) (he : postOpt h e = true) :
    (match e.call with
      | .Tspi_Context_CreateObject _ .TSS_OBJECT_TYPE_PCRS => true
      | _ => false) = false := by
  obtain ⟨c, ok⟩ := e
  cases c <;> simp_all [postOpt]

theorem postOpt_no_set (h : Handle) (e : Event) (he : postOpt h e = true) :
    (match e.call with
      | .Tspi_PcrComposite_SetPcrValue h i _ v => some (h, i, v)
      | _ => none) = none := by
  obtain ⟨c, ok⟩ := e
  cases c <;> simp_all [postOpt]

theorem postOpt_seal (h : Handle) (e : Event) (he : postOpt h e = true) (hp : Handle)
    (hb : (match e.call with
      | .dataSeal _ _ _ _ x => some x
      | _ => none) = some hp) : hp = h := by
  obtain ⟨c, ok⟩ := e
  cases c <;> simp_all [postOpt]

theorem postOpt_keyCreate (h : Handle) (e : Event) (he : postOpt h e = true) (hp : Handle)
    (hb : (match e.call with
      | .keyCreateKey _ _ x => some x
      | _ => none) = some hp) : hp = NULL_HPCRS := by
  obtain ⟨c, ok⟩ := e
  cases c <;> simp_all [postOpt]

theorem postOpt_traces {h : Handle} {tr1 tr2 : List Event}
    (hx : Extends (fun e => postOpt h e = true) tr1 tr2) :
    createCalls tr2 = createCalls tr1 ∧ setCalls tr2 = setCalls tr1 ∧
    (∀ hp ∈ sealBindings tr2, hp ∈ sealBindings tr1 ∨ hp = h) ∧
    (∀ hp ∈ keyCreateBindings tr2, hp ∈ keyCreateBindings tr1 ∨ hp = NULL_HPCRS) := by
  obtain ⟨evs, rfl, hall⟩ := hx
  refine ⟨?_, ?_, ?_, ?_⟩
  · have : createCalls evs = [] := by
      unfold createCalls
      rw [List.filter_eq_nil_iff]
      intro e he
      rw [postOpt_no_create h e (hall e he)]
      exact Bool.false_ne_true
    simp only [createCalls, List.filter_append] at this ⊢
    rw [this, List.append_nil]
  · have : setCalls evs = [] := by
      unfold setCalls
      rw [List.filterMap_eq_nil_iff]
      intro e he
      exact postOpt_no_set h e (hall e he)
    simp only [setCalls, List.filterMap_append] at this ⊢
    rw [this, List.append_nil]
  · intro hp hmem
    simp only [sealBindings, List.filterMap_append, List.mem_append] at hmem ⊢
    rcases hmem with hmem | hmem
    · exact Or.inl hmem
    · right
      obtain ⟨e, he, hbe⟩ := List.mem_filterMap.mp hmem
      exact postOpt_seal h e (hall e he) hp hbe
  · intro hp hmem
    simp only [keyCreateBindings, List.filterMap_append, List.mem_append] at hmem ⊢
    rcases hmem with hmem | hmem
    · exact Or.inl hmem
    · right
      obtain ⟨e, he, hbe⟩ := List.mem_filterMap.mp hmem
      exact postOpt_keyCreate h e (hall e he) hp hbe

theorem isCleanup_postOpt (h : Handle) (e : Event) (he : e.call.isCleanup = true) :
    postOpt h e = true := by
  obtain ⟨c, ok⟩ := e
  cases c <;> simp_all [Call.isCleanup, postOpt]

/-- C9: in every run in which the seal primitive is invoked, its platform binding is
the file-scope `hPcrs`, whose measurement set is the one built by the register
options; with no register option that is the null binding, with one or more it is
the single composite object, created once, that all of them populated; the wrapping
key is created with the null binding. (A composite handle returned by the anchor is
assumed to differ from the null handle.) -/
theorem C9_seal_binding (K : SealConsts) (E : BlockFn) (env : Env)
    (hvalid : env.createPcrs ≠ some NULL_HPCRS)
    (hseal : sealBindings (main K E env).trace ≠ []) :
    (∀ hp ∈ sealBindings (main K E env).trace, hp = (main K E env).hPcrs) ∧
    (main K E env).pcrs = (pcrArgs env.opts).foldl (bindArg env) [] ∧
    setCalls (main K E env).trace = setCallsOf env (main K E env).hPcrs (pcrArgs env.opts) ∧
    (pcrArgs env.opts = [] →
      (main K E env).hPcrs = NULL_HPCRS ∧ createCalls (main K E env).trace = []) ∧
    (pcrArgs env.opts ≠ [] →
      env.createPcrs = some (main K E env).hPcrs ∧
      ∃ hContext, createCalls (main K E env).trace =
        [⟨.Tspi_Context_CreateObject hContext .TSS_OBJECT_TYPE_PCRS, true⟩]) ∧
    (∀ hp ∈ keyCreateBindings (main K E env).trace, hp = NULL_HPCRS) := by
  rcases main_opt_cases K E env with hnil | ⟨s3, a1, a2, a3, a4, a5, a6, hrc, hm⟩
  · exact absurd hnil hseal
  · obtain ⟨g1, g2, g3, g4, g5⟩ := genericOptHandler_ok env hvalid env.opts s3 hrc
    have hpost := runSteps_post _ (fun f hf => by
      rcases List.mem_append.mp hf with hf | hf
      · exact setupTail_post K env f hf
      · exact output_post K E env f hf) ((genericOptHandler env env.opts s3).1.log
        .genericOptHandler true)
    obtain ⟨p1, p2, p3⟩ := hpost
    simp only [log_hPcrs, log_pcrs, log_trace] at p1 p2 p3
    have hfin : Extends (fun e => postOpt (genericOptHandler env env.opts s3).1.hPcrs e = true)
        (genericOptHandler env env.opts s3).1.trace (main K E env).trace := by
      rw [hm, cleanup_trace]
      have e1 : Extends (fun e => postOpt (genericOptHandler env env.opts s3).1.hPcrs e = true)
          (genericOptHandler env env.opts s3).1.trace
          ((genericOptHandler env env.opts s3).1.trace ++ [⟨.genericOptHandler, true⟩]) :=
        (Extends.refl _ _).snoc (by rfl)
      exact (e1.trans p3).trans ⟨_, rfl, fun e he =>
        isCleanup_postOpt _ e (cleanupEvents_all _ e he).1⟩
    obtain ⟨q1, q2, q3, q4⟩ := postOpt_traces hfin
    have hH : (main K E env).hPcrs = (genericOptHandler env env.opts s3).1.hPcrs := by
      rw [hm, cleanup_hPcrs, p1]
    have hP : (main K E env).pcrs = (genericOptHandler env env.opts s3).1.pcrs := by
      rw [hm, cleanup_pcrs, p2]
    rw [q1, q2, hH, hP]
    refine ⟨?_, ?_, ?_, ?_, ?_, ?_⟩
    · intro hp hmem
      rcases q3 hp hmem with h | h
      · rw [g4, a5] at h
        cases h
      · exact h
    · rw [g1, a2]
    · rw [g3, a4, List.nil_append]
    · intro hno
      rcases g2 with ⟨-, -, h1, h2⟩ | ⟨-, hne, -⟩ | ⟨hne, -⟩
      · exact ⟨h1, by rw [h2, a3]⟩
      · exact absurd hno hne
      · exact absurd a1 hne
    · intro hsome
      rcases g2 with ⟨-, hno, -⟩ | ⟨-, -, h1, h2⟩ | ⟨hne, -⟩
      · exact absurd hno hsome
      · exact ⟨h1, s3.hContext, by rw [h2, a3, List.nil_append]⟩
      · exact absurd a1 hne
    · intro hp hmem
      rcases q4 hp hmem with h | h
      · rw [g5, a6] at h
        cases h
      · exact h

theorem C9_witness :
    sampleEnv.createPcrs ≠ some NULL_HPCRS ∧
    sealBindings (main sampleConsts sampleCipher sampleEnv).trace ≠ [] ∧
    ((∀ hp ∈ sealBindings (main sampleConsts sampleCipher sampleEnv).trace,
        hp = (main sampleConsts sampleCipher sampleEnv).hPcrs) ∧
     (main sampleConsts sampleCipher sampleEnv).pcrs =
        (pcrArgs sampleEnv.opts).foldl (bindArg sampleEnv) [] ∧
     setCalls (main sampleConsts sampleCipher sampleEnv).trace =
        setCallsOf sampleEnv (main sampleConsts sampleCipher sampleEnv).hPcrs
          (pcrArgs sampleEnv.opts) ∧
     (pcrArgs sampleEnv.opts = [] →
        (main sampleConsts sampleCipher sampleEnv).hPcrs = NULL_HPCRS ∧
        createCalls (main sampleConsts sampleCipher sampleEnv).trace = []) ∧
     (pcrArgs sampleEnv.opts ≠ [] →
        sampleEnv.createPcrs = some (main sampleConsts sampleCipher sampleEnv).hPcrs ∧
        ∃ hContext, createCalls (main sampleConsts sampleCipher sampleEnv).trace =
          [⟨.Tspi_Context_CreateObject hContext .TSS_OBJECT_TYPE_PCRS, true⟩]) ∧
     (∀ hp ∈ keyCreateBindings (main sampleConsts sampleCipher sampleEnv).trace,
        hp = NULL_HPCRS)) :=
  ⟨by decide, by decide, C9_seal_binding _ _ _ (by decide) (by decide)⟩

/-! ## The state after a successful set-up -/

theorem runSteps_cons_next {f : Step} {fs : List Step} {s t : St}
    (h : runSteps (f :: fs) s = (t, .next)) :
    ∃ s1, f s = (s1, .next) ∧ runSteps fs s1 = (t, .next) := by
  simp only [runSteps] at h
  rcases hf : f s with ⟨s1, c⟩
  rw [hf] at h
  cases c
  · exact ⟨s1, rfl, h⟩
  · simp at h
  · simp at h

theorem callVal_next {α : Type} {c : St → Call} {res : Option α} {store : α → St → St}
    {l : Ctl} {s s1 : St} (hl : l ≠ .next) (h : callVal c res store l s = (s1, .next)) :
    ∃ v, res = some v ∧ s1 = store v (s.log (c s) true) := by
  cases res with
  | none =>
    simp only [callVal, Prod.mk.injEq] at h
    exact absurd h.2 hl
  | some v =>
    simp only [callVal, Prod.mk.injEq, and_true] at h
    exact ⟨v, rfl, h.symm⟩

theorem callChk_next {c : St → Call} {res : Bool} {l : Ctl} {s s1 : St} (hl : l ≠ .next)
    (h : callChk c res l s = (s1, .next)) : res = true ∧ s1 = s.log (c s) true := by
  cases res with
  | false =>
    simp only [callChk, Bool.false_eq_true, if_false, Prod.mk.injEq] at h
    exact absurd h.2 hl
  | true =>
    simp only [callChk, if_true, Prod.mk.injEq, and_true] at h
    exact ⟨rfl, h.symm⟩

theorem genericOptHandler_out (env : Env) (opts : List (Char × Option (List Char)))
    (s : St) : (genericOptHandler env opts s).1.out = s.out := by
  simpa [St.sansOpts] using congrArg St.out (genericOptHandler_frame env opts s)

theorem genericOptHandler_enc_data (env : Env) (opts : List (Char × Option (List Char)))
    (s : St) : (genericOptHandler env opts s).1.enc_data = s.enc_data := by
  simpa [St.sansOpts] using congrArg St.enc_data (genericOptHandler_frame env opts s)

theorem genericOptHandler_bdata (env : Env) (opts : List (Char × Option (List Char)))
    (s : St) : (genericOptHandler env opts s).1.bdata = s.bdata := by
  simpa [St.sansOpts] using congrArg St.bdata (genericOptHandler_frame env opts s)

theorem optStep_next {env : Env} {s t : St}
    (h : (fun s =>
      let r := genericOptHandler env env.opts s
      if r.2 ≠ 0 then (r.1.log .genericOptHandler false, Ctl.out_close)
      else (r.1.log .genericOptHandler true, Ctl.next)) s = (t, .next)) :
    (genericOptHandler env env.opts s).2 = 0 ∧
      t = (genericOptHandler env env.opts s).1.log .genericOptHandler true := by
  simp only at h
  split at h
  · simp at h
  · rename_i hrc
    simp only [Prod.mk.injEq, and_true] at h
    exact ⟨by simpa using hrc, h.symm⟩

theorem condStep_next {p : St → Prop} [DecidablePred p] {c : St → Call} {res : Bool}
    {s t : St}
    (h : (fun s => if p s then (s, Ctl.next) else callChk c res .out_close s) s = (t, .next)) :
    t = s ∨ t = s.log (c s) true := by
  simp only at h
  split at h
  · simp only [Prod.mk.injEq, and_true] at h
    exact Or.inl h.symm
  · exact Or.inr (callChk_next (by decide) h).2

set_option maxHeartbeats 1000000 in
theorem setup_post (K : SealConsts) (env : Env) (s1 : St)
    (h : runSteps (setupSteps K env) {} = (s1, .next)) : SetupPost env s1 := by
  unfold setupSteps at h
  obtain ⟨t1, e1, h⟩ := runSteps_cons_next h
  obtain ⟨hc, q1, rfl⟩ := callVal_next (by decide) e1
  obtain ⟨t2, e2, h⟩ := runSteps_cons_next h
  obtain ⟨q2, rfl⟩ := callChk_next (by decide) e2
  obtain ⟨t3, e3, h⟩ := runSteps_cons_next h
  obtain ⟨ht, q3, rfl⟩ := callVal_next (by decide) e3
  obtain ⟨t4, e4, h⟩ := runSteps_cons_next h
  obtain ⟨q4, rfl⟩ := optStep_next e4
  obtain ⟨t5, e5, h⟩ := runSteps_cons_next h
  obtain ⟨u5, q5, rfl⟩ := callVal_next (by decide) e5
  obtain ⟨t6, e6, h⟩ := runSteps_cons_next h
  have q6 := condStep_next (p := fun s => s.in_filename.length = 0) e6
  -- the state after the input has been opened: the fields that matter
  have f6 : t6.out = [] ∧ t6.enc_data = [] ∧ t6.bdata = .null := by
    rcases q6 with rfl | rfl <;>
      simp [genericOptHandler_out, genericOptHandler_enc_data, genericOptHandler_bdata]
  clear q6 e6 e5 e4 e3 e2 e1
  obtain ⟨t7, e7, h⟩ := runSteps_cons_next h
  obtain ⟨key, q7, rfl⟩ := callVal_next (by decide) e7
  obtain ⟨t8, e8, h⟩ := runSteps_cons_next h
  obtain ⟨hSrk, q8, rfl⟩ := callVal_next (by decide) e8
  obtain ⟨t9, e9, h⟩ := runSteps_cons_next h
  obtain ⟨hSrkPol, q9, rfl⟩ := callVal_next (by decide) e9
  obtain ⟨t10, e10, h⟩ := runSteps_cons_next h
  obtain ⟨q10, rfl⟩ := callChk_next (by decide) e10
  obtain ⟨t11, e11, h⟩ := runSteps_cons_next h
  obtain ⟨hKey, q11, rfl⟩ := callVal_next (by decide) e11
  obtain ⟨t12, e12, h⟩ := runSteps_cons_next h
  obtain ⟨hPol, q12, rfl⟩ := callVal_next (by decide) e12
  obtain ⟨t13, e13, h⟩ := runSteps_cons_next h
  obtain ⟨q13, rfl⟩ := callChk_next (by decide) e13
  obtain ⟨t14, e14, h⟩ := runSteps_cons_next h
  obtain ⟨q14, rfl⟩ := callChk_next (by decide) e14
  obtain ⟨t15, e15, h⟩ := runSteps_cons_next h
  obtain ⟨q15, rfl⟩ := callChk_next (by decide) e15
  obtain ⟨t16, e16, h⟩ := runSteps_cons_next h
  obtain ⟨q16, rfl⟩ := callChk_next (by decide) e16
  obtain ⟨t17, e17, h⟩ := runSteps_cons_next h
  obtain ⟨hEnc, q17, rfl⟩ := callVal_next (by decide) e17
  obtain ⟨t18, e18, h⟩ := runSteps_cons_next h
  obtain ⟨hPol2, q18, rfl⟩ := callVal_next (by decide) e18
  obtain ⟨t19, e19, h⟩ := runSteps_cons_next h
  obtain ⟨q19, rfl⟩ := callChk_next (by decide) e19
  obtain ⟨t20, e20, h⟩ := runSteps_cons_next h
  obtain ⟨q20, rfl⟩ := callChk_next (by decide) e20
  obtain ⟨t21, e21, h⟩ := runSteps_cons_next h
  obtain ⟨q21, rfl⟩ := callChk_next (by decide) e21
  obtain ⟨t22, e22, h⟩ := runSteps_cons_next h
  obtain ⟨encBlob, q22, rfl⟩ := callVal_next (by decide) e22
  obtain ⟨t23, e23, h⟩ := runSteps_cons_next h
  obtain ⟨keyBlob, q23, rfl⟩ := callVal_next (by decide) e23
  obtain ⟨t24, e24, h⟩ := runSteps_cons_next h
  obtain ⟨u24, q24, rfl⟩ := callVal_next (by decide) e24
  obtain ⟨t25, e25, h⟩ := runSteps_cons_next h
  obtain ⟨u25, q25, rfl⟩ := callVal_next (by decide) e25
  obtain ⟨t26, e26, h⟩ := runSteps_cons_next h
  have q26 := condStep_next (p := fun s => s.out_filename.length = 0) e26
  simp only [runSteps, Prod.mk.injEq, and_true] at h
  subst h
  obtain ⟨f1, f2, f3⟩ := f6
  rcases q26 with rfl | rfl
  · exact ⟨by simp [f1], by simp [f2], by simp, ⟨key, q7, by simp⟩,
      ⟨hKey, keyBlob, q11, q23, by simp, by simp⟩,
      ⟨hEnc, encBlob, q17, q22, by simp, by simp⟩⟩
  · exact ⟨by simp [f1], by simp [f2], by simp, ⟨key, q7, by simp⟩,
      ⟨hKey, keyBlob, q11, q23, by simp, by simp⟩,
      ⟨hEnc, encBlob, q17, q22, by simp, by simp⟩⟩

/-! ## The output section -/

theorem base64_eq_update (t : List Byte) :
    base64 t = (EVP_EncodeUpdate [] t).1 ++ EVP_EncodeFinal (EVP_EncodeUpdate [] t).2 := by
  have h := EVP_EncodeUpdate_stream [] t
  rw [b64State_nil] at h
  simp only [List.nil_append] at h
  rw [base64_eq, ← h.1, ← h.2]

@[simp] theorem bioSend_sealKey (d : List Byte) (ok : Bool) (s : St) :
    (bioSend d ok s).sealKey = s.sealKey := by
  unfold bioSend; split <;> (try split) <;> rfl

@[simp] theorem bioSend_encKey (d : List Byte) (ok : Bool) (s : St) :
    (bioSend d ok s).encKey = s.encKey := by
  unfold bioSend; split <;> (try split) <;> rfl

@[simp] theorem bioSend_hPcrs (d : List Byte) (ok : Bool) (s : St) :
    (bioSend d ok s).hPcrs = s.hPcrs := by
  unfold bioSend; split <;> (try split) <;> rfl

@[simp] theorem bioSend_pcrs (d : List Byte) (ok : Bool) (s : St) :
    (bioSend d ok s).pcrs = s.pcrs := by
  unfold bioSend; split <;> (try split) <;> rfl

theorem bioSend_out_file (d : List Byte) (ok : Bool) (s : St) (h : s.bdata = .file) :
    (bioSend d ok s).out = s.out ++ (if ok then d else []) := by
  unfold bioSend
  cases ok <;> simp [h]

theorem bioSend_enc_data_file (d : List Byte) (ok : Bool) (s : St) (h : s.bdata = .file) :
    (bioSend d ok s).enc_data = s.enc_data := by
  unfold bioSend
  cases ok <;> simp [h]

theorem bioSend_out_b64 (d : List Byte) (ok : Bool) (s : St) (h : s.bdata = .b64chain) :
    (bioSend d ok s).out = s.out ++ (if ok then (EVP_EncodeUpdate s.enc_data d).1 else []) := by
  unfold bioSend
  cases ok <;> simp [h]

theorem bioSend_enc_data_b64 (d : List Byte) (ok : Bool) (s : St) (h : s.bdata = .b64chain) :
    (bioSend d ok s).enc_data = if ok then (EVP_EncodeUpdate s.enc_data d).2 else s.enc_data := by
  unfold bioSend
  cases ok <;> simp [h]

@[simp] theorem BIO_puts_sealKey (K : SealConsts) (env : Env) (m : Marker) (s : St) :
    (BIO_puts K env m s).sealKey = s.sealKey := by
  simp [BIO_puts]

@[simp] theorem BIO_puts_encKey (K : SealConsts) (env : Env) (m : Marker) (s : St) :
    (BIO_puts K env m s).encKey = s.encKey := by
  simp [BIO_puts]

@[simp] theorem BIO_puts_randKey (K : SealConsts) (env : Env) (m : Marker) (s : St) :
    (BIO_puts K env m s).randKey = s.randKey := by
  simp [BIO_puts]

@[simp] theorem BIO_puts_ctx (K : SealConsts) (env : Env) (m : Marker) (s : St) :
    (BIO_puts K env m s).ctx = s.ctx := by
  simp [BIO_puts]

@[simp] theorem BIO_puts_iRc (K : SealConsts) (env : Env) (m : Marker) (s : St) :
    (BIO_puts K env m s).iRc = s.iRc := by
  simp [BIO_puts]

@[simp] theorem BIO_puts_hPcrs (K : SealConsts) (env : Env) (m : Marker) (s : St) :
    (BIO_puts K env m s).hPcrs = s.hPcrs := by
  simp [BIO_puts]

@[simp] theorem BIO_puts_pcrs (K : SealConsts) (env : Env) (m : Marker) (s : St) :
    (BIO_puts K env m s).pcrs = s.pcrs := by
  simp [BIO_puts]

@[simp] theorem BIO_puts_bdata (K : SealConsts) (env : Env) (m : Marker) (s : St) :
    (BIO_puts K env m s).bdata = s.bdata := by
  simp [BIO_puts]

@[simp] theorem BIO_write_sealKey (d : List Byte) (ok : Bool) (s : St) :
    (BIO_write d ok s).sealKey = s.sealKey := by
  simp [BIO_write]

@[simp] theorem BIO_write_encKey (d : List Byte) (ok : Bool) (s : St) :
    (BIO_write d ok s).encKey = s.encKey := by
  simp [BIO_write]

@[simp] theorem BIO_write_randKey (d : List Byte) (ok : Bool) (s : St) :
    (BIO_write d ok s).randKey = s.randKey := by
  simp [BIO_write]

@[simp] theorem BIO_write_ctx (d : List Byte) (ok : Bool) (s : St) :
    (BIO_write d ok s).ctx = s.ctx := by
  simp [BIO_write]

@[simp] theorem BIO_write_iRc (d : List Byte) (ok : Bool) (s : St) :
    (BIO_write d ok s).iRc = s.iRc := by
  simp [BIO_write]

@[simp] theorem BIO_write_hPcrs (d : List Byte) (ok : Bool) (s : St) :
    (BIO_write d ok s).hPcrs = s.hPcrs := by
  simp [BIO_write]

@[simp] theorem BIO_write_pcrs (d : List Byte) (ok : Bool) (s : St) :
    (BIO_write d ok s).pcrs = s.pcrs := by
  simp [BIO_write]

@[simp] theorem BIO_write_bdata (d : List Byte) (ok : Bool) (s : St) :
    (BIO_write d ok s).bdata = s.bdata := by
  simp [BIO_write]

@[simp] theorem BIO_puts_trace (K : SealConsts) (env : Env) (m : Marker) (s : St) :
    (BIO_puts K env m s).trace = s.trace ++ [⟨.BIO_puts m, env.puts m⟩] := by
  simp [BIO_puts]

@[simp] theorem BIO_write_trace (d : List Byte) (ok : Bool) (s : St) :
    (BIO_write d ok s).trace = s.trace ++ [⟨.BIO_write d, ok⟩] := by
  simp [BIO_write]

theorem BIO_puts_out_file (K : SealConsts) (env : Env) (m : Marker) (s : St)
    (h : s.bdata = .file) :
    (BIO_puts K env m s).out = s.out ++ (if env.puts m then K.text m else []) := by
  simp [BIO_puts, bioSend_out_file _ _ _ h]

theorem BIO_puts_enc_data_file (K : SealConsts) (env : Env) (m : Marker) (s : St)
    (h : s.bdata = .file) : (BIO_puts K env m s).enc_data = s.enc_data := by
  simp [BIO_puts, bioSend_enc_data_file _ _ _ h]

theorem BIO_write_out_b64 (d : List Byte) (ok : Bool) (s : St) (h : s.bdata = .b64chain) :
    (BIO_write d ok s).out =
      s.out ++ (if ok then (EVP_EncodeUpdate s.enc_data d).1 else []) := by
  simp [BIO_write, bioSend_out_b64 _ _ _ h]

theorem BIO_write_enc_data_b64 (d : List Byte) (ok : Bool) (s : St) (h : s.bdata = .b64chain) :
    (BIO_write d ok s).enc_data =
      if ok then (EVP_EncodeUpdate s.enc_data d).2 else s.enc_data := by
  simp [BIO_write, bioSend_enc_data_b64 _ _ _ h]

@[simp] theorem BIO_push_bdata (s : St) : (BIO_push s).bdata = .b64chain := rfl

@[simp] theorem BIO_pop_bdata (s : St) : (BIO_pop s).bdata = .file := rfl

@[simp] theorem BIO_push_trace (s : St) : (BIO_push s).trace = s.trace ++ [⟨.BIO_push, true⟩] :=
  rfl

@[simp] theorem BIO_pop_trace (s : St) : (BIO_pop s).trace = s.trace ++ [⟨.BIO_pop, true⟩] :=
  rfl

@[simp] theorem BIO_push_sealKey (s : St) : (BIO_push s).sealKey = s.sealKey := rfl

@[simp] theorem BIO_push_encKey (s : St) : (BIO_push s).encKey = s.encKey := rfl

@[simp] theorem BIO_push_randKey (s : St) : (BIO_push s).randKey = s.randKey := rfl

@[simp] theorem BIO_push_ctx (s : St) : (BIO_push s).ctx = s.ctx := rfl

@[simp] theorem BIO_push_iRc (s : St) : (BIO_push s).iRc = s.iRc := rfl

@[simp] theorem BIO_push_hPcrs (s : St) : (BIO_push s).hPcrs = s.hPcrs := rfl

@[simp] theorem BIO_push_pcrs (s : St) : (BIO_push s).pcrs = s.pcrs := rfl

@[simp] theorem BIO_push_out (s : St) : (BIO_push s).out = s.out := rfl

@[simp] theorem BIO_push_enc_data (s : St) : (BIO_push s).enc_data = s.enc_data := rfl

@[simp] theorem BIO_pop_sealKey (s : St) : (BIO_pop s).sealKey = s.sealKey := rfl

@[simp] theorem BIO_pop_encKey (s : St) : (BIO_pop s).encKey = s.encKey := rfl

@[simp] theorem BIO_pop_randKey (s : St) : (BIO_pop s).randKey = s.randKey := rfl

@[simp] theorem BIO_pop_ctx (s : St) : (BIO_pop s).ctx = s.ctx := rfl

@[simp] theorem BIO_pop_iRc (s : St) : (BIO_pop s).iRc = s.iRc := rfl

@[simp] theorem BIO_pop_hPcrs (s : St) : (BIO_pop s).hPcrs = s.hPcrs := rfl

@[simp] theorem BIO_pop_pcrs (s : St) : (BIO_pop s).pcrs = s.pcrs := rfl

@[simp] theorem BIO_pop_out (s : St) : (BIO_pop s).out = s.out := rfl

@[simp] theorem BIO_pop_enc_data (s : St) : (BIO_pop s).enc_data = s.enc_data := rfl

@[simp] theorem BIO_flush_sealKey (ok : Bool) (s : St) : (BIO_flush ok s).1.sealKey = s.sealKey := by
  unfold BIO_flush
  cases ok
  · rfl
  · simp only [if_true]; split <;> rfl

@[simp] theorem BIO_flush_encKey (ok : Bool) (s : St) : (BIO_flush ok s).1.encKey = s.encKey := by
  unfold BIO_flush
  cases ok
  · rfl
  · simp only [if_true]; split <;> rfl

@[simp] theorem BIO_flush_ctx (ok : Bool) (s : St) : (BIO_flush ok s).1.ctx = s.ctx := by
  unfold BIO_flush
  cases ok
  · rfl
  · simp only [if_true]; split <;> rfl

@[simp] theorem BIO_flush_hPcrs (ok : Bool) (s : St) : (BIO_flush ok s).1.hPcrs = s.hPcrs := by
  unfold BIO_flush
  cases ok
  · rfl
  · simp only [if_true]; split <;> rfl

@[simp] theorem BIO_flush_pcrs (ok : Bool) (s : St) : (BIO_flush ok s).1.pcrs = s.pcrs := by
  unfold BIO_flush
  cases ok
  · rfl
  · simp only [if_true]; split <;> rfl

@[simp] theorem BIO_flush_bdata (ok : Bool) (s : St) : (BIO_flush ok s).1.bdata = s.bdata := by
  unfold BIO_flush
  cases ok
  · rfl
  · simp only [if_true]; split <;> rfl

theorem BIO_flush_out_b64 (s : St) (h : s.bdata = .b64chain) :
    (BIO_flush true s).1.out = s.out ++ EVP_EncodeFinal s.enc_data := by
  simp [BIO_flush, h]

theorem BIO_flush_enc_data_b64 (s : St) (h : s.bdata = .b64chain) :
    (BIO_flush true s).1.enc_data = [] := by
  simp [BIO_flush, h]

theorem BIO_flush_false (s : St) : (BIO_flush false s).1 = s.log .BIO_flush false := rfl

theorem outputSteps_split (K : SealConsts) (E : BlockFn) (env : Env) :
    outputSteps K E env = outA K E env ++ outB K E env :=
  (List.take_append_drop 15 _).symm

set_option maxHeartbeats 1000000 in
/-- The key section and the sealed-key section when both flushes succeed. -/
theorem outA_ok (K : SealConsts) (E : BlockFn) (env : Env) (s : St)
    (hb : s.bdata = .file) (he : s.enc_data = [])
    (hf1 : env.flush_sealKey = true) (hf2 : env.flush_encKey = true) :
    (runSteps (outA K E env) s).2 = .next ∧
    (runSteps (outA K E env) s).1.bdata = .b64chain ∧
    (runSteps (outA K E env) s).1.enc_data = [] ∧
    (runSteps (outA K E env) s).1.randKey = s.randKey ∧
    (runSteps (outA K E env) s).1.iRc = s.iRc ∧
    (runSteps (outA K E env) s).1.trace = s.trace ++
      [⟨.BIO_puts .HDR, env.puts .HDR⟩, ⟨.BIO_puts .TSS, env.puts .TSS⟩, ⟨.BIO_push, true⟩,
       ⟨.BIO_write s.sealKey, env.write_sealKey⟩, ⟨.BIO_flush, true⟩, ⟨.BIO_pop, true⟩,
       ⟨.BIO_puts .EVP, env.puts .EVP⟩, ⟨.BIO_puts .KEYTYPE_SYM, env.puts .KEYTYPE_SYM⟩,
       ⟨.BIO_puts .CIPHER_AES256CBC, env.puts .CIPHER_AES256CBC⟩, ⟨.BIO_push, true⟩,
       ⟨.BIO_write s.encKey, env.write_encKey⟩, ⟨.BIO_flush, true⟩, ⟨.BIO_pop, true⟩,
       ⟨.BIO_puts .ENC, env.puts .ENC⟩, ⟨.BIO_push, true⟩] ∧
    ((∀ m, env.puts m = true) → env.write_sealKey = true → env.write_encKey = true →
      (runSteps (outA K E env) s).1.out = s.out ++
        (K.TPMSEAL_HDR_STRING ++ K.TPMSEAL_TSS_STRING ++ base64 s.sealKey ++
         K.TPMSEAL_EVP_STRING ++ K.TPMSEAL_KEYTYPE_SYM ++ K.TPMSEAL_CIPHER_AES256CBC ++
         base64 s.encKey ++ K.TPMSEAL_ENC_STRING)) := by
  simp only [outA, outputSteps, List.take_succ_cons, List.take_zero, runSteps, act, flushChk_eq,
    hf1, hf2, if_true]
  refine ⟨trivial, ?_, ?_, ?_, ?_, ?_, ?_⟩
  · simp
  · simp [BIO_puts_enc_data_file, BIO_flush_enc_data_b64]
  · simp
  · simp
  · simp
  · intro hp hw1 hw2
    simp [BIO_puts_out_file, BIO_puts_enc_data_file, BIO_write_out_b64, BIO_write_enc_data_b64,
      BIO_flush_out_b64, BIO_flush_enc_data_b64, hb, he, hp, hw1, hw2, base64_eq_update,
      SealConsts.text]

theorem cipherPieces_append (a b : List Event) :
    cipherPieces (a ++ b) = cipherPieces a ++ cipherPieces b := by
  simp [cipherPieces, List.filterMap_append]

theorem cipherLens_append (a b : List Event) :
    cipherLens (a ++ b) = cipherLens a ++ cipherLens b := by
  simp [cipherLens, List.filterMap_append]

theorem writesOf_append (a b : List Event) : writesOf (a ++ b) = writesOf a ++ writesOf b := by
  simp [writesOf, List.filterMap_append]

theorem isInit_append (a b : List Event) : (a ++ b).any isInit = (a.any isInit || b.any isInit) :=
  List.any_append

/-- The effect of the loop on the cipher context and on the trace. -/
theorem encryptLoop_cipher (E : BlockFn) (env : Env) :
    ∀ (rs : List ReadResult) (i : Nat) (s : St),
      (encryptLoop E env i rs s).ctx = loopCtx E s.ctx rs ∧
      cipherPieces (encryptLoop E env i rs s).trace =
        cipherPieces s.trace ++ loopPieces E s.ctx rs ∧
      cipherLens (encryptLoop E env i rs s).trace = cipherLens s.trace ++ loopLens E s.ctx rs ∧
      writesOf (encryptLoop E env i rs s).trace = writesOf s.trace ++ loopPieces E s.ctx rs ∧
      (encryptLoop E env i rs s).trace.any isInit = s.trace.any isInit ∧
      (encryptLoop E env i rs s).randKey = s.randKey ∧
      (encryptLoop E env i rs s).bdata = s.bdata ∧
      (encryptLoop E env i rs s).iRc = s.iRc
  | [], i, s => by
      simp [encryptLoop, loopCtx, loopPieces, loopLens, cipherPieces, cipherLens, writesOf,
        isInit, List.filterMap_append, List.any_append]
  | r :: rs, i, s => by
      by_cases h : r.lineLen > 0
      · simp only [encryptLoop, log_lineLen, h, if_true, loopCtx, loopPieces, loopLens]
        obtain ⟨a1, a2, a3, a4, a5, a6, a7, a8⟩ := encryptLoop_cipher E env rs (i + 1)
          (BIO_write
            ((EVP_EncryptUpdate E s.ctx r.bytes).1.take (EVP_EncryptUpdate E s.ctx r.bytes).2.1)
            (env.write_data i)
            ({ ({ { s with lineLen := r.lineLen }.log (.BIO_read r.lineLen)
                    (decide (0 ≤ r.lineLen)) with line := r.bytes }) with
                encData := (EVP_EncryptUpdate E s.ctx r.bytes).1,
                encDataLen := (EVP_EncryptUpdate E s.ctx r.bytes).2.1,
                ctx := (EVP_EncryptUpdate E s.ctx r.bytes).2.2 }.log
              (.EVP_EncryptUpdate r.bytes.length (EVP_EncryptUpdate E s.ctx r.bytes).1
                (EVP_EncryptUpdate E s.ctx r.bytes).2.1) true))
        refine ⟨a1.trans ?_, a2.trans ?_, a3.trans ?_, a4.trans ?_, a5.trans ?_, a6.trans ?_,
          a7.trans ?_, a8.trans ?_⟩
        · simp
        · simp [cipherPieces, List.filterMap_append]
        · simp [cipherLens, List.filterMap_append]
        · simp [writesOf, List.filterMap_append]
        · simp [isInit, List.any_append]
        · simp
        · simp
        · simp
      · simp [encryptLoop, h, loopCtx, loopPieces, loopLens, cipherPieces, cipherLens, writesOf,
          isInit, List.filterMap_append, List.any_append]

theorem payload_cons_pos (r : ReadResult) (rs : List ReadResult) (h : r.lineLen > 0) :
    payload (r :: rs) = r.bytes ++ payload rs := by
  simp [payload, h]

theorem payload_cons_nonpos (r : ReadResult) (rs : List ReadResult) (h : ¬ r.lineLen > 0) :
    payload (r :: rs) = [] := by
  simp [payload, h]

/-- The pieces of the loop, put together, extend the ciphertext of what was fed
before to the ciphertext of that followed by the payload. -/
theorem loop_stream (E : BlockFn) (key : List Byte) (iv0 : Block) :
    ∀ (rs : List ReadResult) (t : List Byte) (ctx : EVP_CIPHER_CTX),
      CtxAfter E key iv0 t ctx →
      (cbc_encrypt E key iv0 (t.length / BLOCK_SIZE) t).1 ++ (loopPieces E ctx rs).flatten =
        (cbc_encrypt E key iv0 ((t ++ payload rs).length / BLOCK_SIZE) (t ++ payload rs)).1 ∧
      CtxAfter E key iv0 (t ++ payload rs) (loopCtx E ctx rs) ∧
      (loopLens E ctx rs).sum + BLOCK_SIZE * (t.length / BLOCK_SIZE) =
        BLOCK_SIZE * ((t ++ payload rs).length / BLOCK_SIZE) ∧
      (loopPieces E ctx rs).map List.length = loopLens E ctx rs
  | [], t, ctx, h => by
      simp [loopPieces, loopCtx, loopLens, payload, h]
  | r :: rs, t, ctx, h => by
      by_cases hr : r.lineLen > 0
      · obtain ⟨u1, u2, u3, u4⟩ := EVP_EncryptUpdate_stream E key iv0 t r.bytes ctx h
        obtain ⟨v1, v2, v3, v4⟩ := loop_stream E key iv0 rs (t ++ r.bytes) _ u2
        have hlen : BLOCK_SIZE * ((t ++ r.bytes).length / BLOCK_SIZE) =
            BLOCK_SIZE * (t.length / BLOCK_SIZE) + (EVP_EncryptUpdate E ctx r.bytes).2.1 := by
          have e1 := congrArg List.length u1
          rw [List.length_append, cbc_encrypt_length, cbc_encrypt_length, ← u3] at e1
          exact e1.symm
        have htake : (EVP_EncryptUpdate E ctx r.bytes).1.take
            (EVP_EncryptUpdate E ctx r.bytes).2.1 = (EVP_EncryptUpdate E ctx r.bytes).1 := by
          rw [u3]; exact List.take_length _
        simp only [loopPieces, loopCtx, loopLens, hr, if_true, payload_cons_pos r rs hr,
          List.flatten_cons, List.sum_cons, List.map_cons, htake]
        rw [← List.append_assoc t, ← List.append_assoc, u1]
        refine ⟨v1, v2, ?_, ?_⟩
        · rw [← v3, hlen]; ring
        · rw [v4, u3]
      · simp only [loopPieces, loopCtx, loopLens, hr, if_false, payload_cons_nonpos r rs hr,
          List.flatten_nil, List.append_nil, List.sum_nil, List.map_nil, Nat.zero_add]
        exact ⟨trivial, h, trivial, trivial⟩

/-- Feeding a list of pieces to the base64 filter, one `BIO_write` each. -/
theorem b64_feed (t x : List Byte) :
    (b64State t).1 ++ (EVP_EncodeUpdate (b64State t).2 x).1 = (b64State (t ++ x)).1 ∧
    (EVP_EncodeUpdate (b64State t).2 x).2 = (b64State (t ++ x)).2 :=
  EVP_EncodeUpdate_stream t x

/-- The effect of the loop on the output when every write succeeds: the text
emitted and the bytes pending are those of the filter fed with all the pieces. -/
theorem encryptLoop_out (E : BlockFn) (env : Env) (hw : ∀ i, env.write_data i = true) :
    ∀ (rs : List ReadResult) (i : Nat) (s : St) (o t : List Byte),
      s.bdata = .b64chain → s.out = o ++ (b64State t).1 → s.enc_data = (b64State t).2 →
      (encryptLoop E env i rs s).out =
        o ++ (b64State (t ++ (loopPieces E s.ctx rs).flatten)).1 ∧
      (encryptLoop E env i rs s).enc_data =
        (b64State (t ++ (loopPieces E s.ctx rs).flatten)).2
  | [], i, s, o, t, _, ho, he => by
      simp [encryptLoop, loopPieces, ho, he]
  | r :: rs, i, s, o, t, hb, ho, he => by
      by_cases h : r.lineLen > 0
      · simp only [encryptLoop, log_lineLen, h, if_true, loopPieces, List.flatten_cons]
        obtain ⟨f1, f2⟩ := b64_feed t
          ((EVP_EncryptUpdate E s.ctx r.bytes).1.take (EVP_EncryptUpdate E s.ctx r.bytes).2.1)
        have := encryptLoop_out E env hw rs (i + 1)
          (BIO_write
            ((EVP_EncryptUpdate E s.ctx r.bytes).1.take (EVP_EncryptUpdate E s.ctx r.bytes).2.1)
            (env.write_data i)
            ({ ({ { s with lineLen := r.lineLen }.log (.BIO_read r.lineLen)
                    (decide (0 ≤ r.lineLen)) with line := r.bytes }) with
                encData := (EVP_EncryptUpdate E s.ctx r.bytes).1,
                encDataLen := (EVP_EncryptUpdate E s.ctx r.bytes).2.1,
                ctx := (EVP_EncryptUpdate E s.ctx r.bytes).2.2 }.log
              (.EVP_EncryptUpdate r.bytes.length (EVP_EncryptUpdate E s.ctx r.bytes).1
                (EVP_EncryptUpdate E s.ctx r.bytes).2.1) true))
          o (t ++ (EVP_EncryptUpdate E s.ctx r.bytes).1.take
            (EVP_EncryptUpdate E s.ctx r.bytes).2.1)
          (by simp [hb])
          (by rw [BIO_write_out_b64 _ _ _ (by simp [hb])]
              simp [hw, ho, he, ← f1])
          (by rw [BIO_write_enc_data_b64 _ _ _ (by simp [hb])]
              simp [hw, he, ← f2])
        simpa [List.append_assoc] using this
      · simp [encryptLoop, h, loopPieces, ho, he]

theorem runSteps_ext (P : Event → Prop) (steps : List Step) (h : ∀ f ∈ steps, ExtStep P f) :
    ∀ s, Extends P s.trace (runSteps steps s).1.trace ∧ (runSteps steps s).1.iRc = s.iRc := by
  induction steps with
  | nil => intro s; exact ⟨Extends.refl _ _, rfl⟩
  | cons f fs ih =>
    intro s
    have hf := h f (List.mem_cons_self _ _) s
    simp only [runSteps]
    rcases hfs : f s with ⟨s1, c⟩
    rw [hfs] at hf
    cases c
    · have := ih (fun g hg => h g (List.mem_cons_of_mem _ hg)) s1
      exact ⟨hf.1.trans this.1, this.2.trans hf.2⟩
    · exact hf
    · exact hf

theorem extStep_callVal {α : Type} (P : Event → Prop) (c : St → Call) (res : Option α)
    (store : α → St → St) (l : Ctl)
    (hstore : ∀ v s, (store v s).trace = s.trace ∧ (store v s).iRc = s.iRc)
    (hc : ∀ s ok, P ⟨c s, ok⟩) : ExtStep P (callVal c res store l) := by
  intro s
  cases res with
  | none => exact ⟨(Extends.refl _ _).snoc (hc s false), rfl⟩
  | some v =>
    show Extends _ s.trace (store v (s.log (c s) true)).trace ∧
      (store v (s.log (c s) true)).iRc = s.iRc
    rw [(hstore _ _).1, (hstore _ _).2]
    exact ⟨(Extends.refl _ _).snoc (hc s true), rfl⟩

theorem extStep_callChk (P : Event → Prop) (c : St → Call) (res : Bool) (l : Ctl)
    (hc : ∀ s ok, P ⟨c s, ok⟩) : ExtStep P (callChk c res l) := by
  intro s
  cases res with
  | false => exact ⟨(Extends.refl _ _).snoc (hc s false), rfl⟩
  | true => exact ⟨(Extends.refl _ _).snoc (hc s true), rfl⟩

theorem extStep_cond (P : Event → Prop) (p : St → Prop) [DecidablePred p] (f : Step)
    (hf : ExtStep P f) : ExtStep P (fun s => if p s then (s, .next) else f s) := by
  intro s
  by_cases h : p s
  · dsimp only
    rw [if_pos h]
    exact ⟨Extends.refl _ _, rfl⟩
  · dsimp only
    rw [if_neg h]
    exact hf s

theorem extStep_opt (P : Event → Prop) (env : Env) (hP : ∀ e, isChecked e = true → P e) :
    ExtStep P (fun s =>
      let r := genericOptHandler env env.opts s
      if r.2 ≠ 0 then (r.1.log .genericOptHandler false, .out_close)
      else (r.1.log .genericOptHandler true, .next)) := by
  intro s
  have h := (genericOptHandler_trace env env.opts s).mono
    (fun e he => hP e (isParseCall_checked e he.1).1)
  have hi : (genericOptHandler env env.opts s).1.iRc = s.iRc := by
    simpa [St.sansOpts] using congrArg St.iRc (genericOptHandler_frame env env.opts s)
  dsimp only
  split
  · exact ⟨h.snoc (hP _ rfl), hi⟩
  · exact ⟨h.snoc (hP _ rfl), hi⟩

/-- Every event a set-up statement adds is the event of a checked call. -/
theorem setup_ext (K : SealConsts) (env : Env) (P : Event → Prop)
    (hP : ∀ e, isChecked e = true → P e) : ∀ f ∈ setupSteps K env, ExtStep P f := by
  intro f hf
  simp only [setupSteps, List.mem_cons, List.mem_singleton, List.not_mem_nil, or_false] at hf
  rcases hf with rfl | rfl | rfl | rfl | rfl | rfl | rfl | rfl | rfl | rfl | rfl | rfl | rfl | rfl
    | rfl | rfl | rfl | rfl | rfl | rfl | rfl | rfl | rfl | rfl | rfl | rfl
  all_goals
    first
    | exact extStep_callVal P _ _ _ _ (fun _ _ => ⟨rfl, rfl⟩) (fun _ _ => hP _ rfl)
    | exact extStep_callChk P _ _ _ (fun _ _ => hP _ rfl)
    | exact extStep_cond P _ _ (extStep_callChk P _ _ _ (fun _ _ => hP _ rfl))
    | exact extStep_opt P env hP

theorem extStep_act (P : Event → Prop) (g : St → St) (e : St → Event)
    (hg : ∀ s, (g s).trace = s.trace ++ [e s]) (hi : ∀ s, (g s).iRc = s.iRc)
    (he : ∀ s, P (e s)) : ExtStep P (act g) := by
  intro s
  show Extends P s.trace (g s).trace ∧ (g s).iRc = s.iRc
  rw [hg, hi]
  exact ⟨(Extends.refl _ _).snoc (he s), rfl⟩

theorem extStep_flushChk (P : Event → Prop) (ok : Bool) (he : ∀ b, P ⟨.BIO_flush, b⟩) :
    ExtStep P (flushChk ok) := by
  intro s
  rw [flushChk_eq]
  refine ⟨?_, BIO_flush_iRc _ _⟩
  rw [BIO_flush_trace]
  exact (Extends.refl _ _).snoc (he ok)

/-- Every event a statement of the first part of the output section adds is the
event of a BIO call. -/
theorem outA_ext (K : SealConsts) (E : BlockFn) (env : Env) (P : Event → Prop)
    (hP : ∀ e, bioEv e = true → P e) : ∀ f ∈ outA K E env, ExtStep P f := by
  intro f hf
  simp only [outA, outputSteps, List.take_succ_cons, List.take_zero, List.mem_cons,
    List.mem_singleton, List.not_mem_nil, or_false] at hf
  rcases hf with rfl | rfl | rfl | rfl | rfl | rfl | rfl | rfl | rfl | rfl | rfl | rfl | rfl
    | rfl | rfl
  all_goals
    first
    | exact extStep_flushChk P _ (fun _ => hP _ rfl)
    | exact extStep_act P _ _ (fun s => BIO_puts_trace K env _ s)
        (fun s => BIO_puts_iRc K env _ s) (fun _ => hP _ rfl)
    | exact extStep_act P _ _ (fun s => BIO_push_trace s) (fun _ => rfl) (fun _ => hP _ rfl)
    | exact extStep_act P _ _ (fun s => BIO_pop_trace s) (fun _ => rfl) (fun _ => hP _ rfl)
    | exact extStep_act P _ _ (fun s => BIO_write_trace _ _ s)
        (fun s => BIO_write_iRc _ _ s) (fun _ => hP _ rfl)

theorem outA_next_iff (K : SealConsts) (E : BlockFn) (env : Env) (s : St) :
    (runSteps (outA K E env) s).2 = .next ↔
      env.flush_sealKey = true ∧ env.flush_encKey = true := by
  cases h1 : env.flush_sealKey <;> cases h2 : env.flush_encKey <;>
    simp [outA, outputSteps, runSteps, act, flushChk_eq, h1, h2]

theorem outB_run (K : SealConsts) (E : BlockFn) (env : Env) (s : St) :
    runSteps (outB K E env) s =
      if env.flush_data then ((BIO_pop (BIO_flush true (dataRun K E env s)).1), .next)
      else ((BIO_flush false (dataRun K E env s)).1, .out_close) := by
  cases h : env.flush_data <;>
    simp [outB, outputSteps, runSteps, act, flushChk_eq, h, dataRun]

theorem finish_run (K : SealConsts) (env : Env) (s : St) :
    runSteps (finishSteps K env) s = (finish K env s, .next) := rfl

theorem isChecked_noEvp (e : Event) (h : isChecked e = true) : noEvp e = true := by
  obtain ⟨c, ok⟩ := e
  cases c <;> simp_all [isChecked, Call.checked, noEvp]

theorem bioEv_noEvp (e : Event) (h : bioEv e = true) : noEvp e = true := by
  obtain ⟨c, ok⟩ := e
  cases c <;> simp_all [bioEv, noEvp]

theorem isCleanup_noEvp (e : Event) (h : e.call.isCleanup = true) : noEvp e = true := by
  obtain ⟨c, ok⟩ := e
  cases c <;> simp_all [Call.isCleanup, noEvp]

theorem cleanupEvents_noEvp (r : St × Ctl) : (cleanupEvents r).all noEvp = true := by
  rw [List.all_eq_true]
  exact fun e he => isCleanup_noEvp e (cleanupEvents_all r e he).1

/-- Either no cipher call is made at all and `main` returns -1, or the set-up and
the first two sections succeed and the run goes through the data section: then it
ends either with the footer or with the failure of the last flush. -/
theorem main_data_cases (K : SealConsts) (E : BlockFn) (env : Env) :
    ((main K E env).trace.all noEvp = true ∧ (main K E env).iRc = -1) ∨
    ∃ s1 sA, runSteps (setupSteps K env) {} = (s1, .next) ∧
      runSteps (outA K E env) s1 = (sA, .next) ∧
      ((env.flush_data = true ∧
          main K E env =
            cleanup (finish K env (BIO_pop (BIO_flush true (dataRun K E env sA)).1), .next)) ∨
       (env.flush_data = false ∧
          main K E env = cleanup ((BIO_flush false (dataRun K E env sA)).1, .out_close))) := by
  have hset := runSteps_ext (fun e => noEvp e = true) _
    (setup_ext K env _ isChecked_noEvp) ({} : St)
  unfold main mainSteps
  rw [runSteps_append]
  rcases h1 : runSteps (setupSteps K env) {} with ⟨s1, c1⟩
  rw [h1] at hset
  have hs1 : s1.trace.all noEvp = true := hset.1.all rfl
  have hi1 : s1.iRc = -1 := hset.2
  cases c1 with
  | out =>
    left
    rw [cleanup_trace, cleanup_iRc, List.all_append, hs1, cleanupEvents_noEvp]
    exact ⟨rfl, hi1⟩
  | out_close =>
    left
    rw [cleanup_trace, cleanup_iRc, List.all_append, hs1, cleanupEvents_noEvp]
    exact ⟨rfl, hi1⟩
  | next =>
    simp only
    rw [outputSteps_split, List.append_assoc, runSteps_append]
    have hA := runSteps_ext (fun e => noEvp e = true) _ (outA_ext K E env _ bioEv_noEvp) s1
    rcases h2 : runSteps (outA K E env) s1 with ⟨sA, cA⟩
    rw [h2] at hA
    have hsA : sA.trace.all noEvp = true := hA.1.all hs1
    have hiA : sA.iRc = -1 := hA.2.trans hi1
    cases cA with
    | out =>
      left
      rw [cleanup_trace, cleanup_iRc, List.all_append, hsA, cleanupEvents_noEvp]
      exact ⟨rfl, hiA⟩
    | out_close =>
      left
      rw [cleanup_trace, cleanup_iRc, List.all_append, hsA, cleanupEvents_noEvp]
      exact ⟨rfl, hiA⟩
    | next =>
      right
      refine ⟨s1, sA, rfl, h2, ?_⟩
      simp only
      rw [runSteps_append, outB_run]
      cases hf : env.flush_data with
      | false =>
        right
        exact ⟨rfl, rfl⟩
      | true =>
        left
        exact ⟨rfl, rfl⟩

/-! ## The data section: ciphertext stream (C2, C3, C10) -/

theorem cipherPieces_one (e : Event) (h : noEvp e = true) : cipherPieces [e] = [] := by
  obtain ⟨c, ok⟩ := e
  cases c <;> first | rfl | cases h

theorem cipherLens_one (e : Event) (h : noEvp e = true) : cipherLens [e] = [] := by
  obtain ⟨c, ok⟩ := e
  cases c <;> first | rfl | cases h

theorem cipherPieces_noEvp : ∀ (tr : List Event), tr.all noEvp = true → cipherPieces tr = []
  | [], _ => rfl
  | e :: tr, h => by
      rw [List.all_cons, Bool.and_eq_true] at h
      have := cipherPieces_append [e] tr
      rw [cipherPieces_one e h.1, cipherPieces_noEvp tr h.2] at this
      exact this

theorem cipherLens_noEvp : ∀ (tr : List Event), tr.all noEvp = true → cipherLens tr = []
  | [], _ => rfl
  | e :: tr, h => by
      rw [List.all_cons, Bool.and_eq_true] at h
      have := cipherLens_append [e] tr
      rw [cipherLens_one e h.1, cipherLens_noEvp tr h.2] at this
      exact this

theorem dataWrites_cons (e : Event) (tr : List Event) (h : noEvp e = true) :
    dataWrites (e :: tr) = dataWrites tr := by
  obtain ⟨c, ok⟩ := e
  cases c <;> first | rfl | cases h

/-- The writes of the data section are those after the initialisation of the cipher. -/
theorem dataWrites_split (k : Option (List Byte)) (iv : List Byte) (ok : Bool)
    (rest : List Event) :
    ∀ (a : List Event), a.all noEvp = true →
      dataWrites (a ++ ⟨.EVP_EncryptInit k iv, ok⟩ :: rest) = writesOf rest
  | [], _ => rfl
  | e :: a, h => by
      rw [List.all_cons, Bool.and_eq_true] at h
      rw [List.cons_append, dataWrites_cons e _ h.1]
      exact dataWrites_split k iv ok rest a h.2

theorem writesOf_one (e : Event) (h : e.call.isCleanup = true) : writesOf [e] = [] := by
  obtain ⟨c, ok⟩ := e
  cases c <;> first | rfl | cases h

theorem writesOf_cleanup : ∀ (tr : List Event), (∀ e ∈ tr, e.call.isCleanup = true) →
    writesOf tr = []
  | [], _ => rfl
  | e :: tr, h => by
      have := writesOf_append [e] tr
      rw [writesOf_one e (h e (List.mem_cons_self _ _)),
        writesOf_cleanup tr (fun x hx => h x (List.mem_cons_of_mem _ hx))] at this
      exact this

/-- The clean-up hands nothing to `BIO_write`. -/
theorem writesOf_cleanupEvents (r : St × Ctl) : writesOf (cleanupEvents r) = [] :=
  writesOf_cleanup _ (fun e he => (cleanupEvents_all r e he).1)

/-- The trace of the data section: the initialisation of the cipher, then events
whose ciphertext pieces, byte counts and writes are those of the loop followed by
those of the final block. -/
theorem dataRun_trace (K : SealConsts) (E : BlockFn) (env : Env) (s : St) :
    ∃ L, (dataRun K E env s).trace =
        s.trace ++ ⟨.EVP_EncryptInit s.randKey K.TPMSEAL_IV, true⟩ :: L ∧
      cipherPieces L = loopPieces E (initCtx K s) env.reads ++ [finalPiece K E env s] ∧
      cipherLens L = loopLens E (initCtx K s) env.reads ++
        [(EVP_EncryptFinal E (loopCtx E (initCtx K s) env.reads)).2] ∧
      writesOf L = loopPieces E (initCtx K s) env.reads ++ [finalPiece K E env s] := by
  obtain ⟨s1, hs1⟩ : ∃ s1, s1 = { s with ctx := initCtx K s }.log
    (.EVP_EncryptInit s.randKey K.TPMSEAL_IV) true := ⟨_, rfl⟩
  have hc1 : s1.ctx = initCtx K s := by rw [hs1]; rfl
  have ht1 : s1.trace = s.trace ++ [⟨.EVP_EncryptInit s.randKey K.TPMSEAL_IV, true⟩] := by
    rw [hs1]; rfl
  obtain ⟨_, _, evs, hevs, _⟩ := BodyG_encryptLoop E env env.reads 0 s1
  obtain ⟨a1, a2, a3, a4, _⟩ := encryptLoop_cipher E env env.reads 0 s1
  rw [hevs, cipherPieces_append] at a2
  rw [hevs, cipherLens_append] at a3
  rw [hevs, writesOf_append] at a4
  have b2 := List.append_cancel_left a2
  have b3 := List.append_cancel_left a3
  have b4 := List.append_cancel_left a4
  rw [hc1] at a1 b2 b3 b4
  have hd : (dataRun K E env s).trace = (encryptLoop E env 0 env.reads s1).trace ++
      [⟨.EVP_EncryptFinal (EVP_EncryptFinal E (encryptLoop E env 0 env.reads s1).ctx).1
          (EVP_EncryptFinal E (encryptLoop E env 0 env.reads s1).ctx).2, true⟩,
       ⟨.BIO_write ((EVP_EncryptFinal E (encryptLoop E env 0 env.reads s1).ctx).1.take
          (EVP_EncryptFinal E (encryptLoop E env 0 env.reads s1).ctx).2), env.write_final⟩] := by
    rw [hs1]
    simp [dataRun, initCtx]
  rw [a1, hevs, ht1] at hd
  refine ⟨evs ++
    [⟨.EVP_EncryptFinal (EVP_EncryptFinal E (loopCtx E (initCtx K s) env.reads)).1
        (EVP_EncryptFinal E (loopCtx E (initCtx K s) env.reads)).2, true⟩,
     ⟨.BIO_write (finalPiece K E env s), env.write_final⟩], ?_, ?_, ?_, ?_⟩
  · rw [hd]; simp [finalPiece]
  · rw [cipherPieces_append, b2]; rfl
  · rw [cipherLens_append, b3]; rfl
  · rw [writesOf_append, b4]; rfl

theorem dataRun_randKey (K : SealConsts) (E : BlockFn) (env : Env) (s : St) :
    (dataRun K E env s).randKey = s.randKey := by
  have := (encryptLoop_cipher E env env.reads 0
    ({ s with ctx := initCtx K s }.log (.EVP_EncryptInit s.randKey K.TPMSEAL_IV) true)).2.2.2.2.2.1
  simp only [dataRun, BIO_write_randKey, log_randKey]
  exact this

theorem dataRun_bdata (K : SealConsts) (E : BlockFn) (env : Env) (s : St) :
    (dataRun K E env s).bdata = s.bdata := by
  have := (encryptLoop_cipher E env env.reads 0
    ({ s with ctx := initCtx K s }.log
      (.EVP_EncryptInit s.randKey K.TPMSEAL_IV) true)).2.2.2.2.2.2.1
  simp only [dataRun, BIO_write_bdata, log_bdata]
  exact this

theorem isInit_noEvp (e : Event) (h : noEvp e = true) : isInit e = false := by
  obtain ⟨c, ok⟩ := e
  cases c <;> first | rfl | cases h

theorem any_isInit_noEvp : ∀ (tr : List Event), tr.all noEvp = true → tr.any isInit = false
  | [], _ => rfl
  | e :: tr, h => by
      rw [List.all_cons, Bool.and_eq_true] at h
      rw [List.any_cons, isInit_noEvp e h.1, any_isInit_noEvp tr h.2]
      rfl

/-- The cipher pieces, byte counts and data writes of a trace made of cipher-free
events, the initialisation, the events `L`, and cipher-free events without writes. -/
theorem trace_shape (a L post : List Event) (k : Option (List Byte)) (iv : List Byte)
    (ok : Bool) (ha : a.all noEvp = true) (hp : post.all noEvp = true)
    (hw : writesOf post = []) :
    cipherPieces (a ++ ⟨.EVP_EncryptInit k iv, ok⟩ :: (L ++ post)) = cipherPieces L ∧
    cipherLens (a ++ ⟨.EVP_EncryptInit k iv, ok⟩ :: (L ++ post)) = cipherLens L ∧
    dataWrites (a ++ ⟨.EVP_EncryptInit k iv, ok⟩ :: (L ++ post)) = writesOf L := by
  refine ⟨?_, ?_, ?_⟩
  · have h1 : cipherPieces (⟨.EVP_EncryptInit k iv, ok⟩ :: (L ++ post)) =
        cipherPieces (L ++ post) := rfl
    rw [cipherPieces_append, cipherPieces_noEvp a ha, h1, cipherPieces_append,
      cipherPieces_noEvp post hp, List.nil_append, List.append_nil]
  · have h1 : cipherLens (⟨.EVP_EncryptInit k iv, ok⟩ :: (L ++ post)) =
        cipherLens (L ++ post) := rfl
    rw [cipherLens_append, cipherLens_noEvp a ha, h1, cipherLens_append,
      cipherLens_noEvp post hp, List.nil_append, List.append_nil]
  · rw [dataWrites_split k iv ok _ a ha, writesOf_append, hw, List.append_nil]

/-- The cipher-free prefix of a run that reaches the data section. -/
theorem outA_noEvp (K : SealConsts) (E : BlockFn) (env : Env) (s1 sA : St)
    (h1 : runSteps (setupSteps K env) {} = (s1, .next))
    (h2 : runSteps (outA K E env) s1 = (sA, .next)) : sA.trace.all noEvp = true := by
  have hset := runSteps_ext (fun e => noEvp e = true) _
    (setup_ext K env _ isChecked_noEvp) ({} : St)
  rw [h1] at hset
  have hA := runSteps_ext (fun e => noEvp e = true) _ (outA_ext K E env _ bioEv_noEvp) s1
  rw [h2] at hA
  exact hA.1.all (hset.1.all rfl)

/-- The key of a run that reaches the data section. -/
theorem outA_key (K : SealConsts) (E : BlockFn) (env : Env) (s1 sA : St)
    (h1 : runSteps (setupSteps K env) {} = (s1, .next))
    (h2 : runSteps (outA K E env) s1 = (sA, .next)) :
    ∃ key, env.tpmGetRandom = some key ∧ sA.randKey = some key := by
  have hp := setup_post K env s1 h1
  obtain ⟨key, hk1, hk2⟩ := hp.key
  have hf := (outA_next_iff K E env s1).mp (by rw [h2])
  have := (outA_ok K E env s1 hp.bdata hp.enc_data hf.1 hf.2).2.2.2.1
  rw [h2] at this
  exact ⟨key, hk1, this.trans hk2⟩

/-- The trace of a run that goes through the data section. -/
theorem main_trace_shape (K : SealConsts) (E : BlockFn) (env : Env)
    (h : (main K E env).trace.any isInit = true) :
    ∃ key a L post, env.tpmGetRandom = some key ∧
      (main K E env).trace =
        a ++ ⟨.EVP_EncryptInit (some key) K.TPMSEAL_IV, true⟩ :: (L ++ post) ∧
      a.all noEvp = true ∧ post.all noEvp = true ∧ writesOf post = [] ∧
      cipherPieces L = loopPieces E (EVP_EncryptInit key K.TPMSEAL_IV) env.reads ++
        [(EVP_EncryptFinal E (loopCtx E (EVP_EncryptInit key K.TPMSEAL_IV) env.reads)).1.take
          (EVP_EncryptFinal E (loopCtx E (EVP_EncryptInit key K.TPMSEAL_IV) env.reads)).2] ∧
      cipherLens L = loopLens E (EVP_EncryptInit key K.TPMSEAL_IV) env.reads ++
        [(EVP_EncryptFinal E (loopCtx E (EVP_EncryptInit key K.TPMSEAL_IV) env.reads)).2] ∧
      writesOf L = cipherPieces L := by
  rcases main_data_cases K E env with ⟨hno, _⟩ | ⟨s1, sA, h1, h2, hcase⟩
  · rw [any_isInit_noEvp _ hno] at h
    cases h
  · obtain ⟨key, hk, hr⟩ := outA_key K E env s1 sA h1 h2
    have ha := outA_noEvp K E env s1 sA h1 h2
    obtain ⟨L, hL, c1, c2, c3⟩ := dataRun_trace K E env sA
    have hi : initCtx K sA = EVP_EncryptInit key K.TPMSEAL_IV := by
      simp [initCtx, hr]
    simp only [finalPiece, hi] at c1 c2 c3
    rw [hr] at hL
    rcases hcase with ⟨_, hm⟩ | ⟨_, hm⟩
    · refine ⟨key, sA.trace, L, [⟨.BIO_flush, true⟩, ⟨.BIO_pop, true⟩,
        ⟨.BIO_puts .FTR, env.puts .FTR⟩] ++ cleanupEvents
          (finish K env (BIO_pop (BIO_flush true (dataRun K E env sA)).1), .next),
        hk, ?_, ha, ?_, ?_, c1, c2, c3.trans c1.symm⟩
      · rw [hm, cleanup_trace]
        simp only [finish_trace, BIO_pop_trace, BIO_flush_trace, hL]
        simp
      · rw [List.all_append, cleanupEvents_noEvp]
        rfl
      · rw [writesOf_append, writesOf_cleanupEvents]
        rfl
    · refine ⟨key, sA.trace, L, [⟨.BIO_flush, false⟩] ++ cleanupEvents
          ((BIO_flush false (dataRun K E env sA)).1, .out_close),
        hk, ?_, ha, ?_, ?_, c1, c2, c3.trans c1.symm⟩
      · rw [hm, cleanup_trace]
        simp only [BIO_flush_trace, hL]
        simp
      · rw [List.all_append, cleanupEvents_noEvp]
        rfl
      · rw [writesOf_append, writesOf_cleanupEvents]
        rfl

/-- The pieces of the loop and the final block, put together, are the one-shot
encryption of the payload; their lengths are the reported counts. -/
theorem stream_total (E : BlockFn) (key iv : List Byte) (rs : List ReadResult) :
    (loopPieces E (EVP_EncryptInit key iv) rs ++
      [(EVP_EncryptFinal E (loopCtx E (EVP_EncryptInit key iv) rs)).1.take
        (EVP_EncryptFinal E (loopCtx E (EVP_EncryptInit key iv) rs)).2]).flatten =
      spec_cbc_encrypt E key iv (payload rs) ∧
    (loopLens E (EVP_EncryptInit key iv) rs ++
      [(EVP_EncryptFinal E (loopCtx E (EVP_EncryptInit key iv) rs)).2]).sum =
      (spec_cbc_encrypt E key iv (payload rs)).length := by
  obtain ⟨v1, v2, v3, v4⟩ := loop_stream E key (toBlock iv) rs [] _ (CtxAfter_init E key iv)
  simp only [List.nil_append] at v1 v2 v3
  obtain ⟨w1, w2, w3⟩ := EVP_EncryptFinal_stream E key iv (payload rs) _ v2
  have htake : (EVP_EncryptFinal E (loopCtx E (EVP_EncryptInit key iv) rs)).1.take
      (EVP_EncryptFinal E (loopCtx E (EVP_EncryptInit key iv) rs)).2 =
      (EVP_EncryptFinal E (loopCtx E (EVP_EncryptInit key iv) rs)).1 := by
    rw [w2, ← w3]; exact List.take_length _
  have h0 : (cbc_encrypt E key (toBlock iv) (([] : List Byte).length / BLOCK_SIZE) []).1 = [] := rfl
  rw [h0, List.nil_append] at v1
  have hflat : (loopPieces E (EVP_EncryptInit key iv) rs ++
      [(EVP_EncryptFinal E (loopCtx E (EVP_EncryptInit key iv) rs)).1.take
        (EVP_EncryptFinal E (loopCtx E (EVP_EncryptInit key iv) rs)).2]).flatten =
      spec_cbc_encrypt E key iv (payload rs) := by
    rw [htake, List.flatten_append, v1, ← w1]
    simp
  refine ⟨hflat, ?_⟩
  rw [← hflat, List.length_flatten, List.map_append, v4, htake]
  simp [w2, w3]

theorem EVP_EncryptUpdate_bound (E : BlockFn) (ctx : EVP_CIPHER_CTX) (inp : List Byte)
    (hb : ctx.buf.length < BLOCK_SIZE) :
    (EVP_EncryptUpdate E ctx inp).2.1 ≤ inp.length + (BLOCK_SIZE - 1) ∧
    (EVP_EncryptUpdate E ctx inp).1.length = (EVP_EncryptUpdate E ctx inp).2.1 ∧
    (EVP_EncryptUpdate E ctx inp).2.2.buf.length < BLOCK_SIZE := by
  rw [EVP_EncryptUpdate_eq E ctx inp hb]
  simp only [cbc_encrypt_length, List.length_drop, List.length_append]
  simp only [BLOCK_SIZE] at hb ⊢
  refine ⟨?_, trivial, ?_⟩ <;> omega

theorem EVP_EncryptFinal_bound (E : BlockFn) (ctx : EVP_CIPHER_CTX) :
    (EVP_EncryptFinal E ctx).2 = BLOCK_SIZE ∧ (EVP_EncryptFinal E ctx).1.length = BLOCK_SIZE := by
  simp [EVP_EncryptFinal, cbc_encrypt_length]

theorem encBound_noEvp (e : Event) (h : noEvp e = true) : encBound e := by
  obtain ⟨c, ok⟩ := e
  cases c <;> first | exact trivial | cases h

theorem encryptLoop_bound (E : BlockFn) (env : Env) :
    ∀ (rs : List ReadResult) (i : Nat) (s : St),
      (∀ r ∈ rs, r.bytes.length ≤ LINE_SIZE) → s.ctx.buf.length < BLOCK_SIZE →
      Extends encBound s.trace (encryptLoop E env i rs s).trace ∧
      (encryptLoop E env i rs s).ctx.buf.length < BLOCK_SIZE
  | [], i, s, _, hb => ⟨(Extends.refl encBound s.trace).snoc (by exact trivial), hb⟩
  | r :: rs, i, s, hr, hb => by
      by_cases h : r.lineLen > 0
      · obtain ⟨u1, u2, u3⟩ := EVP_EncryptUpdate_bound E s.ctx r.bytes hb
        have hlen := hr r (List.mem_cons_self _ _)
        simp only [encryptLoop, log_lineLen, h, if_true]
        obtain ⟨a1, a2⟩ := encryptLoop_bound E env rs (i + 1)
          (BIO_write
            ((EVP_EncryptUpdate E s.ctx r.bytes).1.take (EVP_EncryptUpdate E s.ctx r.bytes).2.1)
            (env.write_data i)
            ({ ({ { s with lineLen := r.lineLen }.log (.BIO_read r.lineLen)
                    (decide (0 ≤ r.lineLen)) with line := r.bytes }) with
                encData := (EVP_EncryptUpdate E s.ctx r.bytes).1,
                encDataLen := (EVP_EncryptUpdate E s.ctx r.bytes).2.1,
                ctx := (EVP_EncryptUpdate E s.ctx r.bytes).2.2 }.log
              (.EVP_EncryptUpdate r.bytes.length (EVP_EncryptUpdate E s.ctx r.bytes).1
                (EVP_EncryptUpdate E s.ctx r.bytes).2.1) true))
          (fun x hx => hr x (List.mem_cons_of_mem _ hx))
          (by simpa using u3)
        refine ⟨Extends.trans ?_ a1, a2⟩
        simp only [BIO_write_trace, log_trace]
        refine (((Extends.refl encBound s.trace).snoc (by exact trivial)).snoc ?_).snoc
          (by exact trivial)
        show r.bytes.length ≤ LINE_SIZE ∧ _ ∧ _ ∧ _
        refine ⟨hlen, u1, u2, ?_⟩
        rw [u2]
        simp only [LINE_SIZE, ENCDATA_SIZE, BLOCK_SIZE] at hlen u1 ⊢
        omega
      · simp only [encryptLoop, log_lineLen, h, if_false]
        exact ⟨(Extends.refl encBound s.trace).snoc (by exact trivial), hb⟩

theorem dataRun_bound (K : SealConsts) (E : BlockFn) (env : Env) (s : St)
    (hr : ∀ r ∈ env.reads, r.bytes.length ≤ LINE_SIZE) :
    Extends encBound s.trace (dataRun K E env s).trace := by
  obtain ⟨a1, _⟩ := encryptLoop_bound E env env.reads 0
    ({ s with ctx := initCtx K s }.log (.EVP_EncryptInit s.randKey K.TPMSEAL_IV) true) hr
    (by show ([] : List Byte).length < BLOCK_SIZE; decide)
  have h0 : Extends encBound s.trace
      ({ s with ctx := initCtx K s }.log (.EVP_EncryptInit s.randKey K.TPMSEAL_IV) true).trace :=
    (Extends.refl encBound s.trace).snoc (by exact trivial)
  have h1 := h0.trans a1
  obtain ⟨f1, f2⟩ := EVP_EncryptFinal_bound E (encryptLoop E env 0 env.reads
    ({ s with ctx := initCtx K s }.log (.EVP_EncryptInit s.randKey K.TPMSEAL_IV) true)).ctx
  simp only [dataRun, BIO_write_trace, log_trace]
  refine (h1.snoc ?_).snoc (by exact trivial)
  show _ = BLOCK_SIZE ∧ _ ∧ _
  refine ⟨f1, f2.trans f1.symm, ?_⟩
  exact le_of_eq_of_le f2 (by decide)

/-- Every cipher call of a run respects the bound. -/
theorem main_bound (K : SealConsts) (E : BlockFn) (env : Env)
    (hr : ∀ r ∈ env.reads, r.bytes.length ≤ LINE_SIZE) :
    ∀ e ∈ (main K E env).trace, encBound e := by
  rcases main_data_cases K E env with ⟨hno, _⟩ | ⟨s1, sA, h1, h2, hcase⟩
  · rw [List.all_eq_true] at hno
    exact fun e he => encBound_noEvp e (hno e he)
  · have ha := outA_noEvp K E env s1 sA h1 h2
    rw [List.all_eq_true] at ha
    have hd := (dataRun_bound K E env sA hr).forall (fun e he => encBound_noEvp e (ha e he))
    have hc : ∀ r, ∀ e ∈ cleanupEvents r, encBound e := by
      intro r e he
      have := cleanupEvents_noEvp r
      rw [List.all_eq_true] at this
      exact encBound_noEvp e (this e he)
    rcases hcase with ⟨_, hm⟩ | ⟨_, hm⟩
    · rw [hm, cleanup_trace]
      simp only [finish_trace, BIO_pop_trace, BIO_flush_trace]
      intro e he
      simp only [List.mem_append, List.mem_singleton] at he
      rcases he with (((he | rfl) | rfl) | rfl) | he
      · exact hd e he
      · exact trivial
      · exact trivial
      · exact trivial
      · exact hc _ e he
    · rw [hm, cleanup_trace]
      simp only [BIO_flush_trace]
      intro e he
      simp only [List.mem_append, List.mem_singleton] at he
      rcases he with (he | rfl) | he
      · exact hd e he
      · exact trivial
      · exact hc _ e he

theorem payload_eq_chunks : ∀ (rs : List ReadResult), payload rs = (chunks rs).flatten
  | [] => rfl
  | r :: rs => by
      by_cases h : r.lineLen > 0
      · simp [payload, chunks, h, payload_eq_chunks rs]
      · simp [payload, chunks, h]

theorem sampleCipher_inv (k : List Byte) (b : Block) : sampleCipher k (sampleCipher k b) = b :=
  Subtype.ext (List.reverse_reverse _)

/-- C2: in every run of `main` that reaches the cipher, whatever the reads are, the
byte counts reported by the `EVP_EncryptUpdate` calls of the loop and by
`EVP_EncryptFinal` add up to `L + 16 - L mod 16`, where `L` is the length of the
payload (the concatenation of the chunks read); this is the number of ciphertext
bytes produced, it is positive and a multiple of the block size. -/
theorem C2_ciphertext_length (K : SealConsts) (E : BlockFn) (env : Env)
    (hreach : (main K E env).trace.any isInit = true) :
    payload env.reads = (chunks env.reads).flatten ∧
    (cipherLens (main K E env).trace).sum =
      (payload env.reads).length + BLOCK_SIZE - (payload env.reads).length % BLOCK_SIZE ∧
    (cipherPieces (main K E env).trace).flatten.length = (cipherLens (main K E env).trace).sum ∧
    0 < (cipherLens (main K E env).trace).sum ∧
    (cipherLens (main K E env).trace).sum % BLOCK_SIZE = 0 := by
  obtain ⟨key, a, L, post, _, htr, ha, hp, hw, c1, c2, _⟩ := main_trace_shape K E env hreach
  obtain ⟨t1, t2, _⟩ := trace_shape a L post (some key) K.TPMSEAL_IV true ha hp hw
  obtain ⟨s1, s2⟩ := stream_total E key K.TPMSEAL_IV env.reads
  rw [htr, t1, t2, c1, c2, s1, s2, spec_cbc_encrypt_length]
  refine ⟨payload_eq_chunks _, rfl, rfl, ?_, ?_⟩
  · simp only [BLOCK_SIZE]; omega
  · simp only [BLOCK_SIZE]; omega

theorem C2_witness :
    (main sampleConsts sampleCipher sampleEnv).trace.any isInit = true ∧
    (payload sampleEnv.reads).length = 10 ∧
    (cipherLens (main sampleConsts sampleCipher sampleEnv).trace).sum =
      (payload sampleEnv.reads).length + BLOCK_SIZE -
        (payload sampleEnv.reads).length % BLOCK_SIZE :=
  ⟨by decide, by decide, (C2_ciphertext_length _ _ _ (by decide)).2.1⟩

/-- C3: in every run of `main` that reaches the cipher, with `key` the key obtained
from the anchor and whatever the reads are, the pieces handed to `BIO_write` in the
data section are the ciphertext pieces of the update/final calls, and their
concatenation is the one-shot CBC encryption (IV `TPMSEAL_IV`, standard block
padding) of the whole payload; hence, for a block decryption `D` inverse to `E`, CBC
decryption under the same key and IV followed by padding removal gives back the
payload. -/
theorem C3_stream_is_one_shot (K : SealConsts) (E D : BlockFn) (env : Env)
    (hD : ∀ k b, D k (E k b) = b)
    (hreach : (main K E env).trace.any isInit = true) :
    ∃ key, env.tpmGetRandom = some key ∧
      (⟨.EVP_EncryptInit (some key) K.TPMSEAL_IV, true⟩ : Event) ∈ (main K E env).trace ∧
      dataWrites (main K E env).trace = cipherPieces (main K E env).trace ∧
      (cipherPieces (main K E env).trace).flatten =
        spec_cbc_encrypt E key K.TPMSEAL_IV (payload env.reads) ∧
      spec_cbc_decrypt D key K.TPMSEAL_IV (dataWrites (main K E env).trace).flatten =
        payload env.reads := by
  obtain ⟨key, a, L, post, hk, htr, ha, hp, hw, c1, _, c3⟩ := main_trace_shape K E env hreach
  obtain ⟨t1, _, t3⟩ := trace_shape a L post (some key) K.TPMSEAL_IV true ha hp hw
  obtain ⟨s1, _⟩ := stream_total E key K.TPMSEAL_IV env.reads
  refine ⟨key, hk, ?_, ?_, ?_, ?_⟩
  · rw [htr]; simp
  · rw [htr, t1, t3, c3]
  · rw [htr, t1, c1, s1]
  · rw [htr, t3, c3, c1, s1]
    exact spec_cbc_decrypt_encrypt E D hD key K.TPMSEAL_IV (payload env.reads)

theorem C3_witness :
    (∀ k b, sampleCipher k (sampleCipher k b) = b) ∧
    (main sampleConsts sampleCipher sampleEnv).trace.any isInit = true ∧
    ∃ key, sampleEnv.tpmGetRandom = some key ∧
      (⟨.EVP_EncryptInit (some key) sampleConsts.TPMSEAL_IV, true⟩ : Event) ∈
        (main sampleConsts sampleCipher sampleEnv).trace ∧
      dataWrites (main sampleConsts sampleCipher sampleEnv).trace =
        cipherPieces (main sampleConsts sampleCipher sampleEnv).trace ∧
      (cipherPieces (main sampleConsts sampleCipher sampleEnv).trace).flatten =
        spec_cbc_encrypt sampleCipher key sampleConsts.TPMSEAL_IV (payload sampleEnv.reads) ∧
      spec_cbc_decrypt sampleCipher key sampleConsts.TPMSEAL_IV
          (dataWrites (main sampleConsts sampleCipher sampleEnv).trace).flatten =
        payload sampleEnv.reads :=
  ⟨sampleCipher_inv, by decide,
    C3_stream_is_one_shot sampleConsts sampleCipher sampleCipher sampleEnv sampleCipher_inv
      (by decide)⟩

/-- C10: `line` holds 256 bytes and `encData` 272; when no read delivers more than
`sizeof(line)` bytes, every `EVP_EncryptUpdate` call of a run of `main` is given at
most 256 bytes and stores at most that many plus 15, so at most 271, and
`EVP_EncryptFinal` stores exactly 16: what is stored in `encData` never exceeds
its size. -/
theorem C10_encData_bound (K : SealConsts) (E : BlockFn) (env : Env)
    (hreads : ∀ r ∈ env.reads, r.bytes.length ≤ LINE_SIZE) :
    LINE_SIZE = 256 ∧ ENCDATA_SIZE = 272 ∧
    (∀ inl out outl ok, (⟨.EVP_EncryptUpdate inl out outl, ok⟩ : Event) ∈ (main K E env).trace →
      inl ≤ 256 ∧ outl ≤ inl + 15 ∧ outl ≤ 271 ∧ out.length = outl ∧
        out.length ≤ ENCDATA_SIZE) ∧
    (∀ out outl ok, (⟨.EVP_EncryptFinal out outl, ok⟩ : Event) ∈ (main K E env).trace →
      outl = 16 ∧ out.length = 16 ∧ out.length ≤ ENCDATA_SIZE) := by
  have hb := main_bound K E env hreads
  refine ⟨rfl, rfl, ?_, ?_⟩
  · intro inl out outl ok he
    obtain ⟨h1, h2, h3, h4⟩ : inl ≤ LINE_SIZE ∧ outl ≤ inl + (BLOCK_SIZE - 1) ∧
      out.length = outl ∧ out.length ≤ ENCDATA_SIZE := hb _ he
    simp only [LINE_SIZE, BLOCK_SIZE] at h1 h2
    exact ⟨h1, h2, by omega, h3, h4⟩
  · intro out outl ok he
    obtain ⟨h1, h2, h3⟩ : outl = BLOCK_SIZE ∧ out.length = outl ∧
      out.length ≤ ENCDATA_SIZE := hb _ he
    exact ⟨h1, h2.trans h1, h3⟩

theorem C10_witness :
    (∀ r ∈ sampleEnv.reads, r.bytes.length ≤ LINE_SIZE) ∧
    (cipherLens (main sampleConsts sampleCipher sampleEnv).trace) = [0, 0, 16] ∧
    (∀ out outl ok, (⟨.EVP_EncryptFinal out outl, ok⟩ : Event) ∈
        (main sampleConsts sampleCipher sampleEnv).trace →
      outl = 16 ∧ out.length = 16 ∧ out.length ≤ ENCDATA_SIZE) :=
  ⟨by decide, by decide, (C10_encData_bound _ _ _ (by decide)).2.2.2⟩

/-! ## The envelope written by a successful run (C1) -/

theorem encryptLoop_cons_pos (E : BlockFn) (env : Env) (i : Nat) (r : ReadResult)
    (rs : List ReadResult) (s : St) (h : r.lineLen > 0) :
    encryptLoop E env i (r :: rs) s = encryptLoop E env (i + 1) rs (loopBody E env i r s) := by
  simp only [encryptLoop, loopBody, log_lineLen, h, if_true]

theorem loopBody_trace (E : BlockFn) (env : Env) (i : Nat) (r : ReadResult) (s : St) :
    (loopBody E env i r s).trace = s.trace ++
      [⟨.BIO_read r.lineLen, decide (0 ≤ r.lineLen)⟩,
       ⟨.EVP_EncryptUpdate r.bytes.length (EVP_EncryptUpdate E s.ctx r.bytes).1
          (EVP_EncryptUpdate E s.ctx r.bytes).2.1, true⟩,
       ⟨.BIO_write ((EVP_EncryptUpdate E s.ctx r.bytes).1.take
          (EVP_EncryptUpdate E s.ctx r.bytes).2.1), env.write_data i⟩] := by
  simp [loopBody]

theorem loopBody_bdata (E : BlockFn) (env : Env) (i : Nat) (r : ReadResult) (s : St) :
    (loopBody E env i r s).bdata = s.bdata := by
  simp [loopBody]

theorem loopBody_ctx (E : BlockFn) (env : Env) (i : Nat) (r : ReadResult) (s : St) :
    (loopBody E env i r s).ctx = (EVP_EncryptUpdate E s.ctx r.bytes).2.2 := by
  simp [loopBody]

theorem loopBody_out (E : BlockFn) (env : Env) (i : Nat) (r : ReadResult) (s : St)
    (hb : s.bdata = .b64chain) (hw : env.write_data i = true) :
    (loopBody E env i r s).out = s.out ++ (EVP_EncodeUpdate s.enc_data
      ((EVP_EncryptUpdate E s.ctx r.bytes).1.take (EVP_EncryptUpdate E s.ctx r.bytes).2.1)).1 ∧
    (loopBody E env i r s).enc_data = (EVP_EncodeUpdate s.enc_data
      ((EVP_EncryptUpdate E s.ctx r.bytes).1.take (EVP_EncryptUpdate E s.ctx r.bytes).2.1)).2 := by
  unfold loopBody
  constructor
  · rw [BIO_write_out_b64 _ _ _ (by simp [hb])]
    simp [hw]
  · rw [BIO_write_enc_data_b64 _ _ _ (by simp [hb])]
    simp [hw]

/-- The effect of the loop on the output in a run in which every call succeeds: the
text emitted and the bytes pending are those of the filter fed with all the pieces. -/
theorem encryptLoop_out_ok (E : BlockFn) (env : Env) :
    ∀ (rs : List ReadResult) (i : Nat) (s : St) (o t : List Byte),
      (∀ e ∈ (encryptLoop E env i rs s).trace, e.ok = true) →
      s.bdata = .b64chain → s.out = o ++ (b64State t).1 → s.enc_data = (b64State t).2 →
      (encryptLoop E env i rs s).out =
        o ++ (b64State (t ++ (loopPieces E s.ctx rs).flatten)).1 ∧
      (encryptLoop E env i rs s).enc_data =
        (b64State (t ++ (loopPieces E s.ctx rs).flatten)).2
  | [], i, s, o, t, _, _, ho, he => by
      simp [encryptLoop, loopPieces, ho, he]
  | r :: rs, i, s, o, t, hok, hb, ho, he => by
      by_cases h : r.lineLen > 0
      · rw [encryptLoop_cons_pos E env i r rs s h] at hok ⊢
        have hw : env.write_data i = true := by
          obtain ⟨_, _, evs, hevs, _⟩ := BodyG_encryptLoop E env rs (i + 1) (loopBody E env i r s)
          exact hok ⟨.BIO_write ((EVP_EncryptUpdate E s.ctx r.bytes).1.take
            (EVP_EncryptUpdate E s.ctx r.bytes).2.1), env.write_data i⟩
            (by rw [hevs, loopBody_trace]; simp)
        obtain ⟨f1, f2⟩ := b64_feed t
          ((EVP_EncryptUpdate E s.ctx r.bytes).1.take (EVP_EncryptUpdate E s.ctx r.bytes).2.1)
        obtain ⟨g1, g2⟩ := loopBody_out E env i r s hb hw
        have := encryptLoop_out_ok E env rs (i + 1) (loopBody E env i r s) o
          (t ++ (EVP_EncryptUpdate E s.ctx r.bytes).1.take
            (EVP_EncryptUpdate E s.ctx r.bytes).2.1)
          hok ((loopBody_bdata E env i r s).trans hb)
          (by rw [g1, ho, he, List.append_assoc, f1])
          (by rw [g2, he, f2])
        rw [loopBody_ctx] at this
        simpa [loopPieces, h, List.append_assoc] using this
      · simp [encryptLoop, h, loopPieces, ho, he]

/-- The output after the data section and its flush, in a run in which every call
succeeds: the base64 encoding of the ciphertext pieces is appended. -/
theorem dataRun_out (K : SealConsts) (E : BlockFn) (env : Env) (s : St)
    (hok : ∀ e ∈ (dataRun K E env s).trace, e.ok = true)
    (hb : s.bdata = .b64chain) (he : s.enc_data = []) :
    (BIO_flush true (dataRun K E env s)).1.out =
      s.out ++ base64 ((loopPieces E (initCtx K s) env.reads).flatten ++
        finalPiece K E env s) := by
  obtain ⟨s1, hs1⟩ : ∃ s1, s1 = { s with ctx := initCtx K s }.log
    (.EVP_EncryptInit s.randKey K.TPMSEAL_IV) true := ⟨_, rfl⟩
  have hc1 : s1.ctx = initCtx K s := by rw [hs1]; rfl
  have hb1 : s1.bdata = .b64chain := by rw [hs1]; exact hb
  have ho1 : s1.out = s.out ++ (b64State []).1 := by rw [hs1, b64State_nil]; simp
  have he1 : s1.enc_data = (b64State []).2 := by rw [hs1, b64State_nil]; exact he
  obtain ⟨a1, _, _, _, _, _, a7, _⟩ := encryptLoop_cipher E env env.reads 0 s1
  rw [hc1] at a1
  have hd : dataRun K E env s = BIO_write (finalPiece K E env s) env.write_final
      ({ encryptLoop E env 0 env.reads s1 with
          encData := (EVP_EncryptFinal E (loopCtx E (initCtx K s) env.reads)).1,
          encDataLen := (EVP_EncryptFinal E (loopCtx E (initCtx K s) env.reads)).2 }.log
        (.EVP_EncryptFinal (EVP_EncryptFinal E (loopCtx E (initCtx K s) env.reads)).1
          (EVP_EncryptFinal E (loopCtx E (initCtx K s) env.reads)).2) true) := by
    unfold finalPiece
    rw [← a1, hs1]
    rfl
  rw [hd] at hok ⊢
  have hwf : env.write_final = true :=
    hok ⟨.BIO_write (finalPiece K E env s), env.write_final⟩ (by simp)
  have hokl : ∀ e ∈ (encryptLoop E env 0 env.reads s1).trace, e.ok = true := by
    intro e hmem
    exact hok e (by simp [hmem])
  obtain ⟨l1, l2⟩ := encryptLoop_out_ok E env env.reads 0 s1 s.out [] hokl hb1 ho1 he1
  rw [hc1, List.nil_append] at l1 l2
  obtain ⟨f1, f2⟩ := b64_feed (loopPieces E (initCtx K s) env.reads).flatten
    (finalPiece K E env s)
  have hbw : ∀ x, (BIO_write (finalPiece K E env s) env.write_final x).bdata = x.bdata :=
    fun x => BIO_write_bdata _ _ x
  rw [BIO_flush_out_b64 _ (by rw [hbw]; simpa using a7.trans hb1),
    BIO_write_out_b64 _ _ _ (by simpa using a7.trans hb1),
    BIO_write_enc_data_b64 _ _ _ (by simpa using a7.trans hb1)]
  simp only [hwf, if_true, log_out, log_enc_data, l1, l2]
  rw [List.append_assoc, List.append_assoc, ← List.append_assoc (b64State _).1, f1, f2, base64_eq]

/-- A run in which every call succeeds returns 0. -/
theorem main_ok_iRc (K : SealConsts) (E : BlockFn) (env : Env)
    (hok : ∀ e ∈ (main K E env).trace, e.ok = true) : (main K E env).iRc = 0 := by
  rcases main_cases K E env with ⟨_, hm⟩ | ⟨s, hA, hm⟩ | ⟨s, hA, hm⟩ | ⟨s, _, hm⟩
  · have := hok ⟨.contextCreate, false⟩ (by rw [hm]; simp)
    cases this
  · obtain ⟨pre, c, hpre, _⟩ := hA.2.2.2.1
    have := hok ⟨c, false⟩ (by rw [hm, cleanup_trace, hpre]; simp)
    cases this
  · obtain ⟨pre, c, hpre, _⟩ := hA.2.1
    have := hok ⟨c, false⟩ (by rw [hm, cleanup_trace, hpre]; simp)
    cases this
  · rw [hm, cleanup_iRc]

theorem bioEv_not_cleanup (e : Event) (h : bioEv e = true) : e.call.isCleanup = false := by
  obtain ⟨c, ok⟩ := e
  cases c <;> first | rfl | cases h

theorem bodyEv_not_cleanup (e : Event) (h : bodyEv e = true) : e.call.isCleanup = false := by
  simp only [bodyEv, Bool.and_eq_true, Bool.not_eq_true'] at h
  exact h.1.2

/-- No clean-up call is made before the data section. -/
theorem outA_noCleanup (K : SealConsts) (E : BlockFn) (env : Env) (s1 sA : St)
    (h1 : runSteps (setupSteps K env) {} = (s1, .next))
    (h2 : runSteps (outA K E env) s1 = (sA, .next)) :
    ∀ e ∈ sA.trace, e.call.isCleanup = false := by
  have hset := runSteps_ext (fun e => e.call.isCleanup = false) _
    (setup_ext K env _ isChecked_not_cleanup) ({} : St)
  rw [h1] at hset
  have hA := runSteps_ext (fun e => e.call.isCleanup = false) _
    (outA_ext K E env _ bioEv_not_cleanup) s1
  rw [h2] at hA
  exact hA.1.forall (hset.1.forall (fun e he => by cases he))

/-- No clean-up call is made in the data section. -/
theorem dataRun_noCleanup (K : SealConsts) (E : BlockFn) (env : Env) (s : St) :
    Extends (fun e => e.call.isCleanup = false) s.trace (dataRun K E env s).trace := by
  obtain ⟨_, _, a1⟩ := BodyG_encryptLoop E env env.reads 0
    ({ s with ctx := initCtx K s }.log (.EVP_EncryptInit s.randKey K.TPMSEAL_IV) true)
  have h0 : Extends (fun e => e.call.isCleanup = false) s.trace
      ({ s with ctx := initCtx K s }.log (.EVP_EncryptInit s.randKey K.TPMSEAL_IV) true).trace :=
    (Extends.refl _ s.trace).snoc (by rfl)
  have h1 := h0.trans (a1.mono bodyEv_not_cleanup)
  simp only [dataRun, BIO_write_trace, log_trace]
  exact (h1.snoc (by rfl)).snoc (by rfl)

/-- A run in which every call succeeds frees each BIO once and returns 0. -/
theorem main_ok_returned (K : SealConsts) (E : BlockFn) (env : Env)
    (hok : ∀ e ∈ (main K E env).trace, e.ok = true) : returned (main K E env) = some 0 := by
  have hrc := main_ok_iRc K E env hok
  rcases main_data_cases K E env with ⟨_, hneg⟩ | ⟨s1, sA, h1, h2, hcase⟩
  · rw [hrc] at hneg
    cases hneg
  · rcases hcase with ⟨_, hm⟩ | ⟨_, hm⟩
    swap
    · have := hok ⟨.BIO_flush, false⟩ (by rw [hm, cleanup_trace, BIO_flush_trace]; simp)
      cases this
    · have hpre : ∀ e ∈ (finish K env (BIO_pop (BIO_flush true (dataRun K E env sA)).1)).trace,
          e.call.isCleanup = false := by
        have hd := (dataRun_noCleanup K E env sA).forall (outA_noCleanup K E env s1 sA h1 h2)
        intro e he
        simp only [finish_trace, BIO_pop_trace, BIO_flush_trace, List.mem_append,
          List.mem_singleton] at he
        rcases he with ((he | rfl) | rfl) | rfl
        · exact hd e he
        · rfl
        · rfl
        · rfl
      have hb : (finish K env (BIO_pop (BIO_flush true (dataRun K E env sA)).1)).bdata ≠
          .b64chain := by
        simp [finish]
      rw [hm, returned_cleanup _ _ hpre hb, finish_iRc]

/-- C1: in every run of `main` in which every call succeeds, `main` returns 0 and the
bytes received by the output file are exactly, in this order: the header marker, the
TSS section marker, the base64 encoding of the blob extracted from `hKey`, the EVP
section marker, the symmetric key-type tag, the AES-256-CBC tag, the base64 encoding
of the blob extracted from `hEncdata`, the data section marker, the base64 encoding
of the ciphertext stream, and the footer marker. Each base64 segment is complete
(it includes what the flush of the filter emits) before the next marker. -/
theorem C1_envelope_layout (K : SealConsts) (E : BlockFn) (env : Env)
    (hok : ∀ e ∈ (main K E env).trace, e.ok = true) :
    ∃ hKey hEncdata keyBlob encBlob,
      env.createKey = some hKey ∧ env.getAttribData_key = some keyBlob ∧
      (⟨.getAttribData hKey .KEY_BLOB, true⟩ : Event) ∈ (main K E env).trace ∧
      env.createEncdata = some hEncdata ∧ env.getAttribData_enc = some encBlob ∧
      (⟨.getAttribData hEncdata .ENCDATA_BLOB, true⟩ : Event) ∈ (main K E env).trace ∧
      (main K E env).iRc = 0 ∧
      (main K E env).out =
        K.TPMSEAL_HDR_STRING ++ K.TPMSEAL_TSS_STRING ++ base64 keyBlob ++
        K.TPMSEAL_EVP_STRING ++ K.TPMSEAL_KEYTYPE_SYM ++ K.TPMSEAL_CIPHER_AES256CBC ++
        base64 encBlob ++ K.TPMSEAL_ENC_STRING ++
        base64 (cipherPieces (main K E env).trace).flatten ++ K.TPMSEAL_FTR_STRING ∧
      returned (main K E env) = some 0 := by
  have hrc := main_ok_iRc K E env hok
  rcases main_data_cases K E env with ⟨_, hneg⟩ | ⟨s1, sA, h1, h2, hcase⟩
  · rw [hrc] at hneg
    cases hneg
  · rcases hcase with ⟨_, hm⟩ | ⟨_, hm⟩
    swap
    · have := hok ⟨.BIO_flush, false⟩ (by rw [hm, cleanup_trace, BIO_flush_trace]; simp)
      cases this
    · have hp := setup_post K env s1 h1
      obtain ⟨hKey, keyBlob, k1, k2, k3, k4⟩ := hp.sealKey
      obtain ⟨hEncdata, encBlob, e1, e2, e3, e4⟩ := hp.encKey
      have hf := (outA_next_iff K E env s1).mp (by rw [h2])
      obtain ⟨_, b1, b2, _, _, b5, b6⟩ := outA_ok K E env s1 hp.bdata hp.enc_data hf.1 hf.2
      rw [h2] at b1 b2 b5 b6
      simp only at b1 b2 b5 b6
      have ha := outA_noEvp K E env s1 sA h1 h2
      obtain ⟨L, hL, c1, _, _⟩ := dataRun_trace K E env sA
      have htr : (main K E env).trace = sA.trace ++
          ⟨.EVP_EncryptInit sA.randKey K.TPMSEAL_IV, true⟩ ::
            (L ++ ([⟨.BIO_flush, true⟩, ⟨.BIO_pop, true⟩, ⟨.BIO_puts .FTR, env.puts .FTR⟩] ++
              cleanupEvents
                (finish K env (BIO_pop (BIO_flush true (dataRun K E env sA)).1), .next))) := by
        rw [hm, cleanup_trace]
        simp only [finish_trace, BIO_pop_trace, BIO_flush_trace, hL]
        simp
      have hpost : ([(⟨.BIO_flush, true⟩ : Event), ⟨.BIO_pop, true⟩,
          ⟨.BIO_puts .FTR, env.puts .FTR⟩] ++
          cleanupEvents (finish K env (BIO_pop (BIO_flush true (dataRun K E env sA)).1),
            .next)).all noEvp = true := by
        rw [List.all_append, cleanupEvents_noEvp]
        rfl
      have hwp : writesOf ([(⟨.BIO_flush, true⟩ : Event), ⟨.BIO_pop, true⟩,
          ⟨.BIO_puts .FTR, env.puts .FTR⟩] ++
          cleanupEvents (finish K env (BIO_pop (BIO_flush true (dataRun K E env sA)).1),
            .next)) = [] := by
        rw [writesOf_append, writesOf_cleanupEvents]
        rfl
      obtain ⟨t1, _, _⟩ := trace_shape sA.trace L _ sA.randKey K.TPMSEAL_IV true ha hpost hwp
      have hsub : ∀ e ∈ sA.trace, e.ok = true := fun e he =>
        hok e (by rw [htr]; exact List.mem_append_left _ he)
      have hputs : ∀ m, env.puts m = true := by
        intro m
        cases m
        · exact hsub ⟨.BIO_puts .HDR, env.puts .HDR⟩ (by rw [b5]; simp)
        · exact hsub ⟨.BIO_puts .TSS, env.puts .TSS⟩ (by rw [b5]; simp)
        · exact hsub ⟨.BIO_puts .EVP, env.puts .EVP⟩ (by rw [b5]; simp)
        · exact hsub ⟨.BIO_puts .KEYTYPE_SYM, env.puts .KEYTYPE_SYM⟩ (by rw [b5]; simp)
        · exact hsub ⟨.BIO_puts .CIPHER_AES256CBC, env.puts .CIPHER_AES256CBC⟩
            (by rw [b5]; simp)
        · exact hsub ⟨.BIO_puts .ENC, env.puts .ENC⟩ (by rw [b5]; simp)
        · exact hok ⟨.BIO_puts .FTR, env.puts .FTR⟩ (by rw [htr]; simp)
      have hw1 : env.write_sealKey = true :=
        hsub ⟨.BIO_write s1.sealKey, env.write_sealKey⟩ (by rw [b5]; simp)
      have hw2 : env.write_encKey = true :=
        hsub ⟨.BIO_write s1.encKey, env.write_encKey⟩ (by rw [b5]; simp)
      have hout := b6 hputs hw1 hw2
      rw [hp.out, List.nil_append, k3, e3] at hout
      have hokd : ∀ e ∈ (dataRun K E env sA).trace, e.ok = true := by
        intro e he
        refine hok e ?_
        rw [htr]
        rw [hL] at he
        rcases List.mem_append.mp he with he | he
        · exact List.mem_append_left _ he
        · refine List.mem_append_right _ ?_
          rcases List.mem_cons.mp he with he | he
          · rw [he]; exact List.mem_cons_self _ _
          · exact List.mem_cons_of_mem _ (List.mem_append_left _ he)
      have hdo := dataRun_out K E env sA hokd b1 b2
      have hfin : (main K E env).out =
          (BIO_flush true (dataRun K E env sA)).1.out ++ K.TPMSEAL_FTR_STRING := by
        rw [hm, cleanup_out]
        show (BIO_puts K env .FTR (BIO_pop (BIO_flush true (dataRun K E env sA)).1)).out = _
        rw [BIO_puts_out_file K env .FTR _ (BIO_pop_bdata _), hputs .FTR, if_pos rfl,
          BIO_pop_out]
        rfl
      have hcp : (cipherPieces (main K E env).trace).flatten =
          (loopPieces E (initCtx K sA) env.reads).flatten ++ finalPiece K E env sA := by
        rw [htr, t1, c1]
        simp
      refine ⟨hKey, hEncdata, keyBlob, encBlob, k1, k2, ?_, e1, e2, ?_, hrc, ?_,
        main_ok_returned K E env hok⟩
      · rw [htr, b5]
        exact List.mem_append_left _ (List.mem_append_left _ k4)
      · rw [htr, b5]
        exact List.mem_append_left _ (List.mem_append_left _ e4)
      · rw [hfin, hdo, hout, hcp]

theorem C1_witness :
    (∀ e ∈ (main sampleConsts sampleCipher sampleEnv).trace, e.ok = true) ∧
    ∃ hKey hEncdata keyBlob encBlob,
      sampleEnv.createKey = some hKey ∧ sampleEnv.getAttribData_key = some keyBlob ∧
      (⟨.getAttribData hKey .KEY_BLOB, true⟩ : Event) ∈
        (main sampleConsts sampleCipher sampleEnv).trace ∧
      sampleEnv.createEncdata = some hEncdata ∧ sampleEnv.getAttribData_enc = some encBlob ∧
      (⟨.getAttribData hEncdata .ENCDATA_BLOB, true⟩ : Event) ∈
        (main sampleConsts sampleCipher sampleEnv).trace ∧
      (main sampleConsts sampleCipher sampleEnv).iRc = 0 ∧
      (main sampleConsts sampleCipher sampleEnv).out =
        sampleConsts.TPMSEAL_HDR_STRING ++ sampleConsts.TPMSEAL_TSS_STRING ++
        base64 keyBlob ++ sampleConsts.TPMSEAL_EVP_STRING ++
        sampleConsts.TPMSEAL_KEYTYPE_SYM ++ sampleConsts.TPMSEAL_CIPHER_AES256CBC ++
        base64 encBlob ++ sampleConsts.TPMSEAL_ENC_STRING ++
        base64 (cipherPieces (main sampleConsts sampleCipher sampleEnv).trace).flatten ++
        sampleConsts.TPMSEAL_FTR_STRING ∧
      returned (main sampleConsts sampleCipher sampleEnv) = some 0 :=
  ⟨by decide, C1_envelope_layout _ _ _ (by decide)⟩

end TpmSealdata
